import Mathlib

/-!
# Wiretap file-type dispatch and the SMTP dissector state machine

Part I holds the definitions, Part II the theorems.

A shallow embedding of `wiretap/file.c` (`wtap_open_offline`) and of
`epan/dissectors/packet-smtp.c` (`dissect_smtp`), with theorems about the
dispatch order of the open routines and about the per-conversation SMTP
state.
-/

namespace Wiretap

/-! ## wiretap/file.c -/

/-- Error codes stored in `*err` and `errno`: either an operating-system
`errno` value or one of the `WTAP_ERR_` constants of `wtap.h`, kept symbolic. -/
inductive ErrCode where
  | os (n : Nat)
  | ENOMEM
  | WTAP_ERR_NOT_REGULAR_FILE
  | WTAP_ERR_FILE_UNKNOWN_FORMAT
  | WTAP_ERR_CANT_OPEN
  | WTAP_ERR_UNSUPPORTED_FILE_TYPE
  | WTAP_ERR_CANT_CLOSE
  | WTAP_ERR_UNSUPPORTED
  | WTAP_ERR_UNSUPPORTED_ENCAP
  | WTAP_ERR_BAD_RECORD
  deriving DecidableEq, Repr

/-- The entries of the `open_routines` table. -/
inductive OpenRoutine where
  | libpcap_open
  | lanalyzer_open
  | ngsniffer_open
  | snoop_open
  | iptrace_open
  | netmon_open
  | netxray_open
  | radcom_open
  | nettl_open
  | ascend_open
  | toshiba_open
  deriving DecidableEq, Repr

open OpenRoutine in
/-- The table `open_routines[]`, in source order. -/
def open_routines : List OpenRoutine :=
  [libpcap_open, lanalyzer_open, ngsniffer_open, snoop_open, iptrace_open,
   netmon_open, netxray_open, radcom_open, nettl_open,
   ascend_open, toshiba_open]

/-- The macro `N_FILE_TYPES`. -/
def N_FILE_TYPES : Nat := open_routines.length

/-- What one call `(*open_routines[i])(wth, err)` does that the caller can
see: its return value, and the values it leaves in `errno` and `*err`
(`none` when it does not write them). -/
structure ProbeResult where
  ret : Int
  errno_set : Option ErrCode
  err_set : Option ErrCode
  deriving DecidableEq, Repr

/-- The results of the system calls made before the dispatch loop. -/
structure OpenEnv where
  /-- Whether `stat(filename, &statb) < 0`. -/
  stat_fails : Bool
  /-- The `errno` left by a failing `stat`. -/
  stat_errno : ErrCode
  /-- The value of `S_ISREG(statb.st_mode)`. -/
  is_reg : Bool
  /-- The value of `S_ISFIFO(statb.st_mode)`. -/
  is_fifo : Bool
  /-- Whether `malloc` returned `NULL`. -/
  malloc_fails : Bool
  /-- The value returned by `open(filename, O_RDONLY)`. -/
  open_fd : Int
  /-- The `errno` after `open`, when `open` changed it. -/
  open_errno : Option ErrCode
  /-- Whether `filed_open` returned `NULL`. -/
  filed_open_fails : Bool
  /-- The `errno` after `filed_open`, when it changed it. -/
  filed_open_errno : Option ErrCode
  deriving DecidableEq, Repr

/-- The observable state threaded through `wtap_open_offline`. -/
structure OpenState where
  errno : ErrCode
  /-- The caller's `*err`, `none` while it is still unwritten. -/
  err : Option ErrCode
  /-- The open routines called so far, oldest first. -/
  calls : List OpenRoutine
  /-- The number of `file_close(wth->fh)` calls. -/
  file_close_calls : Nat
  /-- The number of `free(wth)` calls. -/
  free_calls : Nat
  deriving DecidableEq, Repr

/-- The value returned by `wtap_open_offline`: `NULL`, or the `wtap` as left
by the open routine that recognised the file. -/
inductive OpenReturn where
  | NULL
  | wth (recognised_by : OpenRoutine)
  deriving DecidableEq, Repr

/-- The state after the call of one open routine. -/
def call_routine (probe : OpenRoutine → ProbeResult) (r : OpenRoutine)
    (s : OpenState) : OpenState :=
  { s with
    calls := s.calls ++ [r]
    errno := ((probe r).errno_set).getD s.errno
    err := match (probe r).err_set with
      | some e => some e
      | none => s.err }

/-- The loop `for (i = 0; i < N_FILE_TYPES; i++) switch (...)` of
`wtap_open_offline` over the remaining table entries, followed by the code
after the loop. -/
def try_all_file_types (probe : OpenRoutine → ProbeResult) :
    List OpenRoutine → OpenState → OpenReturn × OpenState
  | [], s =>
    -- it's not one of the types of file we know about
    (OpenReturn.NULL,
     { s with file_close_calls := s.file_close_calls + 1
              free_calls := s.free_calls + 1
              err := some ErrCode.WTAP_ERR_FILE_UNKNOWN_FORMAT })
  | r :: rest, s =>
    let s1 := call_routine probe r s
    if (probe r).ret = -1 then
      -- I/O error - give up
      (OpenReturn.NULL,
       { s1 with err := some s1.errno
                 file_close_calls := s1.file_close_calls + 1
                 free_calls := s1.free_calls + 1 })
    else if (probe r).ret = 0 then
      try_all_file_types probe rest s1
    else if (probe r).ret = 1 then
      -- success:
      (OpenReturn.wth r, s1)
    else
      -- no case of the switch applies
      try_all_file_types probe rest s1

/-- The function `wtap_open_offline`. -/
def wtap_open_offline (env : OpenEnv) (probe : OpenRoutine → ProbeResult)
    (s : OpenState) : OpenReturn × OpenState :=
  if env.stat_fails then
    (OpenReturn.NULL, { s with errno := env.stat_errno, err := some env.stat_errno })
  else if !env.is_reg && !env.is_fifo then
    (OpenReturn.NULL, { s with err := some ErrCode.WTAP_ERR_NOT_REGULAR_FILE })
  else if env.malloc_fails then
    (OpenReturn.NULL, { s with errno := ErrCode.ENOMEM, err := some ErrCode.ENOMEM })
  else
    let e1 := (env.open_errno).getD ErrCode.WTAP_ERR_CANT_OPEN
    if env.open_fd = 0 then
      (OpenReturn.NULL,
       { s with errno := e1, err := some e1, free_calls := s.free_calls + 1 })
    else
      let e2 := (env.filed_open_errno).getD e1
      if env.filed_open_fails then
        (OpenReturn.NULL,
         { s with errno := e2, err := some e2, free_calls := s.free_calls + 1 })
      else
        try_all_file_types probe open_routines { s with errno := e2 }

/-- The calls before the loop all succeed, so that the loop is reached. -/
def reaches_loop (env : OpenEnv) : Prop :=
  env.stat_fails = false ∧ (env.is_reg = true ∨ env.is_fifo = true) ∧
  env.malloc_fails = false ∧ env.open_fd ≠ 0 ∧ env.filed_open_fails = false

instance (env : OpenEnv) : Decidable (reaches_loop env) := by
  unfold reaches_loop; infer_instance

/-- The state after the open routines of a list have been called in turn. -/
def call_all (probe : OpenRoutine → ProbeResult) (l : List OpenRoutine)
    (s : OpenState) : OpenState :=
  l.foldl (fun acc r => call_routine probe r acc) s

/-- An environment in which every call before the loop succeeds. -/
def env_regular_file : OpenEnv :=
  { stat_fails := false, stat_errno := ErrCode.os 0, is_reg := true, is_fifo := false,
    malloc_fails := false, open_fd := 3, open_errno := none,
    filed_open_fails := false, filed_open_errno := none }

/-- The state of a caller that has made no call yet. -/
def fresh_state : OpenState :=
  { errno := ErrCode.os 0, err := none, calls := [], file_close_calls := 0, free_calls := 0 }

/-- An assignment of results: `snoop_open` and `toshiba_open` recognise the
file, `netmon_open` would fail with an I/O error, the others return 0. -/
def probe_snoop_and_toshiba (r : OpenRoutine) : ProbeResult :=
  match r with
  | OpenRoutine.snoop_open => { ret := 1, errno_set := none, err_set := none }
  | OpenRoutine.toshiba_open => { ret := 1, errno_set := none, err_set := none }
  | OpenRoutine.netmon_open =>
    { ret := -1, errno_set := some (ErrCode.os 5), err_set := none }
  | _ => { ret := 0, errno_set := none, err_set := none }

/-- An assignment of results: `ngsniffer_open` fails with an I/O error,
`netxray_open` would recognise the file, the others return 0. -/
def probe_ngsniffer_io_error (r : OpenRoutine) : ProbeResult :=
  match r with
  | OpenRoutine.ngsniffer_open =>
    { ret := -1, errno_set := some (ErrCode.os 5), err_set := none }
  | OpenRoutine.netxray_open => { ret := 1, errno_set := none, err_set := none }
  | _ => { ret := 0, errno_set := none, err_set := none }

/-- An assignment of results: no routine recognises the file; one of them
writes an error of its own to `*err` on the way. -/
def probe_none_matches (r : OpenRoutine) : ProbeResult :=
  match r with
  | OpenRoutine.radcom_open =>
    { ret := 0, errno_set := none, err_set := some ErrCode.WTAP_ERR_CANT_OPEN }
  | _ => { ret := 0, errno_set := none, err_set := none }

end Wiretap

namespace Smtp

/-! ## epan/dissectors/packet-smtp.c -/

/-- The bytes of a C string literal, without its terminating NUL. -/
def bytes (s : String) : List Nat := s.toList.map Char.toNat

/-- The macro `ISALPHA` of `dissect_smtp`: only A-Z and a-z. -/
def ISALPHA (c : Nat) : Bool := (65 ≤ c && c ≤ 90) || (97 ≤ c && c ≤ 122)

/-- The C library `tolower` in the C locale. -/
def tolower (c : Nat) : Nat := if 65 ≤ c ∧ c ≤ 90 then c + 32 else c

/-- The C library `strncmp(a, b, n)`; reading past the end of a list gives the
terminating NUL. The result is the difference at the first mismatch. -/
def strncmp (a b : List Nat) : Nat → Int
  | 0 => 0
  | n + 1 =>
    let ca := a.headD 0
    let cb := b.headD 0
    if ca ≠ cb then (ca : Int) - (cb : Int)
    else if ca = 0 then 0
    else strncmp a.tail b.tail n

/-- The C library `strncasecmp(a, b, n)` in the C locale. -/
def strncasecmp (a b : List Nat) : Nat → Int
  | 0 => 0
  | n + 1 =>
    let ca := tolower (a.headD 0)
    let cb := tolower (b.headD 0)
    if ca ≠ cb then (ca : Int) - (cb : Int)
    else if ca = 0 then 0
    else strncasecmp a.tail b.tail n

/-- A tvbuff: the captured bytes and the length the packet had on the wire. -/
structure tvbuff_t where
  data : List Nat
  reported_length : Nat
  deriving DecidableEq, Repr

/-- Modelled from the spec: `compute_offset_length` of epan/tvbuff.c (not
under src/), for a length argument of -1. A non-negative offset counts from
the start of the buffer and a negative one from its end; an offset outside
the buffer is refused (`none`) instead of being read. -/
def compute_offset (tvb : tvbuff_t) (offset : Int) : Option Nat :=
  if 0 ≤ offset then
    if offset.toNat > tvb.reported_length then none
    else if offset.toNat > tvb.data.length then none
    else some offset.toNat
  else
    if (-offset).toNat > tvb.reported_length then none
    else if (-offset).toNat > tvb.data.length then none
    else some (tvb.data.length - (-offset).toNat)

/-- Modelled from the spec: `tvb_length_remaining` of epan/tvbuff.c (not under
src/): the captured bytes from `offset` on, -1 for an offset outside the
buffer. -/
def tvb_length_remaining (tvb : tvbuff_t) (offset : Int) : Int :=
  match compute_offset tvb offset with
  | some abs_offset => ((tvb.data.length - abs_offset : Nat) : Int)
  | none => -1

/-- Modelled from the spec: `tvb_reported_length_remaining` of epan/tvbuff.c
(not under src/): the reported bytes from `offset` on, -1 when there are
none. -/
def tvb_reported_length_remaining (tvb : tvbuff_t) (offset : Int) : Int :=
  match compute_offset tvb offset with
  | some abs_offset =>
    if tvb.reported_length ≥ abs_offset then
      ((tvb.reported_length - abs_offset : Nat) : Int)
    else -1
  | none => -1

/-- Modelled from the spec: `tvb_offset_exists` of epan/tvbuff.c (not under
src/): there is a captured byte at `offset`. -/
def tvb_offset_exists (tvb : tvbuff_t) (offset : Int) : Bool :=
  match compute_offset tvb offset with
  | some abs_offset => decide (abs_offset < tvb.data.length)
  | none => false

/-- Modelled from the spec: `tvb_strneql` of epan/tvbuff.c (not under src/):
0 when `size` bytes are available at `offset` and `strncmp` finds them equal
to `str`, -1 otherwise; a read that would exceed the buffer fails rather than
reading out of range. -/
def tvb_strneql (tvb : tvbuff_t) (offset : Int) (str : List Nat) (size : Nat) : Int :=
  match compute_offset tvb offset with
  | some abs_offset =>
    if abs_offset + size ≤ tvb.data.length then
      if strncmp ((tvb.data.drop abs_offset).take size) str size = 0 then 0 else -1
    else -1
  | none => -1

/-- Modelled from the spec: `tvb_pbrk_guint8(tvb, offset, -1, "\r\n")` of
epan/tvbuff.c (not under src/), relative to `offset`: the position of the
first CR or LF in the given bytes. -/
def find_cr_or_lf : List Nat → Option Nat
  | [] => none
  | c :: rest =>
    if c = 13 ∨ c = 10 then some 0
    else match find_cr_or_lf rest with
      | some k => some (k + 1)
      | none => none

/-- Modelled from the spec: `tvb_find_line_end(tvb, offset, -1, &next_offset,
desegment)` of epan/tvbuff.c (not under src/), for an offset inside the
buffer. A line runs up to the first CR, LF or CR LF; the result is
`some (linelen, next_offset)`, or `none` for the return value -1: no line
terminator in the available bytes (or a CR as the last byte) while
`desegment` is set, which tells a streaming caller that more data is needed.
Without `desegment` the line is taken to run to the end of the buffer. -/
def tvb_find_line_end (tvb : tvbuff_t) (offset : Nat) (desegment : Bool) :
    Option (Nat × Nat) :=
  let len := tvb.data.length - offset
  let eob_offset := offset + len
  match find_cr_or_lf (tvb.data.drop offset) with
  | none =>
    if desegment then none else some (eob_offset - offset, eob_offset)
  | some k =>
    let eol_offset := offset + k
    if tvb.data.getD eol_offset 0 = 13 then
      if eol_offset + 1 ≥ eob_offset then
        if desegment then none else some (k, eol_offset + 1)
      else if tvb.data.getD (eol_offset + 1) 0 = 10 then some (k, eol_offset + 2)
      else some (k, eol_offset + 1)
    else some (k, eol_offset + 1)

/-- Modelled from the spec: `tvb_get_ptr` and `tvb_format_text` of
epan/tvbuff.c (not under src/): the `len` bytes at `offset`. -/
def tvb_get_ptr (tvb : tvbuff_t) (offset len : Nat) : List Nat :=
  (tvb.data.drop offset).take len

def SMTP_PDU_CMD : Nat := 0
def SMTP_PDU_MESSAGE : Nat := 1
def SMTP_PDU_EOM : Nat := 2

/-- The per-frame data `struct smtp_proto_data`. -/
structure smtp_proto_data where
  pdu_type : Nat
  conversation_id : Nat
  deriving DecidableEq, Repr

/-- State information stored with a conversation, `struct smtp_request_val`. -/
structure smtp_request_val where
  reading_data : Bool
  crlf_seen : Nat
  data_seen : Nat
  deriving DecidableEq, Repr

/-- Modelled from the spec: `conversation_t` of epan/conversation.h (not under
src/): the endpoint tuple of the conversation, its index, and the data a
protocol attached to it (here the data of `proto_smtp`). -/
structure conversation_t where
  index : Nat
  addr1 : Nat
  port1 : Nat
  addr2 : Nat
  port2 : Nat
  ptype : Nat
  proto_data : Option smtp_request_val
  deriving DecidableEq, Repr

/-- The fields of `packet_info` (and of the frame `pinfo->fd` and the columns
`pinfo->cinfo`) that `dissect_smtp` reads or writes. -/
structure packet_info where
  fd_num : Nat
  src : Nat
  dst : Nat
  ptype : Nat
  srcport : Nat
  destport : Nat
  match_port : Nat
  can_desegment : Nat
  desegment_offset : Nat
  desegment_len : Nat
  fragmented : Bool
  deriving DecidableEq, Repr

/-- What `dissect_smtp` puts in the Info column. -/
inductive ColInfo where
  | data_fragment
  | message_body
  | eom (line : List Nat)
  | command (line : List Nat)
  | response (line : List Nat)
  deriving DecidableEq, Repr

/-- The items `dissect_smtp` adds to the protocol tree, named after the
field or the text label of the call that adds them. -/
inductive TreeItem where
  | proto_smtp (offset : Nat)
  | hf_reassembled_in (frame : Nat)
  | message_text (offset length : Nat) (text : List Nat)
  | eom_text (offset length : Nat) (text : List Nat)
  | hf_smtp_req
  | command_text (offset length : Nat) (text : List Nat)
  | hf_smtp_req_command (offset length : Nat)
  | hf_smtp_req_parameter (offset length : Nat)
  | hf_smtp_rsp
  | response_text (offset length : Nat) (text : List Nat)
  | hf_smtp_rsp_code (offset : Nat) (code : Nat)
  | hf_smtp_rsp_parameter (offset length : Nat)
  deriving DecidableEq, Repr

/-- The calls `dissect_smtp` makes into the reassembly code and to the IMF
dissector. -/
inductive ReassemblyCall where
  | fragment_add_seq_next (id : Nat) (frag_data : List Nat)
  | fragment_end_seq_next (id : Nat)
  | process_reassembled_data
  | call_dissector_imf
  deriving DecidableEq, Repr

/-- The dissector's global state: the conversation table with its index
counter, and the per-frame data of `proto_smtp` keyed by frame number. -/
structure SmtpState where
  conversations : List conversation_t
  new_index : Nat
  frame_data : List (Nat × smtp_proto_data)
  deriving DecidableEq, Repr

/-- The preferences and the inputs of one call that come from outside the
dissector. -/
structure Env where
  smtp_desegment : Bool
  smtp_data_desegment : Bool
  /-- Whether `imf_handle` is not NULL. -/
  imf_handle : Bool
  /-- Whether the `tree` argument is not NULL. -/
  tree : Bool
  /-- The value of `check_col(pinfo->cinfo, COL_PROTOCOL)`. -/
  col_protocol : Bool
  /-- The value of `check_col(pinfo->cinfo, COL_INFO)`. -/
  col_info : Bool
  /-- The `reassembled_in` of what `fragment_add_seq_next` returns, if not NULL. -/
  frag_msg : Option Nat
  deriving DecidableEq, Repr

/-- The columns and tree of one call, with the calls made to the reassembly
code. -/
structure Display where
  col_protocol : Option String
  col_info : Option ColInfo
  tree_items : List TreeItem
  calls : List ReassemblyCall
  deriving DecidableEq, Repr

/-- What one call of `dissect_smtp` leaves behind. -/
structure DissectResult where
  st : SmtpState
  pinfo : packet_info
  /-- The per-frame data the call worked with, `none` when there is none. -/
  frame_data : Option smtp_proto_data
  display : Display
  deriving DecidableEq, Repr

/-- Two endpoint tuples name the same conversation: same port type and the
same two endpoints, in either direction. -/
def same_conversation (a1 p1 a2 p2 pt b1 q1 b2 q2 qt : Nat) : Bool :=
  pt == qt &&
  ((a1 == b1 && p1 == q1 && a2 == b2 && p2 == q2) ||
   (a1 == b2 && p1 == q2 && a2 == b1 && p2 == q1))

/-- The conversation `c` is the one of the packet `pinfo`. -/
def conv_matches (pinfo : packet_info) (c : conversation_t) : Bool :=
  same_conversation c.addr1 c.port1 c.addr2 c.port2 c.ptype
    pinfo.src pinfo.srcport pinfo.dst pinfo.destport pinfo.ptype

/-- Modelled from the spec: `find_conversation(pinfo->fd->num, &pinfo->src,
&pinfo->dst, pinfo->ptype, pinfo->srcport, pinfo->destport, 0)` of
epan/conversation.c (not under src/): the conversation of the table whose
endpoint pair is the packet's. This is the generic conversation tracking,
which is direction-independent and keeps one state object per key; the
dissector tells the two directions apart itself, by `is_request`. -/
def find_conversation (tbl : List conversation_t) (pinfo : packet_info) :
    Option conversation_t :=
  tbl.find? (conv_matches pinfo)

/-- Modelled from the spec: `conversation_new` of epan/conversation.c (not
under src/): a conversation without protocol data for the packet's endpoint
pair, numbered by the table's counter and added to the table. -/
def conversation_new (st : SmtpState) (pinfo : packet_info) :
    conversation_t × SmtpState :=
  let c : conversation_t :=
    { index := st.new_index, addr1 := pinfo.src, port1 := pinfo.srcport,
      addr2 := pinfo.dst, port2 := pinfo.destport, ptype := pinfo.ptype,
      proto_data := none }
  (c, { st with conversations := st.conversations ++ [c], new_index := st.new_index + 1 })

/-- Writes through the pointer `request_val`: the data attached to the
packet's conversation becomes `rv` (this covers
`conversation_add_proto_data` and the later assignments to its fields). -/
def set_request_val (pinfo : packet_info) (rv : smtp_request_val) :
    List conversation_t → List conversation_t
  | [] => []
  | c :: rest =>
    if conv_matches pinfo c then { c with proto_data := some rv } :: rest
    else c :: set_request_val pinfo rv rest

/-- Modelled from the spec: `p_get_proto_data(pinfo->fd, proto_smtp)` of
epan/frame_data.c (not under src/): the data attached to the frame, if any. -/
def p_get_proto_data (tbl : List (Nat × smtp_proto_data)) (fd_num : Nat) :
    Option smtp_proto_data :=
  match tbl.find? (fun e => e.1 == fd_num) with
  | some e => some e.2
  | none => none

/-- Modelled from the spec: `p_add_proto_data(pinfo->fd, proto_smtp,
frame_data)` of epan/frame_data.c (not under src/). -/
def p_add_proto_data (tbl : List (Nat × smtp_proto_data)) (fd_num : Nat)
    (d : smtp_proto_data) : List (Nat × smtp_proto_data) :=
  (fd_num, d) :: tbl

/-- The test `(request_val->crlf_seen && tvb_strneql(tvb, offset, ".\r\n", 3)
== 0) || tvb_strneql(tvb, offset, "\r\n.\r\n", 5) == 0` at offset 0. -/
def eom_condition (tvb : tvbuff_t) (crlf_seen : Nat) : Bool :=
  (crlf_seen != 0 && tvb_strneql tvb 0 (bytes ".\r\n") 3 == 0) ||
  tvb_strneql tvb 0 (bytes "\r\n.\r\n") 5 == 0

/-- The test that sets `crlf_seen`: the buffer is fully captured and
`tvb_strneql(tvb, offset + length_remaining - 2, "\r\n", 2) == 0`, at
offset 0. -/
def ends_with_crlf (tvb : tvbuff_t) : Bool :=
  let length_remaining := tvb_length_remaining tvb 0
  length_remaining == tvb_reported_length_remaining tvb 0 &&
  tvb_strneql tvb (0 + length_remaining - 2) (bytes "\r\n") 2 == 0

/-- The test for a command of four letters, `linelen >= 4 && ISALPHA(line[0])
&& ... && (linelen == 4 || line[4] == ' ')`. -/
def is_command_line (linelen : Nat) (line : List Nat) : Bool :=
  decide (linelen ≥ 4) && ISALPHA (line.getD 0 0) && ISALPHA (line.getD 1 0) &&
  ISALPHA (line.getD 2 0) && ISALPHA (line.getD 3 0) &&
  (linelen == 4 || line.getD 4 0 == 32)

/-- The test for the vendor commands X-EXPS, X-LINK2STATE and XEXCH50. -/
def is_vendor_line (linelen : Nat) (line : List Nat) : Bool :=
  decide (linelen ≥ 7) && line.getD 0 0 == 88 &&
  (strncasecmp line (bytes "X-EXPS ") 7 == 0 ||
   (decide (linelen ≥ 13) && strncasecmp line (bytes "X-LINK2STATE ") 13 == 0) ||
   (decide (linelen ≥ 8) && strncasecmp line (bytes "XEXCH50 ") 8 == 0))

/-- The block `if (request_val->reading_data) { ... }` that looks for the end
of message and records whether the packet ends in CR LF: the new
`request_val` and `eom_seen`. -/
def check_eom (tvb : tvbuff_t) (rv : smtp_request_val) : smtp_request_val × Bool :=
  if rv.reading_data then
    let eom_seen := eom_condition tvb rv.crlf_seen
    if ends_with_crlf tvb then ({ rv with crlf_seen := 1 }, eom_seen)
    else ({ rv with crlf_seen := 0 }, eom_seen)
  else (rv, false)

/-- The body of `if (request) { ... }` up to `p_add_proto_data`: the
`pdu_type` given to the frame and the new `request_val`. -/
def classify_request (linelen : Nat) (line : List Nat) (eom_seen : Bool)
    (rv : smtp_request_val) : Nat × smtp_request_val :=
  if rv.reading_data then
    -- This is message data.
    if eom_seen then (SMTP_PDU_EOM, { rv with reading_data := false })
    else (SMTP_PDU_MESSAGE, rv)
  else if is_command_line linelen line then
    if strncasecmp line (bytes "DATA") 4 == 0 then
      (SMTP_PDU_CMD, { rv with reading_data := true, data_seen := 1 })
    else (SMTP_PDU_CMD, rv)
  else if is_vendor_line linelen line then (SMTP_PDU_CMD, rv)
  else (if rv.data_seen != 0 then SMTP_PDU_MESSAGE else SMTP_PDU_CMD, rv)

/-- The lookup of the packet's conversation, creating it when there is none:
`find_conversation` followed by `conversation_new` on NULL. -/
def find_or_new (st : SmtpState) (pinfo : packet_info) : conversation_t × SmtpState :=
  match find_conversation st.conversations pinfo with
  | some c => (c, st)
  | none => conversation_new st pinfo

/-- The `request_val` a new conversation gets. -/
def new_request_val : smtp_request_val :=
  { reading_data := false, crlf_seen := 0, data_seen := 0 }

/-- The block `if (!frame_data) { ... }` of `dissect_smtp`, run when the frame
carries no data yet: it finds or creates the conversation and its
`request_val`, updates it, and for a request attaches the frame data. -/
def first_pass (tvb : tvbuff_t) (pinfo : packet_info) (request : Bool)
    (linelen : Nat) (line : List Nat) (st : SmtpState) :
    SmtpState × Option smtp_proto_data :=
  let conversation := (find_or_new st pinfo).1
  let st1 := (find_or_new st pinfo).2
  -- the attached request_val, or a new one when there is none
  let request_val : smtp_request_val := (conversation.proto_data).getD new_request_val
  let rv1 := (check_eom tvb request_val).1
  let eom_seen := (check_eom tvb request_val).2
  if request then
    let pdu_type := (classify_request linelen line eom_seen rv1).1
    let rv2 := (classify_request linelen line eom_seen rv1).2
    let frame_data : smtp_proto_data :=
      { pdu_type := pdu_type, conversation_id := conversation.index % 65536 }
    ({ st1 with
       conversations := set_request_val pinfo rv2 st1.conversations
       frame_data := p_add_proto_data st1.frame_data pinfo.fd_num frame_data },
     some frame_data)
  else
    ({ st1 with conversations := set_request_val pinfo rv1 st1.conversations }, none)

/-- The function `dissect_smtp_data`: one "Message:" item per line from
`offset` on. The loop advances by at least one byte per round, so
`tvb.data.length + 1` rounds of fuel are never used up. -/
def dissect_smtp_data (tvb : tvbuff_t) : Nat → Nat → List TreeItem
  | 0, _ => []
  | fuel + 1, offset =>
    if tvb_offset_exists tvb offset then
      match tvb_find_line_end tvb offset false with
      | some (_, next_offset) =>
        TreeItem.message_text offset (next_offset - offset)
            (tvb_get_ptr tvb offset (next_offset - offset)) ::
          dissect_smtp_data tvb fuel next_offset
      | none => []  -- not reached: without desegment a line is always found
    else []

/-- Whether a byte is an ASCII digit, `isdigit`. -/
def isdigit (c : Nat) : Bool := decide (48 ≤ c) && decide (c ≤ 57)

/-- The response loop of `dissect_smtp`: the items of each response line, up
to and including the first line that is not a continuation line. -/
def dissect_response (tvb : tvbuff_t) : Nat → Nat → List TreeItem
  | 0, _ => []
  | fuel + 1, offset =>
    if tvb_offset_exists tvb offset then
      match tvb_find_line_end tvb offset false with
      | some (linelen, next_offset) =>
        let is_continuation_line :=
          decide (linelen ≥ 4) && tvb.data.getD (offset + 3) 0 == 45
        let line := tvb_get_ptr tvb offset linelen
        let code_items : List TreeItem :=
          if decide (linelen ≥ 3) && isdigit (line.getD 0 0) && isdigit (line.getD 1 0)
              && isdigit (line.getD 2 0) then
            let code := (line.getD 0 0 - 48) * 100 + (line.getD 1 0 - 48) * 10
              + (line.getD 2 0 - 48)
            TreeItem.hf_smtp_rsp_code offset code ::
              (if linelen ≥ 4 then [TreeItem.hf_smtp_rsp_parameter (offset + 4) (linelen - 4)]
               else [])
          else []
        TreeItem.response_text offset (next_offset - offset)
            (tvb_get_ptr tvb offset (next_offset - offset)) ::
          (code_items ++
            (if is_continuation_line then dissect_response tvb fuel next_offset else []))
      | none => []  -- not reached: without desegment a line is always found
    else []

/-- The second half of `dissect_smtp`, from "From here, we simply add items to
the tree and info to the info fields": the columns, the tree items, the
reassembly calls and `pinfo->fragmented`. -/
def add_items (env : Env) (tvb : tvbuff_t) (pinfo : packet_info) (request : Bool)
    (frame_data : Option smtp_proto_data) (linelen next_offset : Nat)
    (line : List Nat) : Display × Bool :=
  let col_protocol := if env.col_protocol then some "SMTP" else none
  let col_info : Option ColInfo :=
    if env.col_info then
      if request then
        match frame_data with
        | some fd =>
          if fd.pdu_type = SMTP_PDU_MESSAGE then
            some (if env.smtp_data_desegment then ColInfo.data_fragment
                  else ColInfo.message_body)
          else if fd.pdu_type = SMTP_PDU_EOM then some (ColInfo.eom line)
          else if fd.pdu_type = SMTP_PDU_CMD then some (ColInfo.command line)
          else none
        | none => none  -- a request always has frame data here
      else some (ColInfo.response line)
    else none
  if env.tree then
    let ti := TreeItem.proto_smtp 0
    if request then
      match frame_data with
      | some fd =>
        if fd.pdu_type = SMTP_PDU_MESSAGE then
          if env.smtp_data_desegment then
            let link : List TreeItem :=
              match env.frag_msg with
              | some reassembled_in =>
                if pinfo.fd_num ≠ reassembled_in then
                  [TreeItem.hf_reassembled_in reassembled_in]
                else []
              | none => []
            ({ col_protocol := col_protocol, col_info := col_info,
               tree_items := ti :: link,
               calls := [ReassemblyCall.fragment_add_seq_next fd.conversation_id
                 (tvb_get_ptr tvb 0 (tvb_length_remaining tvb 0).toNat)] }, true)
          else
            ({ col_protocol := col_protocol, col_info := col_info,
               tree_items := ti :: dissect_smtp_data tvb (tvb.data.length + 1) 0,
               calls := [] }, pinfo.fragmented)
        else if fd.pdu_type = SMTP_PDU_EOM then
          let eom := TreeItem.eom_text 0 linelen line
          if env.smtp_data_desegment then
            let calls := [ReassemblyCall.fragment_end_seq_next fd.conversation_id,
                          ReassemblyCall.process_reassembled_data]
            if env.imf_handle then
              ({ col_protocol := col_protocol, col_info := col_info,
                 tree_items := [ti, eom],
                 calls := calls ++ [ReassemblyCall.call_dissector_imf] }, false)
            else
              ({ col_protocol := col_protocol, col_info := col_info,
                 tree_items := ti :: eom :: dissect_smtp_data tvb (tvb.data.length + 1) 0,
                 calls := calls }, false)
          else
            ({ col_protocol := col_protocol, col_info := col_info,
               tree_items := [ti, eom], calls := [] }, pinfo.fragmented)
        else if fd.pdu_type = SMTP_PDU_CMD then
          let cmdlen := if linelen ≥ 4 then 4 else linelen
          let param : List TreeItem :=
            if linelen > 5 then [TreeItem.hf_smtp_req_parameter 5 (linelen - 5)] else []
          ({ col_protocol := col_protocol, col_info := col_info,
             tree_items := [ti, TreeItem.hf_smtp_req,
               TreeItem.command_text 0 next_offset (tvb_get_ptr tvb 0 next_offset),
               TreeItem.hf_smtp_req_command 0 cmdlen] ++ param,
             calls := [] }, pinfo.fragmented)
        else
          ({ col_protocol := col_protocol, col_info := col_info,
             tree_items := [ti], calls := [] }, pinfo.fragmented)
      | none =>  -- a request always has frame data here
        ({ col_protocol := col_protocol, col_info := col_info,
           tree_items := [ti], calls := [] }, pinfo.fragmented)
    else
      ({ col_protocol := col_protocol, col_info := col_info,
         tree_items := ti :: TreeItem.hf_smtp_rsp ::
           dissect_response tvb (tvb.data.length + 1) 0,
         calls := [] }, pinfo.fragmented)
  else
    ({ col_protocol := col_protocol, col_info := col_info,
       tree_items := [], calls := [] }, pinfo.fragmented)

/-- The packet is a request, sent by the client: `pinfo->destport ==
pinfo->match_port`. -/
def is_request (pinfo : packet_info) : Bool := pinfo.destport == pinfo.match_port

/-- The function `dissect_smtp`. -/
def dissect_smtp (env : Env) (tvb : tvbuff_t) (pinfo : packet_info)
    (st : SmtpState) : DissectResult :=
  let request := is_request pinfo
  match tvb_find_line_end tvb 0 (env.smtp_desegment && pinfo.can_desegment != 0) with
  | none =>
    -- We didn't find a line ending, and we're doing desegmentation
    { st := st
      pinfo := { pinfo with desegment_offset := 0, desegment_len := 1 }
      frame_data := none
      display := { col_protocol := none, col_info := none, tree_items := [], calls := [] } }
  | some (linelen, next_offset) =>
    let line := tvb_get_ptr tvb 0 linelen
    let pass : SmtpState × Option smtp_proto_data :=
      match p_get_proto_data st.frame_data pinfo.fd_num with
      | some fd => (st, some fd)
      | none => first_pass tvb pinfo request linelen line st
    let items := add_items env tvb pinfo request pass.2 linelen next_offset line
    { st := pass.1
      pinfo := { pinfo with fragmented := items.2 }
      frame_data := pass.2
      display := items.1 }

/-- The `request_val` stored in a conversation table for the packet's
conversation, if any: `conversation_get_proto_data(find_conversation(...),
proto_smtp)`. -/
def request_val_in (tbl : List conversation_t) (pinfo : packet_info) :
    Option smtp_request_val :=
  match find_conversation tbl pinfo with
  | some c => c.proto_data
  | none => none

/-- The `request_val` stored for the packet's conversation, if any. -/
def request_val_of (st : SmtpState) (pinfo : packet_info) : Option smtp_request_val :=
  request_val_in st.conversations pinfo

/-- The `request_val` the dissector works with for the packet's conversation:
the stored one, or the initial one when nothing is stored yet. -/
def current_request_val (st : SmtpState) (pinfo : packet_info) : smtp_request_val :=
  (request_val_of st pinfo).getD new_request_val

/-- The conversation's `reading_data`: TRUE is the state ReadingBody, FALSE
the state AwaitingLine. -/
def reading_data_of (st : SmtpState) (pinfo : packet_info) : Bool :=
  (current_request_val st pinfo).reading_data

/-- The conversation's `crlf_seen`. -/
def crlf_seen_of (st : SmtpState) (pinfo : packet_info) : Nat :=
  (current_request_val st pinfo).crlf_seen

/-- The conversation's `data_seen`. -/
def data_seen_of (st : SmtpState) (pinfo : packet_info) : Nat :=
  (current_request_val st pinfo).data_seen

/-- The `pdu_type` attached to the packet's frame, if any. -/
def frame_pdu_type (st : SmtpState) (pinfo : packet_info) : Option Nat :=
  (p_get_proto_data st.frame_data pinfo.fd_num).map (fun d => d.pdu_type)

/-- The packets `p` and `q` belong to the same conversation. -/
def same_conv (p q : packet_info) : Bool :=
  same_conversation p.src p.srcport p.dst p.destport p.ptype
    q.src q.srcport q.dst q.destport q.ptype

/-- The `request_val` that `first_pass` leaves for the packet's conversation,
as a function of the one stored before. -/
def next_request_val (tvb : tvbuff_t) (request : Bool) (linelen : Nat)
    (line : List Nat) (old : Option smtp_request_val) : smtp_request_val :=
  let rv0 := old.getD new_request_val
  if request then
    (classify_request linelen line (check_eom tvb rv0).2 (check_eom tvb rv0).1).2
  else (check_eom tvb rv0).1

/-- The first four characters of a line are "DATA" in upper or lower case. -/
def is_DATA_ignoring_case (line : List Nat) : Prop :=
  (line.getD 0 0 = 68 ∨ line.getD 0 0 = 100) ∧ (line.getD 1 0 = 65 ∨ line.getD 1 0 = 97) ∧
  (line.getD 2 0 = 84 ∨ line.getD 2 0 = 116) ∧ (line.getD 3 0 = 65 ∨ line.getD 3 0 = 97)

instance (line : List Nat) : Decidable (is_DATA_ignoring_case line) := by
  unfold is_DATA_ignoring_case; infer_instance

/-- The first line of the segment is a DATA command: the
line has at least four characters, the first four are "DATA" ignoring case,
and the line is four characters long or its fifth character is a space. -/
def first_line_is_DATA (env : Env) (tvb : tvbuff_t) (pinfo : packet_info) : Prop :=
  ∃ linelen next_offset,
    tvb_find_line_end tvb 0 (env.smtp_desegment && pinfo.can_desegment != 0)
      = some (linelen, next_offset) ∧
    4 ≤ linelen ∧
    is_DATA_ignoring_case (tvb_get_ptr tvb 0 linelen) ∧
    (linelen = 4 ∨ (tvb_get_ptr tvb 0 linelen).getD 4 0 = 32)

/-- The end-of-message condition in words: the segment begins
with CR LF "." CR LF, or it begins with "." CR LF and `crlf_seen` is set. -/
def begins_with_eom (tvb : tvbuff_t) (crlf_seen : Nat) : Prop :=
  bytes "\r\n.\r\n" <+: tvb.data ∨ (bytes ".\r\n" <+: tvb.data ∧ crlf_seen ≠ 0)

instance (tvb : tvbuff_t) (crlf_seen : Nat) : Decidable (begins_with_eom tvb crlf_seen) := by
  unfold begins_with_eom; infer_instance

/-- A buffer holding the bytes of a string, captured in full. -/
def tvb_of (s : String) : tvbuff_t :=
  { data := bytes s, reported_length := (bytes s).length }

/-- Preferences as registered (both desegmentation options on), with a tree
and both columns asked for. -/
def env_default : Env :=
  { smtp_desegment := true, smtp_data_desegment := true, imf_handle := false,
    tree := true, col_protocol := true, col_info := true, frag_msg := none }

/-- The preferences of `env_default` with line desegmentation switched off. -/
def env_no_desegment : Env := { env_default with smtp_desegment := false }

/-- The dissector state at the start of a capture. -/
def empty_state : SmtpState := { conversations := [], new_index := 0, frame_data := [] }

/-- Frame `n` sent by the client 10.0.0.1:1025 to the server 10.0.0.2:25. -/
def client_frame (n : Nat) : packet_info :=
  { fd_num := n, src := 1, dst := 2, ptype := 6, srcport := 1025, destport := 25,
    match_port := 25, can_desegment := 1, desegment_offset := 0, desegment_len := 0,
    fragmented := false }

/-- Frame `n` sent by a second client, 10.0.0.3:1026, to the same server. -/
def other_client_frame (n : Nat) : packet_info :=
  { fd_num := n, src := 3, dst := 2, ptype := 6, srcport := 1026, destport := 25,
    match_port := 25, can_desegment := 1, desegment_offset := 0, desegment_len := 0,
    fragmented := false }

/-- A state in which the conversation of `client_frame` is reading message
data and the previous packet did not end in CR LF. -/
def reading_body_state : SmtpState :=
  { conversations :=
      [{ index := 0, addr1 := 1, port1 := 1025, addr2 := 2, port2 := 25, ptype := 6,
         proto_data := some { reading_data := true, crlf_seen := 0, data_seen := 1 } }],
    new_index := 1,
    frame_data := [] }

/-- A captured TCP segment as handed to the dissector. -/
structure Segment where
  tvb : tvbuff_t
  pinfo : packet_info
  deriving DecidableEq, Repr

/-- The segments of two clients, interleaved: the first sends DATA, a body
line and the terminator; the second sends HELO and DATA. -/
def interleaved_segments : List Segment :=
  [⟨tvb_of "DATA\r\n", client_frame 1⟩,
   ⟨tvb_of "HELO mail\r\n", other_client_frame 2⟩,
   ⟨tvb_of "Hello\r\n", client_frame 3⟩,
   ⟨tvb_of "DATA\r\n", other_client_frame 4⟩,
   ⟨tvb_of ".\r\n", client_frame 5⟩]

/-- The dissector state after `dissect_smtp` has been called on each segment
of a list in turn. -/
def dissect_all (env : Env) : List Segment → SmtpState → SmtpState
  | [], st => st
  | seg :: rest, st => dissect_all env rest (dissect_smtp env seg.tvb seg.pinfo st).st

end Smtp

namespace Wiretap

/-! ## wiretap/file.c: the dumper -/

/-- The fields of a `wtap_dumper` that `wtap_dump_open_common` sets. -/
structure wtap_dumper where
  file_type : Int
  snaplen : Int
  encap : Int
  deriving DecidableEq, Repr

/-- The results of the calls `wtap_dump_open_common` and `wtap_dump_close`
make outside this file. -/
structure DumpEnv where
  /-- Whether `malloc` returned `NULL`. -/
  malloc_fails : Bool
  /-- The `errno` a failing `malloc` leaves, when it sets one. -/
  malloc_errno : Option ErrCode
  /-- Whether `libpcap_dump_open` returned non-zero (success). -/
  libpcap_dump_open_ok : Bool
  /-- The error `libpcap_dump_open` stores in `*err`, when it stores one. -/
  libpcap_dump_open_err : Option ErrCode
  /-- Whether the caller of `wtap_dump_close` passed `err == NULL`. -/
  err_is_null : Bool
  /-- Whether `wdh->subtype_close` returned non-zero (success). -/
  subtype_close_ok : Bool
  /-- The error `wdh->subtype_close` stores in `*err`, when it stores one. -/
  subtype_close_err : Option ErrCode
  /-- Whether `fclose` returned `EOF`. -/
  fclose_fails : Bool
  /-- The `errno` a failing `fclose` leaves, when it sets one. -/
  fclose_errno : Option ErrCode
  deriving DecidableEq, Repr

/-- The observable state threaded through the dumper functions. -/
structure DumpState where
  errno : ErrCode
  /-- The caller's `*err`, `none` while it is still unwritten. -/
  err : Option ErrCode
  /-- The number of calls of a per-format open routine. -/
  subtype_open_calls : Nat
  /-- The number of calls of the per-format close routine. -/
  subtype_close_calls : Nat
  /-- The number of `fclose` calls on the output stream. -/
  fclose_calls : Nat
  /-- The number of `free(wdh)` calls. -/
  free_calls : Nat
  deriving DecidableEq, Repr

/-- The function `wtap_dump_open_common`. The constant `WTAP_FILE_PCAP` of
`wtap.h` is a parameter. -/
def wtap_dump_open_common (WTAP_FILE_PCAP : Int) (env : DumpEnv)
    (filetype encap snaplen : Int) (s : DumpState) : Option wtap_dumper × DumpState :=
  if env.malloc_fails then
    let e := (env.malloc_errno).getD s.errno
    (none, { s with errno := e, err := some e, fclose_calls := s.fclose_calls + 1 })
  else
    let wdh : wtap_dumper := { file_type := filetype, snaplen := snaplen, encap := encap }
    if filetype = WTAP_FILE_PCAP then
      let s1 : DumpState :=
        { s with
          subtype_open_calls := s.subtype_open_calls + 1
          err := match env.libpcap_dump_open_err with
            | some e => some e
            | none => s.err }
      if !env.libpcap_dump_open_ok then
        -- fail:
        (none, { s1 with free_calls := s1.free_calls + 1, fclose_calls := s1.fclose_calls + 1 })
      else (some wdh, s1)
    else
      -- We currently only support dumping "libpcap" files; fail:
      (none,
       { s with
         err := some ErrCode.WTAP_ERR_UNSUPPORTED_FILE_TYPE
         free_calls := s.free_calls + 1
         fclose_calls := s.fclose_calls + 1 })

/-- The function `wtap_dump_close`: the value returned and the state left. -/
def wtap_dump_close (env : DumpEnv) (s : DumpState) : Int × DumpState :=
  -- if (!(wdh->subtype_close)(wdh, err)) ret = 0;
  let s1 : DumpState :=
    { s with
      subtype_close_calls := s.subtype_close_calls + 1
      err := if env.err_is_null then s.err
        else match env.subtype_close_err with
          | some e => some e
          | none => s.err }
  let ret : Int := if env.subtype_close_ok then 1 else 0
  -- errno = WTAP_ERR_CANT_CLOSE; if (fclose(wdh->fh) == EOF) ...
  let s2 : DumpState :=
    { s1 with errno := ErrCode.WTAP_ERR_CANT_CLOSE, fclose_calls := s1.fclose_calls + 1 }
  if env.fclose_fails then
    let e := (env.fclose_errno).getD s2.errno
    let s3 : DumpState :=
      { s2 with
        errno := e
        err := if ret ≠ 0 ∧ env.err_is_null = false then some e else s2.err }
    (0, { s3 with free_calls := s3.free_calls + 1 })
  else
    (ret, { s2 with free_calls := s2.free_calls + 1 })

/-- An environment in which every call succeeds and stores no error. -/
def dump_env_ok : DumpEnv :=
  { malloc_fails := false, malloc_errno := none, libpcap_dump_open_ok := true,
    libpcap_dump_open_err := none, err_is_null := false, subtype_close_ok := true,
    subtype_close_err := none, fclose_fails := false, fclose_errno := none }

/-- An environment in which `libpcap_dump_open` fails. -/
def dump_env_libpcap_fails : DumpEnv :=
  { dump_env_ok with
    libpcap_dump_open_ok := false
    libpcap_dump_open_err := some (ErrCode.os 28) }

/-- The state of a caller that has made no call yet. -/
def fresh_dump_state : DumpState :=
  { errno := ErrCode.os 0, err := none, subtype_open_calls := 0, subtype_close_calls := 0,
    fclose_calls := 0, free_calls := 0 }

end Wiretap

namespace Spoolss

/-! ## packet-dcerpc-spoolss.c: deferred pointers -/

/-- A deferred referent, `struct deferred_ptr`: the parse function to call,
named by a number that stands for the function pointer, and the tree
context, named by a number as well. -/
structure deferred_ptr where
  fn : Nat
  tree : Nat
  deriving DecidableEq, Repr

/-- What a call of a parse function `prs_fn` does that its caller can see: the
offset it returns and the pointers it defers, in order, through the
`dp_list` it is handed. -/
structure ParseResult where
  offset : Int
  deferred : List deferred_ptr
  deriving DecidableEq, Repr

/-- The behaviour of the parse functions on the packet at hand: function,
offset and tree give the result of the call. -/
abbrev ParseFns := Nat → Int → Nat → ParseResult

/-- One call of a parse function made by `dr_iterator`: the function, the
tree and the offset it is called with, and the slot of `ptr_data` it is
handed (`none` for NULL). -/
structure Call where
  fn : Nat
  tree : Nat
  offset : Int
  slot : Option Nat
  deriving DecidableEq, Repr

/-- The function `defer_ptr`: `*list = g_list_append(*list, dr)`. -/
def defer_ptr (list : List deferred_ptr) (fn tree : Nat) : List deferred_ptr :=
  list ++ [{ fn := fn, tree := tree }]

/-- The two ways GLib has implemented `g_list_foreach`: GLib 1.2 calls the
function and then follows the `next` link of the element; GLib 2 reads the
`next` link before it calls the function. They differ only when the function
appends to the list while its last element is visited. -/
inductive Foreach where
  | call_then_next
  | next_then_call
  deriving DecidableEq, Repr

/-- The state of `struct deferred_ptr_state` and of the two lists during
`g_list_foreach(*list, dr_iterator, &s)`. -/
structure ForeachState where
  /-- The list `*list` that is walked. -/
  list : List deferred_ptr
  /-- The list `*dp_list` when it is another list than `*list`. -/
  dp_list : List deferred_ptr
  /-- The value of `*s->poffset`. -/
  offset : Int
  /-- The value of `s->ptr_data`. -/
  slot : Option Nat
  /-- The calls of parse functions made so far. -/
  calls : List Call
  deriving DecidableEq, Repr

/-- The function `dr_iterator` on the deferred pointer `dp`. With `same_list`
the list handed to the parse function is the list that is being walked, as in
`prs_struct_and_referents`. -/
def dr_iterator (fns : ParseFns) (same_list : Bool) (dp : deferred_ptr)
    (s : ForeachState) : ForeachState :=
  let r := fns dp.fn s.offset dp.tree
  { list := if same_list then s.list ++ r.deferred else s.list
    dp_list := if same_list then s.dp_list else s.dp_list ++ r.deferred
    offset := r.offset
    slot := s.slot.map (fun p => p + 1)
    calls := s.calls ++ [{ fn := dp.fn, tree := dp.tree, offset := s.offset, slot := s.slot }] }

/-- The call `g_list_foreach(*list, dr_iterator, &s)` from element `i` of the
list on. A parse function that defers a pointer each time it runs keeps the
walk going for ever, so the walk takes fuel; `none` means that the fuel did
not suffice. -/
def g_list_foreach (mode : Foreach) (fns : ParseFns) (same_list : Bool) :
    Nat → Nat → ForeachState → Option ForeachState
  | 0, _, _ => none
  | fuel + 1, i, s =>
    match s.list[i]? with
    | none => some s
    | some dp =>
      match mode with
      | Foreach.call_then_next =>
        g_list_foreach mode fns same_list fuel (i + 1) (dr_iterator fns same_list dp s)
      | Foreach.next_then_call =>
        if i + 1 < s.list.length then
          g_list_foreach mode fns same_list fuel (i + 1) (dr_iterator fns same_list dp s)
        else some (dr_iterator fns same_list dp s)

/-- What `prs_referents` leaves behind. -/
structure ReferentsResult where
  /-- The value returned, `new_offset`. -/
  offset : Int
  /-- The list `*list` after the call. -/
  list : List deferred_ptr
  /-- The list `*dp_list` after the call. -/
  dp_list : List deferred_ptr
  /-- The calls of parse functions made, in order. -/
  calls : List Call
  deriving DecidableEq, Repr

/-- The function `prs_referents`. The lists `*dp_list` and `*list` are given
by value; `same_list` says that `dp_list` and `list` point to the same list
(then `dp_list` is ignored). `ptr_data` says that the argument of that name
is not NULL. -/
def prs_referents (mode : Foreach) (fns : ParseFns) (fuel : Nat) (offset : Int)
    (same_list : Bool) (dp_list list : List deferred_ptr) (ptr_data : Bool) :
    Option ReferentsResult :=
  -- Create a list of void pointers to store return data
  let len := (if same_list then list else dp_list).length
  let slot : Option Nat := if ptr_data && decide (len > 0) then some 0 else none
  match g_list_foreach mode fns same_list fuel 0
      { list := list, dp_list := if same_list then [] else dp_list,
        offset := offset, slot := slot, calls := [] } with
  | none => none
  | some s =>
    -- *list = NULL
    some { offset := s.offset, list := [],
           dp_list := if same_list then [] else s.dp_list, calls := s.calls }

/-- The function `prs_struct_and_referents`: the offset returned and the calls
of parse functions made by `prs_referents`. -/
def prs_struct_and_referents (mode : Foreach) (fns : ParseFns) (fuel : Nat)
    (offset : Int) (tree : Nat) (fn : Nat) (ptr_data : Bool) : Option ReferentsResult :=
  let r := fns fn offset tree
  prs_referents mode fns fuel r.offset true [] r.deferred ptr_data

/-- The resolvers called one after the other in list order, each with its own
tree and the offset its predecessor returned: the calls (without the
`ptr_data` slot) and the offset of the last one. -/
def resolve_in_order (fns : ParseFns) :
    List deferred_ptr → Int → List (Nat × Nat × Int) × Int
  | [], offset => ([], offset)
  | dp :: rest, offset =>
    ((dp.fn, dp.tree, offset) :: (resolve_in_order fns rest (fns dp.fn offset dp.tree).offset).1,
     (resolve_in_order fns rest (fns dp.fn offset dp.tree).offset).2)

/-- A call without its `ptr_data` slot. -/
def Call.key (c : Call) : Nat × Nat × Int := (c.fn, c.tree, c.offset)

/-- Parse functions for a structure (function 0) that defers the pointers P1
(function 1) and P2 (function 2), where the resolver of P1 defers P1a
(function 3); each function advances the offset by four times its number
plus four. -/
def nested_fns : ParseFns := fun fn offset tree =>
  { offset := offset + 4 * fn + 4
    deferred :=
      if fn = 0 then [{ fn := 1, tree := tree + 1 }, { fn := 2, tree := tree + 1 }]
      else if fn = 1 then [{ fn := 3, tree := tree + 1 }]
      else [] }

/-- Parse functions that defer nothing. -/
def plain_fns : ParseFns := fun fn offset _ =>
  { offset := offset + 4 * fn + 4, deferred := [] }

end Spoolss

namespace TokenRing

/-! ## packet-tr.c -/

/-- The byte `pd[i]`. The memory behind `pd` is a function of the index, so
that a read past the captured length has a value too, whatever it is. -/
def byte (pd : Nat → Nat) (i : Nat) : Nat := pd i % 256

/-- The test for a SNAP field at index `base`, `pd[base] == 0xaa &&
pd[base + 1] == 0xaa && pd[base + 2] == 0x03`, evaluated left to right as C
does: its value and the indices read. -/
def snap_at (pd : Nat → Nat) (base : Nat) : Bool × List Nat :=
  if byte pd base = 0xaa then
    if byte pd (base + 1) = 0xaa then
      (decide (byte pd (base + 2) = 0x03), [base, base + 1, base + 2])
    else (false, [base, base + 1])
  else (false, [base])

/-- The test for a SNAP or IPX field at index `base`, `(pd[base] == 0xaa &&
pd[base + 1] == 0xaa && pd[base + 2] == 0x03) || (pd[base] == 0xe0 &&
pd[base + 1] == 0xe0)`, evaluated left to right as C does: its value and the
indices read. -/
def snap_or_ipx (pd : Nat → Nat) (base : Nat) : Bool × List Nat :=
  if (snap_at pd base).1 then (true, (snap_at pd base).2)
  else if byte pd base = 0xe0 then
    (decide (byte pd (base + 1) = 0xe0), (snap_at pd base).2 ++ [base, base + 1])
  else (false, (snap_at pd base).2 ++ [base])

/-- What `capture_tr` does with the frame once the header is analysed. -/
inductive Next where
  /-- The statement `ld->other++`. -/
  | other
  /-- The call `capture_llc(pd, offset, cap_len, ld)`. -/
  | capture_llc (offset : Nat) (cap_len : Nat)
  deriving DecidableEq, Repr

/-- The values `capture_tr` computes and the indices of `pd` it reads. -/
structure TrHeader where
  /-- The indices of `pd` read, in order. -/
  reads : List Nat
  frame_type : Nat
  /-- The variable `source_routed` after the half-source-routed check. -/
  source_routed : Nat
  trn_rif_bytes : Nat
  actual_rif_bytes : Nat
  offset : Nat
  next : Next
  deriving DecidableEq, Repr

/-- The function `capture_tr`. -/
def capture_tr (pd : Nat → Nat) (cap_len : Nat) : TrHeader :=
  -- get the data
  let trn_fc := byte pd 1
  let trn_shost0 := byte pd 8
  let reads0 : List Nat := [1, 8, 9, 10, 11, 12, 13]
  let frame_type := (trn_fc &&& 192) >>> 6
  let source_routed0 := trn_shost0 &&& 128
  let trn_rif_bytes0 := byte pd 14 &&& 31
  let reads1 := reads0 ++ [14]
  -- sometimes we have a RCF but no RIF... half source-routed?
  let probe : Nat × List Nat :=
    if source_routed0 = 0 ∧ trn_rif_bytes0 > 0 then
      if trn_rif_bytes0 = 2 then (1, [])
      else if (snap_or_ipx pd (0x0e + trn_rif_bytes0)).1 then
        (1, (snap_or_ipx pd (0x0e + trn_rif_bytes0)).2)
      else (source_routed0, (snap_or_ipx pd (0x0e + trn_rif_bytes0)).2)
    else (source_routed0, [])
  let source_routed := probe.1
  let reads2 := reads1 ++ probe.2
  let trn_rif_bytes := if source_routed ≠ 0 then trn_rif_bytes0 else 0
  let actual_rif_bytes0 := if source_routed ≠ 0 then trn_rif_bytes0 else 0
  -- this is a silly hack for Linux 2.0.x
  let hack : Nat × List Nat :=
    if (source_routed ≠ 0 ∧ trn_rif_bytes = 2 ∧ frame_type = 1) ∨
        (source_routed = 0 ∧ frame_type = 1) then
      if (snap_or_ipx pd 0x20).1 then (18, (snap_or_ipx pd 0x20).2)
      else (actual_rif_bytes0, (snap_or_ipx pd 0x20).2)
    else (actual_rif_bytes0, [])
  let actual_rif_bytes := hack.1
  let offset := 14 + actual_rif_bytes
  { reads := reads2 ++ hack.2
    frame_type := frame_type
    source_routed := source_routed
    trn_rif_bytes := trn_rif_bytes
    actual_rif_bytes := actual_rif_bytes
    offset := offset
    next := if frame_type = 1 then Next.capture_llc offset cap_len else Next.other }

/-- The memory behind a captured frame: the captured bytes, then zeroes. -/
def frame_of (bytes : List Nat) : Nat → Nat := fun i => bytes.getD i 0

/-- A token-ring header of fourteen bytes: an LLC frame that is not
source-routed. -/
def short_llc_frame : List Nat := [0x10, 0x40, 0, 0, 0, 0, 0, 1, 0, 0, 0, 0, 0, 2]

end TokenRing

namespace Editcap

/-! ## editcap.c -/

/-- An entry of `selectfrm`, `struct select_item`. -/
structure select_item where
  inclusive : Int
  first : Int
  second : Int
  deriving DecidableEq, Repr

/-- The globals `selectfrm[100]` and `max_selected`. -/
structure Selection where
  selectfrm : List select_item
  max_selected : Int
  deriving DecidableEq, Repr

/-- The selection at program start: a zeroed array and `max_selected = -1`. -/
def no_selection : Selection :=
  { selectfrm := List.replicate 100 { inclusive := 0, first := 0, second := 0 },
    max_selected := -1 }

/-- The array element `selectfrm[i]`. -/
def entry (sel : Selection) (i : Nat) : select_item :=
  sel.selectfrm.getD i { inclusive := 0, first := 0, second := 0 }

/-- The digits at the start of a string, as a number (the loop of `atoi`). -/
def atoi_digits : List Char → Nat → Nat
  | [], acc => acc
  | c :: rest, acc =>
    if c.isDigit then atoi_digits rest (acc * 10 + (c.toNat - 48)) else acc

/-- The C library `isspace` in the C locale. -/
def isspace (c : Char) : Bool :=
  c = ' ' || c = '\t' || c = '\n' || c = '\x0b' || c = '\x0c' || c = '\r'

/-- The C library `atoi` for values that fit an `int`: leading white space as
`isspace` tells it, an optional sign, then decimal digits. -/
def atoi (s : List Char) : Int :=
  match s.dropWhile isspace with
  | '-' :: rest => - (atoi_digits rest 0 : Int)
  | '+' :: rest => (atoi_digits rest 0 : Int)
  | rest => (atoi_digits rest 0 : Int)

/-- The function `add_selection`. -/
def add_selection (sel : Selection) (arg : List Char) : Selection :=
  if sel.max_selected = 99 then sel
  else
    let i := (sel.max_selected + 1).toNat
    match arg.indexOf? '-' with
    | none =>
      -- No dash, so a single number?
      { selectfrm := sel.selectfrm.set i { entry sel i with inclusive := 0, first := atoi arg },
        max_selected := sel.max_selected + 1 }
    | some locn =>
      { selectfrm := sel.selectfrm.set i
          { inclusive := 1, first := atoi arg, second := atoi (arg.drop (locn + 1)) },
        max_selected := sel.max_selected + 1 }

/-- The loop of `selected` from index `i` on, with `n` rounds to go. -/
def selected_loop (sel : Selection) (recno : Int) : Nat → Nat → Int
  | 0, _ => 0
  | n + 1, i =>
    if (entry sel i).inclusive ≠ 0 then
      if (entry sel i).first ≤ recno ∧ (entry sel i).second ≥ recno then 1
      else selected_loop sel recno n (i + 1)
    else
      if recno = (entry sel i).first then 1
      else selected_loop sel recno n (i + 1)

/-- The function `selected`: the loop runs for `i = 0, ..., max_selected`. -/
def selected (sel : Selection) (recno : Int) : Int :=
  selected_loop sel recno (sel.max_selected + 1).toNat 0

/-- The entry `i` of the selection selects the record `recno`: it is inclusive
with `first <= recno <= second`, or not inclusive with `first = recno`. -/
def entry_selects (sel : Selection) (i : Nat) (recno : Int) : Prop :=
  ((entry sel i).inclusive ≠ 0 ∧ (entry sel i).first ≤ recno ∧ recno ≤ (entry sel i).second) ∨
  ((entry sel i).inclusive = 0 ∧ (entry sel i).first = recno)

/-- The fields of `struct wtap_pkthdr` that editcap looks at. -/
structure wtap_pkthdr where
  ts_secs : Int
  ts_nsecs : Int
  caplen : Nat
  len : Nat
  deriving DecidableEq, Repr

/-- The global `time_adj`, `struct time_adjustment`. -/
structure time_adjustment where
  tv_sec : Int
  tv_usec : Int
  is_negative : Bool
  deriving DecidableEq, Repr

/-- The variables set by the options of `main`. -/
structure Options where
  keep_em : Bool
  snaplen : Nat
  choplen : Nat
  /-- The variable `split_packet_count`: 0 without `-c`, else the positive count. -/
  split_packet_count : Nat
  time_adj : time_adjustment
  deriving DecidableEq, Repr

def ONE_MILLION : Int := 1000000

/-- The block `if (choplen != 0 && phdr->caplen > choplen)`. -/
def chop (choplen : Nat) (phdr : wtap_pkthdr) : wtap_pkthdr :=
  if choplen ≠ 0 ∧ phdr.caplen > choplen then { phdr with caplen := phdr.caplen - choplen }
  else phdr

/-- The block `if (snaplen != 0 && phdr->caplen > snaplen)`. -/
def snap (snaplen : Nat) (phdr : wtap_pkthdr) : wtap_pkthdr :=
  if snaplen ≠ 0 ∧ phdr.caplen > snaplen then { phdr with caplen := snaplen }
  else phdr

/-- The block `if (phdr->ts.secs > 0 && time_adj.tv.tv_sec != 0)`. -/
def adjust_secs (adj : time_adjustment) (phdr : wtap_pkthdr) : wtap_pkthdr :=
  if phdr.ts_secs > 0 ∧ adj.tv_sec ≠ 0 then
    if adj.is_negative then { phdr with ts_secs := phdr.ts_secs - adj.tv_sec }
    else { phdr with ts_secs := phdr.ts_secs + adj.tv_sec }
  else phdr

/-- The block `if (phdr->ts.secs > 0 && time_adj.tv.tv_usec != 0)`, which
runs on the header as `adjust_secs` left it. -/
def adjust_usecs (adj : time_adjustment) (phdr : wtap_pkthdr) : wtap_pkthdr :=
  if phdr.ts_secs > 0 ∧ adj.tv_usec ≠ 0 then
    if adj.is_negative then
      -- subtract
      if phdr.ts_nsecs.tdiv 1000 < adj.tv_usec then
        -- borrow
        { phdr with
          ts_secs := phdr.ts_secs - 1
          ts_nsecs := phdr.ts_nsecs + ONE_MILLION * 1000 - adj.tv_usec * 1000 }
      else { phdr with ts_nsecs := phdr.ts_nsecs - adj.tv_usec * 1000 }
    else
      -- add
      if phdr.ts_nsecs + adj.tv_usec * 1000 > ONE_MILLION * 1000 then
        -- carry
        { phdr with
          ts_secs := phdr.ts_secs + 1
          ts_nsecs := phdr.ts_nsecs + (adj.tv_usec - ONE_MILLION) * 1000 }
      else { phdr with ts_nsecs := phdr.ts_nsecs + adj.tv_usec * 1000 }
  else phdr

/-- The header handed to `wtap_dump` for a record with header `phdr`. The
integers of C are taken as mathematical integers. -/
def edit_phdr (opts : Options) (phdr : wtap_pkthdr) : wtap_pkthdr :=
  adjust_usecs opts.time_adj (adjust_secs opts.time_adj (snap opts.snaplen (chop opts.choplen phdr)))

/-- The test `(!selected(count) && !keep_em) || (selected(count) && keep_em)`. -/
def keep_record (opts : Options) (sel : Selection) (count : Nat) : Bool :=
  (selected sel count == 0 && !opts.keep_em) || (selected sel count != 0 && opts.keep_em)

/-- The results of the calls into wiretap, by the number `count` of the record
at hand when the call is made (0 for the `wtap_dump_open` before the loop). -/
structure DumpResults where
  /-- Whether `wtap_dump_open` returned a dumper. -/
  dump_open_ok : Nat → Bool
  /-- Whether `wtap_dump_close` returned non-zero. -/
  dump_close_ok : Nat → Bool
  /-- Whether `wtap_dump` returned non-zero. -/
  dump_ok : Nat → Bool

/-- An output file from `wtap_dump_open` on: its name (`none` for the name
given on the command line, `some k` for that name followed by a dash and the
number `k` printed with `%05d`) and the records written to it so far, each
with its number and the header it was written with. -/
structure OutFile where
  name : Option Nat
  records : List (Nat × wtap_pkthdr)
  deriving DecidableEq, Repr

/-- The variables of the read loop of `main` and its effect on the output. -/
structure MainState where
  count : Nat
  written_count : Nat
  /-- The output files closed so far, oldest first. -/
  closed : List OutFile
  /-- The output file behind `pdh`, `none` when no dumper is open. -/
  current : Option OutFile
  /-- The exit status once the program has ended. -/
  exit_status : Option Nat
  deriving DecidableEq, Repr

/-- The block `if (split_packet_count > 0 && (written_count %
split_packet_count == 0))` of the read loop. -/
def split_file (opts : Options) (env : DumpResults) (s : MainState) : MainState :=
  if opts.split_packet_count > 0 ∧ s.written_count % opts.split_packet_count = 0 then
    if !env.dump_close_ok s.count then { s with exit_status := some 1 }
    else if !env.dump_open_ok s.count then
      { s with closed := s.closed ++ s.current.toList, current := none, exit_status := some 1 }
    else
      { s with
        closed := s.closed ++ s.current.toList
        current := some { name := some (s.count / opts.split_packet_count), records := [] } }
  else s

/-- The block `if ((!selected(count) && !keep_em) || (selected(count) &&
keep_em))` of the read loop, for a record with header `phdr`. -/
def write_record (opts : Options) (env : DumpResults) (sel : Selection)
    (phdr : wtap_pkthdr) (s : MainState) : MainState :=
  if keep_record opts sel s.count then
    if !env.dump_ok s.count then { s with exit_status := some 1 }
    else
      { s with
        current := s.current.map
          (fun f => { f with records := f.records ++ [(s.count, edit_phdr opts phdr)] })
        written_count := s.written_count + 1 }
  else s

/-- One round of the loop `while (wtap_read(...))`. -/
def read_record (opts : Options) (env : DumpResults) (sel : Selection)
    (phdr : wtap_pkthdr) (s : MainState) : MainState :=
  if (split_file opts env s).exit_status.isSome then split_file opts env s
  else if (write_record opts env sel phdr (split_file opts env s)).exit_status.isSome then
    write_record opts env sel phdr (split_file opts env s)
  else
    { write_record opts env sel phdr (split_file opts env s) with
      count := (write_record opts env sel phdr (split_file opts env s)).count + 1 }

/-- The loop `while (wtap_read(...))` over the records that are read. -/
def read_all (opts : Options) (env : DumpResults) (sel : Selection) :
    List wtap_pkthdr → MainState → MainState
  | [], s => s
  | phdr :: rest, s =>
    if (read_record opts env sel phdr s).exit_status.isSome then read_record opts env sel phdr s
    else read_all opts env sel rest (read_record opts env sel phdr s)

/-- The state when the read loop is entered: `count = 1`, nothing written,
and the output file of the first `wtap_dump_open` open, named with the number
0 when `split_packet_count > 0` and as on the command line otherwise. -/
def first_file (opts : Options) : MainState :=
  { count := 1, written_count := 0, closed := [],
    current := some { name := if opts.split_packet_count > 0 then some 0 else none,
                      records := [] },
    exit_status := none }

/-- The end of `main` after the read loop: the last `wtap_dump_close` and
`return 0`, unless the loop has left the program. -/
def last_close (env : DumpResults) (s : MainState) : MainState :=
  if s.exit_status.isSome then s
  else if !env.dump_close_ok s.count then { s with exit_status := some 1 }
  else { s with closed := s.closed ++ s.current.toList, current := none, exit_status := some 0 }

/-- The part of `main` that writes, run when an output file is named: the
first `wtap_dump_open`, the calls of `add_selection`, the read loop over the
records of the input and the last `wtap_dump_close`. -/
def main_write (opts : Options) (env : DumpResults) (selections : List (List Char))
    (records : List wtap_pkthdr) : MainState :=
  if !env.dump_open_ok 0 then
    { count := 1, written_count := 0, closed := [], current := none, exit_status := some 1 }
  else
    last_close env
      (read_all opts env (selections.foldl add_selection no_selection) records (first_file opts))

/-- The output files of a run, in the order in which they were opened. -/
def files (s : MainState) : List OutFile := s.closed ++ s.current.toList

/-- The records written in a run, in the order of the output files. -/
def written (s : MainState) : List (Nat × wtap_pkthdr) :=
  (files s).flatMap (fun f => f.records)

/-- Wiretap calls that all succeed. -/
def no_failure : DumpResults :=
  { dump_open_ok := fun _ => true, dump_close_ok := fun _ => true, dump_ok := fun _ => true }

/-- Options without `-r`, `-s`, `-C`, `-c` and `-t`. -/
def default_options : Options :=
  { keep_em := false, snaplen := 0, choplen := 0, split_packet_count := 0,
    time_adj := { tv_sec := 0, tv_usec := 0, is_negative := false } }

/-- The options of `-t -5.5` alone. -/
def back_five_and_a_half : Options :=
  { keep_em := false, snaplen := 0, choplen := 0, split_packet_count := 0,
    time_adj := { tv_sec := 5, tv_usec := 500000, is_negative := true } }

/-- A record captured at `secs` seconds with 60 bytes. -/
def record_at (secs : Int) : wtap_pkthdr :=
  { ts_secs := secs, ts_nsecs := 0, caplen := 60, len := 60 }

end Editcap

namespace Capinfos

/-! ## capinfos.c -/

/-- An input file of capinfos, as far as `main` and `process_cap_file` look at
it through wiretap. -/
structure CapFile where
  /-- The argument `argv[opt]`, as a number. -/
  name : Nat
  /-- The value of `*err` when `wtap_open_offline` returns NULL, `none` when it
  returns a `wtap`. -/
  open_err : Option Wiretap.ErrCode
  /-- The value of `err` when the loop over `wtap_read` ends, `none` for 0. -/
  read_err : Option Wiretap.ErrCode
  /-- Whether `wtap_file_size` returns a size other than -1. -/
  size_ok : Bool
  deriving DecidableEq, Repr

/-- The function `process_cap_file`: its return value, and whether the
statistics of the file are printed. -/
def process_cap_file (f : CapFile) : Int × Bool :=
  if f.read_err.isSome then (1, false)
  else if !f.size_ok then (1, false)
  else (0, true)

/-- What a run of `main` does: the exit status, the files handed to
`wtap_open_offline`, the files handed to `process_cap_file`, and the files
whose statistics are printed, each list in the order of the calls. -/
structure Run where
  exit_status : Int
  opened : List Nat
  processed : List Nat
  printed : List Nat
  deriving DecidableEq, Repr

/-- The loop `for (opt = optind; opt < argc; opt++)` of `main` and the
`return 0` after it; `continue_after_wtap_open_offline_failure` is TRUE
unless `-C` is given. -/
def main (continue_after_wtap_open_offline_failure : Bool) : List CapFile → Run
  | [] => { exit_status := 0, opened := [], processed := [], printed := [] }
  | f :: rest =>
    if f.open_err.isSome then
      -- if (!wth)
      if !continue_after_wtap_open_offline_failure then
        { exit_status := 1, opened := [f.name], processed := [], printed := [] }
      else
        { main continue_after_wtap_open_offline_failure rest with
          opened := f.name :: (main continue_after_wtap_open_offline_failure rest).opened }
    else
      -- if (wth)
      if (process_cap_file f).1 ≠ 0 then
        { exit_status := (process_cap_file f).1, opened := [f.name], processed := [f.name],
          printed := [] }
      else
        { exit_status := (main continue_after_wtap_open_offline_failure rest).exit_status
          opened := f.name :: (main continue_after_wtap_open_offline_failure rest).opened
          processed := f.name :: (main continue_after_wtap_open_offline_failure rest).processed
          printed := f.name :: (main continue_after_wtap_open_offline_failure rest).printed }

/-- A file that opens and is read to its end. -/
def good_file (name : Nat) : CapFile :=
  { name := name, open_err := none, read_err := none, size_ok := true }

/-- A file that `wtap_open_offline` refuses with the error `e`. -/
def unopenable_file (name : Nat) (e : Wiretap.ErrCode) : CapFile :=
  { name := name, open_err := some e, read_err := none, size_ok := true }

/-- A file that opens and whose read loop ends with the error `e`. -/
def unreadable_file (name : Nat) (e : Wiretap.ErrCode) : CapFile :=
  { name := name, open_err := none, read_err := some e, size_ok := true }

end Capinfos

namespace Wiretap

/-! ## wiretap/file.c: the two groups of the table -/

/-- Whether an open routine stands in the first group of `open_routines`,
under the comment "Files that have magic bytes in fixed locations"; the
routines of the second group, under "Files whose magic headers are in text
*somewhere* in the file", are `ascend_open` and `toshiba_open`. -/
def fixed_magic : OpenRoutine → Bool
  | OpenRoutine.ascend_open => false
  | OpenRoutine.toshiba_open => false
  | _ => true

/-- An assignment of results: `libpcap_open` and `toshiba_open` both recognise
the file, the others return 0. -/
def probe_libpcap_and_toshiba (r : OpenRoutine) : ProbeResult :=
  match r with
  | OpenRoutine.libpcap_open => { ret := 1, errno_set := none, err_set := none }
  | OpenRoutine.toshiba_open => { ret := 1, errno_set := none, err_set := none }
  | _ => { ret := 0, errno_set := none, err_set := none }

end Wiretap

namespace Spoolss

/-! ## packet-dcerpc-spoolss.c: the USER_LEVEL structure -/

/-- The number that stands for the parse function `prs_USER_LEVEL`. -/
def fn_USER_LEVEL : Nat := 10

/-- The number that stands for the parse function `prs_USER_LEVEL_1`. -/
def fn_USER_LEVEL_1 : Nat := 11

/-- The number that stands for the parse function `prs_UNISTR2_dp`. -/
def fn_UNISTR2_dp : Nat := 12

/-- What the parse functions of a USER_LEVEL structure read from the packet at
hand. -/
structure UserLevelPacket where
  /-- The value read as "Info level". -/
  level : Nat
  /-- The pointer read as "User level". -/
  user_level_ptr : Nat
  /-- The pointer read as "Client name". -/
  client_name_ptr : Nat
  /-- The pointer read as "User name". -/
  user_name_ptr : Nat
  /-- Modelled from the spec: `prs_uint32` of packet-dcerpc-nt.c (not under
  src/), as far as the offset goes: the offset it returns for the offset it
  is called with. -/
  uint32_end : Int → Int
  /-- The offset `prs_UNISTR2_dp` returns for the offset it is called with. -/
  unistr2_end : Int → Int

/-- The parse functions `prs_USER_LEVEL`, `prs_USER_LEVEL_1` and
`prs_UNISTR2_dp` on the packet `p`: the offset they return and the pointers
they defer through `dp_list`. The subtree a function adds to `tree` is named
`tree + 1`. -/
def user_level_fns (p : UserLevelPacket) : ParseFns := fun fn offset tree =>
  if fn = fn_USER_LEVEL then
    { offset := p.uint32_end (p.uint32_end offset)
      deferred :=
        if p.user_level_ptr ≠ 0 ∧ p.level = 1 then
          defer_ptr [] fn_USER_LEVEL_1 (tree + 1)
        else [] }
  else if fn = fn_USER_LEVEL_1 then
    { offset := p.uint32_end (p.uint32_end (p.uint32_end (p.uint32_end
        (p.uint32_end (p.uint32_end (p.uint32_end offset))))))
      deferred :=
        (if p.client_name_ptr ≠ 0 then defer_ptr [] fn_UNISTR2_dp (tree + 1) else [])
          ++ (if p.user_name_ptr ≠ 0 then defer_ptr [] fn_UNISTR2_dp (tree + 1) else []) }
  else if fn = fn_UNISTR2_dp then
    { offset := p.unistr2_end offset, deferred := [] }
  else { offset := offset, deferred := [] }

/-- A USER_LEVEL of level 1 whose client-name and user-name pointers are not
null; each `prs_uint32` moves on by four bytes and each UNISTR2 takes twenty
bytes. -/
def user_level_1_packet : UserLevelPacket :=
  { level := 1, user_level_ptr := 0x20000, client_name_ptr := 0x20004,
    user_name_ptr := 0x20008, uint32_end := fun offset => offset + 4,
    unistr2_end := fun offset => offset + 20 }

/-- The rank of the deferred pointers of a USER_LEVEL structure: a USER_LEVEL
may defer a USER_LEVEL_1, a USER_LEVEL_1 may defer strings, and a string
defers nothing. -/
def user_level_rank (dp : deferred_ptr) : Nat :=
  if dp.fn = fn_USER_LEVEL then 2 else if dp.fn = fn_USER_LEVEL_1 then 1 else 0

/-- The deferred pointer a call resolves. -/
def Call.entry (c : Call) : deferred_ptr := { fn := c.fn, tree := c.tree }

/-- The pointers a call defers through the `dp_list` it is handed. -/
def Call.deferred (fns : ParseFns) (c : Call) : List deferred_ptr :=
  (fns c.fn c.offset c.tree).deferred

/-- The sum over a list of deferred pointers of `(w + 1) ^ rank`: a bound on
the calls their resolution takes when a call defers at most `w` pointers, all
of smaller rank. -/
def weight (rank : deferred_ptr → Nat) (w : Nat) (l : List deferred_ptr) : Nat :=
  (l.map (fun d => (w + 1) ^ rank d)).sum

end Spoolss

namespace TokenRing

/-! ## packet-tr.c: the ring and bridge pairs -/

/-- Modelled from the spec: the macro `pntohs` of packet.h (not under src/),
the 16-bit value at `pd[i]`, `pd[i + 1]` in network byte order. -/
def pntohs (pd : Nat → Nat) (i : Nat) : Nat := byte pd i * 256 + byte pd (i + 1)

/-- The upper-case hexadecimal digit of a value below 16. -/
def hex_digit (d : Nat) : Char :=
  if d < 10 then Char.ofNat (48 + d) else Char.ofNat (55 + d)

/-- The hexadecimal digits of `n`, most significant first, with fuel for the
divisions by 16 (`n` itself suffices). -/
def to_hex : Nat → Nat → List Char
  | 0, n => [hex_digit (n % 16)]
  | fuel + 1, n =>
    if n < 16 then [hex_digit n] else to_hex fuel (n / 16) ++ [hex_digit (n % 16)]

/-- The text `sprintf` produces for a conversion `%0wX` with the minimum
width `w`: the hexadecimal digits of `n`, padded on the left with zeroes. -/
def sprintf_X (width n : Nat) : List Char :=
  List.replicate (width - (to_hex n n).length) '0' ++ to_hex n n

/-- The local variables `buffer` and `buff_offset` of `add_ring_bridge_pairs`:
the characters written to `buffer` from index 0 on, without the NUL that
follows them, and the offset. -/
structure RifText where
  buffer : List Char
  buff_offset : Nat
  deriving DecidableEq, Repr

/-- The call `sprintf(buffer + buff_offset, ...)` producing `text`, followed
by `buff_offset += size`. -/
def sprintf_at (t : RifText) (text : List Char) : RifText :=
  { buffer := t.buffer.take t.buff_offset ++ text
    buff_offset := t.buff_offset + text.length }

/-- The loop `for (j = 1; j < rcf_len - 1; j += 2)` of `add_ring_bridge_pairs`
from `j` on, with fuel. -/
def ring_bridge_loop (pd : Nat → Nat) (rcf_len : Int) : Nat → Nat → RifText → RifText
  | 0, _, t => t
  | fuel + 1, j, t =>
    if (j : Int) < rcf_len - 1 then
      let t1 := if j = 1 then sprintf_at t (sprintf_X 3 (pntohs pd 16 >>> 4)) else t
      let segment := pntohs pd (17 + j) >>> 4
      let brdgnmb := byte pd (16 + j) &&& 0x0f
      ring_bridge_loop pd rcf_len fuel (j + 2)
        (sprintf_at t1 (['-'] ++ sprintf_X 1 brdgnmb ++ ['-'] ++ sprintf_X 3 segment))
    else t

/-- The function `add_ring_bridge_pairs`: the text it formats into `buffer`
and the offset behind it. The loop runs at most sixteen times for an
`rcf_len` of at most 31. -/
def add_ring_bridge_pairs (rcf_len : Int) (pd : Nat → Nat) : RifText :=
  ring_bridge_loop pd (rcf_len - 2) 16 1 { buffer := [], buff_offset := 0 }

/-- The number of bytes of `buffer` that `add_ring_bridge_pairs` writes: the
characters and the NUL behind them, none when the loop body never runs. -/
def buffer_bytes_written (rcf_len : Int) (pd : Nat → Nat) : Nat :=
  if (add_ring_bridge_pairs rcf_len pd).buff_offset = 0 then 0
  else (add_ring_bridge_pairs rcf_len pd).buff_offset + 1

/-- The part of `dissect_tr` that calls `add_ring_bridge_pairs`, for a `tree`
that is not NULL: `dissect_tr` analyses the header with the statements of
`capture_tr` and makes the call when the frame is source-routed with more
than two RIF bytes. -/
def dissect_tr_rif (pd : Nat → Nat) : Option RifText :=
  if (capture_tr pd 0).source_routed ≠ 0 ∧ (capture_tr pd 0).trn_rif_bytes > 2 then
    some (add_ring_bridge_pairs (capture_tr pd 0).trn_rif_bytes pd)
  else none

/-- A source-routed frame with a RIF of twenty bytes, the routing control
field and nine route designators. -/
def long_rif_frame : List Nat :=
  [0x10, 0x40, 0, 0, 0, 0, 0, 1, 0x80, 0, 0, 0, 0, 2,
   0x14, 0x00, 0x00, 0x11, 0x00, 0x22, 0x00, 0x33, 0x00, 0x44, 0x00, 0x55,
   0x00, 0x66, 0x00, 0x77, 0x00, 0x88, 0x00, 0x90, 0xaa, 0xaa, 0x03]

end TokenRing

namespace Mdshdr

/-! ## packet-mdshdr.c -/

def MDSHDR_SOF_OFFSET : Nat := 1
def MDSHDR_PKTLEN_OFFSET : Nat := 2
def MDSHDR_DIDX_OFFSET : Nat := 5
def MDSHDR_SIDX_OFFSET : Nat := 6
def MDSHDR_VSAN_OFFSET : Nat := 13
def MDSHDR_HEADER_SIZE : Nat := 16
def MDSHDR_TRAILER_SIZE : Nat := 6
def MDSHDR_EOF_UNKNOWN : Nat := 0xb

/-- The table `sof_strings`. -/
def sof_strings : List String :=
  ["Null", "SOFc1", "SOFi1", "SOFn1", "SOFi2", "SOFn2", "SOFi3", "SOFn3",
   "SOFf", "SOFc4", "SOFi4", "SOFn4"]

/-- The table `eof_strings`. -/
def eof_strings : List String :=
  ["Null", "EOFt", "EOFdt", "EOFn", "EOFa", "", "EOFdti", "EOFni",
   "", "", "EOFrt", "", "", "", "EOFrti"]

/-- Modelled from the spec: `tvb_get_guint8` of epan/tvbuff.c (not under
src/): the captured byte at `offset`; a read outside the captured bytes is
refused (`none`, an exception in the code) instead of being made. -/
def tvb_get_guint8 (tvb : Smtp.tvbuff_t) (offset : Nat) : Option Nat :=
  (tvb.data[offset]?).map (fun b => b % 256)

/-- Modelled from the spec: `tvb_get_ntohs` of epan/tvbuff.c (not under
src/): the 16-bit value at `offset` in network byte order, refused when the
two bytes are not both captured. -/
def tvb_get_ntohs (tvb : Smtp.tvbuff_t) (offset : Nat) : Option Nat :=
  match tvb_get_guint8 tvb offset, tvb_get_guint8 tvb (offset + 1) with
  | some hi, some lo => some (hi * 256 + lo)
  | _, _ => none

/-- Modelled from the spec: `tvb_bytes_exist` of epan/tvbuff.c (not under
src/): whether `length` bytes from `offset` on are captured. -/
def tvb_bytes_exist (tvb : Smtp.tvbuff_t) (offset length : Nat) : Bool :=
  decide (offset + length ≤ tvb.data.length)

/-- What `dissect_mdshdr` computes before it hands the payload on, for a
`tree` that is not NULL: the codes and the entries of `sof_strings` and
`eof_strings` it prints, `none` for an index outside the table. -/
structure MdsHeader where
  sof : Nat
  pktlen : Nat
  vsan : Nat
  span_id : Nat
  eof : Nat
  sof_string : Option String
  eof_string : Option String
  deriving DecidableEq, Repr

/-- The statement `if (tvb_bytes_exist (tvb, 0, MDSHDR_HEADER_SIZE + pktlen))`
of `dissect_mdshdr` that sets `eof`: the first byte of the trailer when the
frame is there in full, `MDSHDR_EOF_UNKNOWN` otherwise. -/
def read_eof (tvb : Smtp.tvbuff_t) (pktlen : Nat) : Option Nat :=
  if tvb_bytes_exist tvb 0 (MDSHDR_HEADER_SIZE + pktlen) then
    tvb_get_guint8 tvb (MDSHDR_HEADER_SIZE + pktlen - MDSHDR_TRAILER_SIZE)
  else some MDSHDR_EOF_UNKNOWN

/-- The function `dissect_mdshdr` up to the item `"MDS Header(%s/%s)"`, for a
`tree` that is not NULL; `none` when a read of the header is refused. -/
def dissect_mdshdr (tvb : Smtp.tvbuff_t) : Option MdsHeader :=
  (tvb_get_guint8 tvb (0 + MDSHDR_SOF_OFFSET)).bind fun b1 =>
  (tvb_get_ntohs tvb (0 + MDSHDR_PKTLEN_OFFSET)).bind fun w2 =>
  (tvb_get_ntohs tvb (0 + MDSHDR_VSAN_OFFSET)).bind fun w13 =>
  -- The Mdshdr trailer is at the end of the frame
  (read_eof tvb (w2 &&& 0x1FFF)).bind fun eof =>
  (tvb_get_ntohs tvb MDSHDR_SIDX_OFFSET).bind fun _ =>
  (tvb_get_ntohs tvb MDSHDR_DIDX_OFFSET).bind fun _ =>
  some { sof := b1 &&& 0x0F, pktlen := w2 &&& 0x1FFF, vsan := w13 &&& 0x0FFF,
         span_id := (w13 &&& 0xF000) >>> 12, eof := eof,
         sof_string := sof_strings[b1 &&& 0x0F]?, eof_string := eof_strings[eof]? }

/-- An MDS header of sixteen bytes with the SOF code 12 and a declared length
of 0. -/
def header_sof_12 : Smtp.tvbuff_t :=
  { data := [0, 0x0c, 0, 0, 0, 0, 0, 0, 0, 0, 0, 0, 0, 0, 0, 0], reported_length := 16 }

/-- An MDS frame with a declared length of 6, the length of the trailer, whose
trailer starts with the EOF code 15. -/
def frame_eof_15 : Smtp.tvbuff_t :=
  { data := [0, 0x01, 0, 6, 0, 0, 0, 0, 0, 0, 0, 0, 0, 0, 0, 0, 0x0f, 0, 0, 0, 0, 0],
    reported_length := 22 }

end Mdshdr

namespace Editcap

/-- The options of `-s 40` alone. -/
def snap_to_forty : Options :=
  { keep_em := false, snaplen := 40, choplen := 0, split_packet_count := 0,
    time_adj := { tv_sec := 0, tv_usec := 0, is_negative := false } }

/-! ## editcap.c: the error injection -/

def ERR_WT_BIT : Nat := 5
def ERR_WT_BYTE : Nat := 5
def ERR_WT_ALNUM : Nat := 5
def ERR_WT_FMT : Nat := 2
def ERR_WT_AA : Nat := 1
def ERR_WT_TOTAL : Nat := ERR_WT_BIT + ERR_WT_BYTE + ERR_WT_ALNUM + ERR_WT_FMT + ERR_WT_AA

/-- The run of the random number generator and the constants of the C
library that the error injection uses. -/
structure RandEnv where
  /-- The constant `RAND_MAX`. -/
  RAND_MAX : Nat
  /-- The values `rand()` returns, by the number of the call. -/
  rand : Nat → Nat
  /-- The largest integer that passes the test `rand() <= err_prob * RAND_MAX`. -/
  limit : Nat

/-- The variables of the loop `for (i = 0; i < (int) phdr->caplen; i++)` and
what it does to `buf`. -/
structure InjectState where
  /-- The variable `i`. -/
  i : Nat
  /-- The variable `err_type`. -/
  err_type : Nat
  /-- The number of calls of `rand()` made so far. -/
  draws : Nat
  /-- The indices of `buf` written so far, in order. -/
  writes : List Nat
  deriving DecidableEq, Repr

/-- A block `if (err_type < weight) { buf[i] = ...rand()...; err_type =
ERR_WT_TOTAL; } else { err_type -= other; }`, as for a flipped bit, a random
byte and a random letter or digit. -/
def substitute_at_i (weight other : Nat) (s : InjectState) : InjectState :=
  if s.err_type < weight then
    { s with writes := s.writes ++ [s.i], draws := s.draws + 1, err_type := ERR_WT_TOTAL }
  else { s with err_type := s.err_type - other }

/-- The block `if (err_type < ERR_WT_FMT)`: `strcpy(&buf[i], "%s")` writes
the two characters and the terminating NUL when `(unsigned int)i <
phdr->caplen - 2`, the subtraction being one of unsigned 32-bit integers. -/
def substitute_fmt (caplen : Nat) (s : InjectState) : InjectState :=
  if s.err_type < ERR_WT_FMT then
    if s.i % 2 ^ 32 < (caplen + 2 ^ 32 - 2) % 2 ^ 32 then
      { s with writes := s.writes ++ [s.i, s.i + 1, s.i + 2], err_type := ERR_WT_TOTAL }
    else { s with err_type := ERR_WT_TOTAL }
  else { s with err_type := s.err_type - ERR_WT_FMT }

/-- The block `if (err_type < ERR_WT_AA)`: the bytes from `i` to the end are
set to 0xAA and `i` is set to `caplen`. -/
def fill_AA (caplen : Nat) (s : InjectState) : InjectState :=
  if s.err_type < ERR_WT_AA then
    { s with writes := s.writes ++ List.range' s.i (caplen - s.i), i := caplen }
  else s

/-- The body of the loop for one value of `i`. -/
def inject_at (env : RandEnv) (caplen : Nat) (s : InjectState) : InjectState :=
  if env.rand s.draws ≤ env.limit then
    let s1 : InjectState :=
      { s with err_type := env.rand (s.draws + 1) / (env.RAND_MAX / ERR_WT_TOTAL + 1),
               draws := s.draws + 2 }
    fill_AA caplen
      (substitute_fmt caplen
        (substitute_at_i ERR_WT_ALNUM ERR_WT_ALNUM
          (substitute_at_i ERR_WT_BYTE ERR_WT_BYTE
            (substitute_at_i ERR_WT_BIT ERR_WT_BYTE s1))))
  else { s with draws := s.draws + 1 }

/-- The value `(int) phdr->caplen` for a `caplen` below 2^32. -/
def int_of_caplen (caplen : Nat) : Int :=
  if caplen < 2 ^ 31 then (caplen : Int) else (caplen : Int) - 2 ^ 32

/-- The loop `for (i = 0; i < (int) phdr->caplen; i++)`, with fuel; `none`
means that the fuel did not suffice. -/
def inject_loop (env : RandEnv) (caplen : Nat) : Nat → InjectState → Option InjectState
  | 0, _ => none
  | fuel + 1, s =>
    if (s.i : Int) < int_of_caplen caplen then
      inject_loop env caplen fuel
        { inject_at env caplen s with i := (inject_at env caplen s).i + 1 }
    else some s

/-- The block `if (err_prob > 0.0)` of the read loop for a record of `caplen`
captured bytes: the indices of `buf` it writes. -/
def inject_errors (env : RandEnv) (caplen : Nat) : Option (List Nat) :=
  (inject_loop env caplen (caplen + 1)
    { i := 0, err_type := 0, draws := 0, writes := [] }).map (fun s => s.writes)

/-- A run of `rand()` with `RAND_MAX = 32767` whose first value passes the
test of the error probability and whose second value, 28000, gives the error
type 15, a substitution of "%s". -/
def rand_fmt : RandEnv :=
  { RAND_MAX := 32767, rand := fun n => if n = 1 then 28000 else 0, limit := 0 }

/-! ## editcap.c: the time adjustment -/

/-- The digits at the start of a string: how many there are. -/
def count_digits : List Char → Nat
  | [] => 0
  | c :: rest => if c.isDigit then count_digits rest + 1 else 0

/-- The C library `strtol(nptr, &end, 10)`: the value, clamped to
`LONG_MIN = -LONG_MAX - 1` and `LONG_MAX`, and the number of characters
between `nptr` and `end` (0 when no digits are found, so that `end == nptr`). -/
def strtol (LONG_MAX : Int) (nptr : List Char) : Int × Nat :=
  let spaces := (nptr.takeWhile isspace).length
  let rest := nptr.dropWhile isspace
  let sign : Option Char :=
    if rest.head? = some '-' then some '-'
    else if rest.head? = some '+' then some '+'
    else none
  let digits := if sign.isSome then rest.drop 1 else rest
  let n := count_digits digits
  if n = 0 then (0, 0)
  else
    let v : Int := if sign = some '-' then - (atoi_digits digits 0 : Int)
      else (atoi_digits digits 0 : Int)
    (max (- LONG_MAX - 1) (min LONG_MAX v), spaces + (if sign.isSome then 1 else 0) + n)

/-- The loop `while (frac_digits < 6) { val *= 10; frac_digits++; }`. -/
def scale_fraction : Nat → Int → Nat → Int
  | 0, val, _ => val
  | fuel + 1, val, frac_digits =>
    if frac_digits < 6 then scale_fraction fuel (val * 10) (frac_digits + 1) else val

/-- The part "collect whole number of seconds, if any" of
`set_time_adjustment`: the value for `tv_sec` and the string `frac` points
to; `none` stands for `exit(1)`. -/
def whole_seconds (LONG_MAX : Int) (arg : List Char) : Option (Int × List Char) :=
  if arg.head? = some '.' then
    -- only fractional (i.e., .5 is ok)
    some (0, arg)
  else if (strtol LONG_MAX arg).2 = 0 ∨ (strtol LONG_MAX arg).1 = - LONG_MAX - 1
      ∨ (strtol LONG_MAX arg).1 = LONG_MAX then none
  else if (strtol LONG_MAX arg).1 < 0 then none
  else some ((strtol LONG_MAX arg).1, arg.drop (strtol LONG_MAX arg).2)

/-- The part "now collect the partial seconds, if any" of
`set_time_adjustment` and the scaling of the fraction behind it. The pointer
`end` is `frac + 1` plus the characters `strtol` has consumed, never `frac`
itself, so that `frac_digits` is the number of these characters. -/
def fractional_seconds (LONG_MAX : Int) (time_adj : time_adjustment) :
    List Char → Option time_adjustment
  | [] => some time_adj
  | c :: after =>
    if c ≠ '.' ∨ (strtol LONG_MAX after).1 < 0 ∨ (strtol LONG_MAX after).1 > ONE_MILLION
        ∨ (strtol LONG_MAX after).1 = - LONG_MAX - 1 ∨ (strtol LONG_MAX after).1 = LONG_MAX then
      none
    else
      -- adjust fractional portion from fractional to numerator
      some { time_adj with
             tv_usec := scale_fraction 6 (strtol LONG_MAX after).1 (strtol LONG_MAX after).2 }

/-- The string behind the leading blanks and tabs of `optarg`. -/
def skip_blanks (optarg : List Char) : List Char :=
  optarg.dropWhile (fun c => c = ' ' || c = '\t')

/-- The function `set_time_adjustment` for an `optarg` that is not NULL, from
the global `time_adj` as it is when the function is called; `none` stands
for `exit(1)`. -/
def set_time_adjustment (LONG_MAX : Int) (time_adj : time_adjustment)
    (optarg : List Char) : Option time_adjustment :=
  if (skip_blanks optarg).head? = some '-' then
    -- check for a negative adjustment
    (whole_seconds LONG_MAX ((skip_blanks optarg).drop 1)).bind fun w =>
      fractional_seconds LONG_MAX { time_adj with is_negative := true, tv_sec := w.1 } w.2
  else
    (whole_seconds LONG_MAX (skip_blanks optarg)).bind fun w =>
      fractional_seconds LONG_MAX { time_adj with tv_sec := w.1 } w.2

/-- The global `time_adj` at program start. -/
def no_adjustment : time_adjustment := { tv_sec := 0, tv_usec := 0, is_negative := false }

/-- The value of a string of decimal digits. -/
def digits_value (digits : List Char) : Nat := atoi_digits digits 0

end Editcap

namespace Capinfos

/-! ## capinfos.c: the statistics of a file -/

/-- The integer nearest to `x`, the even one of the two when `x` lies half
way between them. -/
def round_half_even (x : ℚ) : Int :=
  if x - (⌊x⌋ : ℚ) < 1 / 2 then ⌊x⌋
  else if 1 / 2 < x - (⌊x⌋ : ℚ) then ⌊x⌋ + 1
  else if ⌊x⌋ % 2 = 0 then ⌊x⌋ else ⌊x⌋ + 1

/-- The rounding of a number to a C `double` in the IEEE 754 binary64 format:
the nearest number with a significand of 53 bits, ties to even. Overflow and
subnormal numbers, which the values of `process_cap_file` do not reach, are
left out. -/
def round_double (q : ℚ) : ℚ :=
  if q = 0 then 0
  else (round_half_even (q / (2 : ℚ) ^ (Int.log 2 |q| - 52)) : ℚ) * (2 : ℚ) ^ (Int.log 2 |q| - 52)

/-- The function `secs_nsecs`. Values of type `double` are the rational
numbers they stand for; `fl` is the rounding of the exact result of an
operation or conversion to a `double`. -/
def secs_nsecs (fl : ℚ → ℚ) (phdr : Editcap.wtap_pkthdr) : ℚ :=
  fl (fl (fl (phdr.ts_nsecs : ℚ) / 1000000000) + fl (phdr.ts_secs : ℚ))

/-- The local variables of `process_cap_file` that the read loop changes. -/
structure Tally where
  /-- The variable `packet`, a `guint32`. -/
  packet : Nat
  /-- The variable `bytes`, a `gint64`, as its value modulo 2^64. -/
  bytes : Nat
  start_time : ℚ
  stop_time : ℚ
  cur_time : ℚ
  deriving DecidableEq

/-- The variables before the first `wtap_read`. -/
def Tally.init : Tally :=
  { packet := 0, bytes := 0, start_time := 0, stop_time := 0, cur_time := 0 }

/-- The body of the loop `while (wtap_read(...))` of `process_cap_file` for a
record with header `phdr`. -/
def tally_record (fl : ℚ → ℚ) (t : Tally) (phdr : Editcap.wtap_pkthdr) : Tally :=
  let cur_time := secs_nsecs fl phdr
  let start0 := if t.packet = 0 then cur_time else t.start_time
  let stop0 := if t.packet = 0 then cur_time else t.stop_time
  { packet := (t.packet + 1) % 2 ^ 32
    bytes := (t.bytes + phdr.len) % 2 ^ 64
    start_time := if cur_time < start0 then cur_time else start0
    stop_time := if cur_time > stop0 then cur_time else stop0
    cur_time := cur_time }

/-- The loop `while (wtap_read(...))` of `process_cap_file` over the records
that are read. -/
def tally (fl : ℚ → ℚ) (records : List Editcap.wtap_pkthdr) : Tally :=
  records.foldl (tally_record fl) Tally.init

/-- The fields of `capture_info` that `process_cap_file` fills from what it
read. -/
structure capture_info where
  packet_count : Nat
  packet_bytes : Nat
  start_time : ℚ
  stop_time : ℚ
  duration : ℚ
  data_rate : ℚ
  packet_rate : ℚ
  packet_size : ℚ
  deriving DecidableEq

/-- The value of a `gint64` variable kept modulo 2^64. -/
def to_gint64 (n : Nat) : Int :=
  if n % 2 ^ 64 < 2 ^ 63 then (n % 2 ^ 64 : Nat) else (n % 2 ^ 64 : Nat) - 2 ^ 64

/-- The part of `process_cap_file` after the read loop that fills `cf_info`,
for a loop that ended with `err == 0` and a file whose size is known. -/
def fill_cf_info (fl : ℚ → ℚ) (t : Tally) : capture_info :=
  let duration := fl (t.stop_time - t.start_time)
  { packet_count := t.packet
    packet_bytes := t.bytes
    start_time := t.start_time
    stop_time := t.stop_time
    duration := duration
    data_rate :=
      if t.packet > 0 ∧ duration > 0 then fl (fl (to_gint64 t.bytes : ℚ) / duration) else 0
    packet_rate :=
      if t.packet > 0 ∧ duration > 0 then fl (fl (t.packet : ℚ) / duration) else 0
    packet_size :=
      if t.packet > 0 then fl (fl (to_gint64 t.bytes : ℚ) / fl (t.packet : ℚ)) else 0 }

/-- The statistics `process_cap_file` hands to `print_stats` for a file with
the records `records`. -/
def cf_info_of (fl : ℚ → ℚ) (records : List Editcap.wtap_pkthdr) : capture_info :=
  fill_cf_info fl (tally fl records)

/-- A record of 60 bytes captured at `secs` seconds. -/
def record_at (secs : Int) : Editcap.wtap_pkthdr :=
  { ts_secs := secs, ts_nsecs := 0, caplen := 60, len := 60 }

/-! ## capinfos.c: the options -/

/-- The twelve infos capinfos can report, each named by its variable. -/
inductive Info where
  | cap_file_type
  | cap_file_encap
  | cap_packet_count
  | cap_file_size
  | cap_data_size
  | cap_duration
  | cap_start_time
  | cap_end_time
  | cap_data_rate_byte
  | cap_data_rate_bit
  | cap_packet_size
  | cap_packet_rate
  deriving DecidableEq, Repr

/-- The globals `report_all_infos` and `cap_file_type` ... `cap_packet_rate`. -/
structure Flags where
  report_all_infos : Bool
  cap_file_type : Bool
  cap_file_encap : Bool
  cap_packet_count : Bool
  cap_file_size : Bool
  cap_data_size : Bool
  cap_duration : Bool
  cap_start_time : Bool
  cap_end_time : Bool
  cap_data_rate_byte : Bool
  cap_data_rate_bit : Bool
  cap_packet_size : Bool
  cap_packet_rate : Bool
  deriving DecidableEq, Repr

/-- The value of the variable of an info. -/
def Flags.get (f : Flags) : Info → Bool
  | Info.cap_file_type => f.cap_file_type
  | Info.cap_file_encap => f.cap_file_encap
  | Info.cap_packet_count => f.cap_packet_count
  | Info.cap_file_size => f.cap_file_size
  | Info.cap_data_size => f.cap_data_size
  | Info.cap_duration => f.cap_duration
  | Info.cap_start_time => f.cap_start_time
  | Info.cap_end_time => f.cap_end_time
  | Info.cap_data_rate_byte => f.cap_data_rate_byte
  | Info.cap_data_rate_bit => f.cap_data_rate_bit
  | Info.cap_packet_size => f.cap_packet_size
  | Info.cap_packet_rate => f.cap_packet_rate

/-- The function `enable_all_infos`, which is also the state of the globals
at program start. -/
def enable_all_infos : Flags :=
  { report_all_infos := true
    cap_file_type := true
    cap_file_encap := true
    cap_packet_count := true
    cap_file_size := true
    cap_data_size := true
    cap_duration := true
    cap_start_time := true
    cap_end_time := true
    cap_data_rate_byte := true
    cap_data_rate_bit := true
    cap_packet_size := true
    cap_packet_rate := true }

/-- The function `disable_all_infos`. -/
def disable_all_infos : Flags :=
  { report_all_infos := false
    cap_file_type := false
    cap_file_encap := false
    cap_packet_count := false
    cap_file_size := false
    cap_data_size := false
    cap_duration := false
    cap_start_time := false
    cap_end_time := false
    cap_data_rate_byte := false
    cap_data_rate_bit := false
    cap_packet_size := false
    cap_packet_rate := false }

/-- The option letters `getopt` hands to the `switch (opt)` of `main` without
ending the program: the letters of the option string
`"tEcsduaeyizvhxCALTRrNqQBmb"` but `h`. -/
inductive Opt where
  | t | E | c | s | d | u | a | e | y | i | z | v | x
  | C | A | L | T | R | r | N | q | Q | B | m | b
  deriving DecidableEq, Repr

/-- The letter of the option that asks for an info. -/
def Info.letter : Info → Opt
  | Info.cap_file_type => Opt.t
  | Info.cap_file_encap => Opt.E
  | Info.cap_packet_count => Opt.c
  | Info.cap_file_size => Opt.s
  | Info.cap_data_size => Opt.d
  | Info.cap_duration => Opt.u
  | Info.cap_start_time => Opt.a
  | Info.cap_end_time => Opt.e
  | Info.cap_data_rate_byte => Opt.y
  | Info.cap_data_rate_bit => Opt.i
  | Info.cap_packet_size => Opt.z
  | Info.cap_packet_rate => Opt.x

/-- Whether an option letter is one of the twelve info options. -/
def is_info_option (opt : Opt) : Bool :=
  match opt with
  | Opt.t | Opt.E | Opt.c | Opt.s | Opt.d | Opt.u | Opt.a | Opt.e | Opt.y | Opt.i | Opt.z
  | Opt.x => true
  | _ => false

/-- The statement `if (report_all_infos) disable_all_infos();` that starts the
case of each info option. -/
def start_info_option (f : Flags) : Flags :=
  if f.report_all_infos then disable_all_infos else f

/-- The effect on the info variables of one round of the `switch (opt)` of
`main`. -/
def process_option (f : Flags) (opt : Opt) : Flags :=
  match opt with
  | Opt.t => { start_info_option f with cap_file_type := true }
  | Opt.E => { start_info_option f with cap_file_encap := true }
  | Opt.c => { start_info_option f with cap_packet_count := true }
  | Opt.s => { start_info_option f with cap_file_size := true }
  | Opt.d => { start_info_option f with cap_data_size := true }
  | Opt.u => { start_info_option f with cap_duration := true }
  | Opt.a => { start_info_option f with cap_start_time := true }
  | Opt.e => { start_info_option f with cap_end_time := true }
  | Opt.y => { start_info_option f with cap_data_rate_byte := true }
  | Opt.i => { start_info_option f with cap_data_rate_bit := true }
  | Opt.z => { start_info_option f with cap_packet_size := true }
  | Opt.x => { start_info_option f with cap_packet_rate := true }
  | Opt.A => enable_all_infos
  | _ => f

/-- The loop `while ((opt = getopt(...)) != -1)` of `main` over the option
letters of the command line, from the globals as they are at program start. -/
def process_options (opts : List Opt) : Flags :=
  opts.foldl process_option enable_all_infos

/-- The option letters that follow the last `A`, all of them when there is no
`A`: the longest end of the list without an `A`. -/
def after_last_A (opts : List Opt) : List Opt :=
  (opts.reverse.takeWhile (fun opt => opt != Opt.A)).reverse

/-- The infos reported as the options name them: every info when no info
option follows the last `-A`, else the infos of the info options after the
last `-A`. -/
def infos_named (opts : List Opt) (i : Info) : Bool :=
  if (after_last_A opts).all (fun opt => !is_info_option opt) then true
  else decide (i.letter ∈ after_last_A opts)

end Capinfos

namespace Editcap

/-! ## editcap.c: the fraction of the time stamp -/

/-- The options of `-t 0.5` alone. -/
def forward_half : Options :=
  { keep_em := false, snaplen := 0, choplen := 0, split_packet_count := 0,
    time_adj := { tv_sec := 0, tv_usec := 500000, is_negative := false } }

/-- A record captured half a second after second `secs`, with 60 bytes. -/
def record_at_half (secs : Int) : wtap_pkthdr :=
  { ts_secs := secs, ts_nsecs := 500000000, caplen := 60, len := 60 }

/-- The time stamp of a header is normalised: `0 <= ts.nsecs < 10^9`. -/
def normalised (phdr : wtap_pkthdr) : Prop :=
  0 ≤ phdr.ts_nsecs ∧ phdr.ts_nsecs < 1000000000

instance (phdr : wtap_pkthdr) : Decidable (normalised phdr) := by
  unfold normalised; infer_instance

end Editcap

namespace Wiretap

/-! ## wiretap/file.c: the result of `wtap_dump_close` -/

/-- An environment in which the per-format close routine fails with a short
write (`*err = ENOSPC`, 28) and `fclose` fails as well with `EIO` (5). -/
def dump_env_both_fail : DumpEnv :=
  { dump_env_ok with
    subtype_close_ok := false
    subtype_close_err := some (ErrCode.os 28)
    fclose_fails := true
    fclose_errno := some (ErrCode.os 5) }

/-- An environment in which only `fclose` fails, with `EIO` (5). -/
def dump_env_fclose_fails : DumpEnv :=
  { dump_env_ok with
    fclose_fails := true
    fclose_errno := some (ErrCode.os 5) }

end Wiretap

namespace Spoolss

/-! ## packet-dcerpc-spoolss.c: relative strings -/

/-- What the functions that `prs_relstr` and `prs_uint16uni` call do on the
packet at hand. -/
structure RelstrPacket where
  /-- Modelled from the spec: `prs_uint32` of packet-dcerpc-nt.c (not under
  src/): the offset it returns and the value it stores through `data`, for
  the offset it is called with. -/
  prs_uint32 : Int → Int × Nat
  /-- Modelled from the spec: `prs_align` of packet-dcerpc-nt.c (not under
  src/): the offset it returns for an offset and a boundary. -/
  prs_align : Int → Int → Int
  /-- Modelled from the spec: `tvb_length_remaining` of epan/tvbuff.c (not
  under src/) on the packet, by offset. -/
  tvb_length_remaining : Int → Int
  /-- Modelled from the spec: `fake_unicode` of packet-dcerpc-nt.c (not under
  src/): the characters of the string it returns, without the NUL, for an
  offset and a length in characters. -/
  fake_unicode : Int → Int → List Char

/-- The conversion of a value to `guint32`. -/
def to_guint32 (x : Int) : Int := x % 4294967296

/-- The conversion of a value to `int` (32 bits, two's complement). -/
def to_gint (x : Int) : Int :=
  if x % 4294967296 < 2147483648 then x % 4294967296 else x % 4294967296 - 4294967296

/-- The text of an item added with `proto_tree_add_text`. -/
inductive Label where
  /-- The format `"%s: %s"` with a name and a string. -/
  | named (name : List Char) (text : List Char)
  /-- The format `"Relative offset: %d"`. -/
  | relative_offset (value : Int)
  /-- The text `"Data"`. -/
  | data
  deriving DecidableEq, Repr

/-- An item added with `proto_tree_add_text(tree, tvb, start, length, ...)`. -/
structure TextItem where
  start : Int
  length : Int
  label : Label
  deriving DecidableEq, Repr

/-- What a call of `prs_uint16uni` does that its caller can see. -/
structure Uint16uniResult where
  /-- The value returned. -/
  offset : Int
  /-- The string handed back through `data`, or freed when `data` is NULL. -/
  text : List Char
  /-- The items added to the tree. -/
  items : List TextItem
  /-- The call `fake_unicode(tvb, offset, remaining)`, which reads the bytes
  of the string: its offset and length. -/
  fake_unicode_call : Int × Int
  deriving DecidableEq, Repr

/-- The function `prs_uint16uni`; `name` is `none` for NULL. -/
def prs_uint16uni (p : RelstrPacket) (offset : Int) (name : Option (List Char)) :
    Uint16uniResult :=
  -- Get remaining data in buffer as a string
  { offset := p.prs_align offset 2
      + (((p.fake_unicode (p.prs_align offset 2)
            ((p.tvb_length_remaining (p.prs_align offset 2)).tdiv 2)).length : Int) + 1) * 2
    text := p.fake_unicode (p.prs_align offset 2)
      ((p.tvb_length_remaining (p.prs_align offset 2)).tdiv 2)
    items :=
      if name.isSome then
        [{ start := p.prs_align offset 2
           length := (((p.fake_unicode (p.prs_align offset 2)
             ((p.tvb_length_remaining (p.prs_align offset 2)).tdiv 2)).length : Int) + 1) * 2
           label := Label.named (name.getD "UINT16UNI".toList)
             (p.fake_unicode (p.prs_align offset 2)
               ((p.tvb_length_remaining (p.prs_align offset 2)).tdiv 2)) }]
      else []
    fake_unicode_call := (p.prs_align offset 2,
      (p.tvb_length_remaining (p.prs_align offset 2)).tdiv 2) }

/-- What a call of `prs_relstr` does that its caller can see. -/
structure RelstrResult where
  /-- The value returned. -/
  offset : Int
  /-- The string handed back through `data`, or freed when `data` is NULL. -/
  text : List Char
  /-- The items added to the tree and the subtree, in order. -/
  items : List TextItem
  /-- The offset `prs_uint16uni` is called with, when it is called. -/
  uint16uni_call : Option Int
  /-- The calls of `fake_unicode`, which read the bytes of the string: offset
  and length. -/
  fake_unicode_calls : List (Int × Int)
  deriving DecidableEq, Repr

/-- The local variable `relstr_offset` of `prs_relstr`, a `guint32`. -/
def relstr_offset (p : RelstrPacket) (offset : Int) : Int :=
  to_guint32 ((p.prs_uint32 offset).2 : Int)

/-- The local variable `relstr_start` of `prs_relstr`, a `guint32`:
`relstr_offset + struct_start`. -/
def relstr_start (p : RelstrPacket) (offset struct_start : Int) : Int :=
  to_guint32 (relstr_offset p offset + struct_start)

/-- The local variable `relstr_end` of `prs_relstr`, a `guint32`. -/
def relstr_end (p : RelstrPacket) (offset struct_start : Int) : Int :=
  if relstr_offset p offset ≠ 0 then
    to_guint32 (prs_uint16uni p (to_gint (relstr_start p offset struct_start)) none).offset
  else to_guint32 (p.prs_uint32 offset).1

/-- The local variable `text` of `prs_relstr` after the string is parsed. -/
def relstr_text (p : RelstrPacket) (offset struct_start : Int) : List Char :=
  if relstr_offset p offset ≠ 0 then
    (prs_uint16uni p (to_gint (relstr_start p offset struct_start)) none).text
  else "NULL".toList

/-- The function `prs_relstr`; `name` is `none` for NULL. -/
def prs_relstr (p : RelstrPacket) (offset struct_start : Int) (name : Option (List Char)) :
    RelstrResult :=
  { offset := (p.prs_uint32 offset).1
    text := relstr_text p offset struct_start
    items :=
      [{ start := to_gint (relstr_start p offset struct_start)
         length := to_gint (relstr_end p offset struct_start - relstr_start p offset struct_start)
         label := Label.named (name.getD "RELSTR".toList) (relstr_text p offset struct_start) },
       { start := (p.prs_uint32 offset).1 - 4
         length := 4
         label := Label.relative_offset (to_gint (relstr_offset p offset)) },
       { start := to_gint (relstr_start p offset struct_start)
         length := to_gint (relstr_end p offset struct_start - relstr_start p offset struct_start)
         label := Label.data }]
    uint16uni_call :=
      if relstr_offset p offset ≠ 0 then some (to_gint (relstr_start p offset struct_start))
      else none
    fake_unicode_calls :=
      if relstr_offset p offset ≠ 0 then
        [(prs_uint16uni p (to_gint (relstr_start p offset struct_start)) none).fake_unicode_call]
      else [] }

/-- A buffer of bytes with the helper functions as packet-dcerpc-nt.c has
them: `prs_uint32` aligns to four bytes and reads a little-endian value,
`prs_align` rounds up to the boundary, and `fake_unicode` takes the low byte
of each 16-bit character up to the first NUL. -/
def packet_of (data : List Nat) : RelstrPacket :=
  { prs_uint32 := fun offset =>
      ((offset + 3) / 4 * 4 + 4,
       data.getD ((offset + 3) / 4 * 4).toNat 0
         + 256 * data.getD (((offset + 3) / 4 * 4).toNat + 1) 0
         + 65536 * data.getD (((offset + 3) / 4 * 4).toNat + 2) 0
         + 16777216 * data.getD (((offset + 3) / 4 * 4).toNat + 3) 0)
    prs_align := fun offset n => (offset + n - 1) / n * n
    tvb_length_remaining := fun offset => (data.length : Int) - offset
    fake_unicode := fun offset len =>
      (((List.range len.toNat).map
          (fun i => data.getD (offset.toNat + 2 * i) 0)).takeWhile (fun b => b ≠ 0)).map
        Char.ofNat }

/-- A PRINTER_INFO-like structure that starts at offset 8: two relative
strings, the first with relative offset 8 ("ab" at offset 16), the second
with relative offset 0. -/
def relstr_bytes : List Nat :=
  [0, 0, 0, 0, 0, 0, 0, 0,
   8, 0, 0, 0, 0, 0, 0, 0,
   97, 0, 98, 0, 0, 0]

end Spoolss

namespace TokenRing

/-! ## packet-tr.c: the header analysis of `dissect_tr` -/

/-- What `dissect_tr` does with the frame once the header is analysed. -/
inductive DissectNext where
  /-- The call `dissect_trmac(pd, offset, fd, tree)`. -/
  | dissect_trmac (offset : Nat)
  /-- The call `dissect_llc(pd, offset, fd, tree)`. -/
  | dissect_llc (offset : Nat)
  /-- The call `dissect_data(pd, offset, fd, tree)`. -/
  | dissect_data (offset : Nat)
  deriving DecidableEq, Repr

/-- The values `dissect_tr` computes and the indices of `pd` its header
analysis reads. -/
structure TrDissect where
  /-- The indices of `pd` read up to `offset += actual_rif_bytes`, in order. -/
  reads : List Nat
  frame_type : Nat
  /-- The variable `source_routed` after the half-source-routed check. -/
  source_routed : Nat
  trn_rif_bytes : Nat
  actual_rif_bytes : Nat
  offset : Nat
  /-- The length of the item `proto_tr`, when a tree is built. -/
  tree_length : Option Nat
  /-- The start and the length of the item "Empty RIF from Linux 2.0.x
  driver", when it is added. -/
  empty_rif : Option (Nat × Nat)
  next : DissectNext
  deriving DecidableEq, Repr

/-- The function `dissect_tr`; `tree` says that the argument of that name is
not NULL. Of the tree only the two items named in `TrDissect` are kept; the
call of `add_ring_bridge_pairs` it makes for a tree is `dissect_tr_rif`. -/
def dissect_tr (pd : Nat → Nat) (tree : Bool) : TrDissect :=
  -- get the data
  let trn_fc := byte pd 1
  let trn_shost0 := byte pd 8
  let reads0 : List Nat :=
    [0, 1] ++ [2, 3, 4, 5, 6, 7] ++ [8, 9, 10, 11, 12, 13] ++ [14, 15]
      ++ (List.range 16).map (fun i => 16 + i) ++ [8, 9, 10, 11, 12, 13]
  let frame_type := (trn_fc &&& 192) >>> 6
  -- if the high bit on the first byte of src hwaddr is 1, then this packet
  -- is source-routed
  let source_routed0 := trn_shost0 &&& 128
  let trn_rif_bytes0 := byte pd 14 &&& 31
  let reads1 := reads0 ++ [14]
  -- sometimes we have a RCF but no RIF... half source-routed?
  let probe : Nat × List Nat :=
    if source_routed0 = 0 ∧ trn_rif_bytes0 > 0 then
      if trn_rif_bytes0 = 2 then (1, [])
      else if (snap_or_ipx pd (0x0e + trn_rif_bytes0)).1 then
        (1, (snap_or_ipx pd (0x0e + trn_rif_bytes0)).2)
      else (source_routed0, (snap_or_ipx pd (0x0e + trn_rif_bytes0)).2)
    else (source_routed0, [])
  let source_routed := probe.1
  let reads2 := reads1 ++ probe.2
  let trn_rif_bytes := if source_routed ≠ 0 then trn_rif_bytes0 else 0
  let actual_rif_bytes0 := if source_routed ≠ 0 then trn_rif_bytes0 else 0
  -- this is a silly hack for Linux 2.0.x
  let hack : Nat × List Nat :=
    if (source_routed ≠ 0 ∧ trn_rif_bytes = 2 ∧ frame_type = 1) ∨
        (source_routed = 0 ∧ frame_type = 1) then
      if (snap_or_ipx pd 0x20).1 then (18, (snap_or_ipx pd 0x20).2)
      else (actual_rif_bytes0, (snap_or_ipx pd 0x20).2)
    else (actual_rif_bytes0, [])
  let actual_rif_bytes := hack.1
  let offset := 14 + actual_rif_bytes
  { reads := reads2 ++ hack.2
    frame_type := frame_type
    source_routed := source_routed
    trn_rif_bytes := trn_rif_bytes
    actual_rif_bytes := actual_rif_bytes
    offset := offset
    tree_length := if tree then some (14 + actual_rif_bytes) else none
    empty_rif :=
      if tree ∧ actual_rif_bytes > trn_rif_bytes then
        some (14 + trn_rif_bytes, actual_rif_bytes - trn_rif_bytes)
      else none
    -- The package is either MAC or LLC
    next :=
      if frame_type = 0 then DissectNext.dissect_trmac offset
      else if frame_type = 1 then DissectNext.dissect_llc offset
      else DissectNext.dissect_data offset }

/-- The 5-bit RIF length of the routing control field, `pd[14] & 31`. -/
def rif_length (pd : Nat → Nat) : Nat := byte pd 14 &&& 31

/-- The largest index of `pd` that `capture_tr` reads. -/
def largest_read (pd : Nat → Nat) : Nat :=
  (capture_tr pd 0).reads.foldl max 0

/-- A token-ring frame of fifteen bytes: a MAC frame that is not
source-routed, with a routing-control byte of 0. -/
def short_mac_frame : List Nat := [0x10, 0x00, 0, 0, 0, 0, 0, 1, 0, 0, 0, 0, 0, 2, 0]

end TokenRing

namespace Mdshdr

/-! ## packet-mdshdr.c: the indices and the VSAN -/

/-- The bit mask of the field `hf_mdshdr_dstidx` in `proto_register_mdshdr`. -/
def hf_mdshdr_dstidx_mask : Nat := 0xFFC

/-- The bit mask of the field `hf_mdshdr_srcidx` in `proto_register_mdshdr`. -/
def hf_mdshdr_srcidx_mask : Nat := 0x3FF

/-- The bit mask of the field `hf_mdshdr_vsan` in `proto_register_mdshdr`. -/
def hf_mdshdr_vsan_mask : Nat := 0x0FFF

/-- The number of zero bits below the lowest set bit of a mask, 0 for the
mask 0; the fuel is the width of the mask. -/
def trailing_zeros : Nat → Nat → Nat
  | 0, _ => 0
  | fuel + 1, mask =>
    if mask = 0 ∨ mask % 2 = 1 then 0 else 1 + trailing_zeros fuel (mask / 2)

/-- Modelled from the spec: the value of a 16-bit field registered with a bit
mask, as `proto_tree_add_item` of epan/proto.c (not under src/) shows it: the
bits of the word that the mask selects, right-aligned. -/
def field_value (mask word : Nat) : Nat := (word &&& mask) >>> trailing_zeros 16 mask

/-- The fields of `pinfo` that `dissect_mdshdr` sets. -/
structure MdsPinfo where
  src_idx : Nat
  dst_idx : Nat
  vsan : Nat
  deriving DecidableEq, Repr

/-- The function `dissect_mdshdr` up to `pinfo->vsan = vsan`: the fields of
`pinfo` it sets; `none` when a read of the header is refused. -/
def dissect_mdshdr_pinfo (tvb : Smtp.tvbuff_t) : Option MdsPinfo :=
  (tvb_get_guint8 tvb (0 + MDSHDR_SOF_OFFSET)).bind fun _ =>
  (tvb_get_ntohs tvb (0 + MDSHDR_PKTLEN_OFFSET)).bind fun w2 =>
  (tvb_get_ntohs tvb (0 + MDSHDR_VSAN_OFFSET)).bind fun w13 =>
  -- The Mdshdr trailer is at the end of the frame
  (read_eof tvb (w2 &&& 0x1FFF)).bind fun _ =>
  (tvb_get_ntohs tvb MDSHDR_SIDX_OFFSET).bind fun ws =>
  (tvb_get_ntohs tvb MDSHDR_DIDX_OFFSET).bind fun wd =>
  some { src_idx := ws &&& 0x3FF, dst_idx := (wd &&& 0xFFC) >>> 6, vsan := w13 &&& 0x0FFF }

/-- The values of the fields Dst Index, Src Index and VSAN as the items
`hf_mdshdr_dstidx`, `hf_mdshdr_srcidx` and `hf_mdshdr_vsan` added by
`dissect_mdshdr` show them. -/
structure MdsFields where
  dstidx : Nat
  srcidx : Nat
  vsan : Nat
  deriving DecidableEq, Repr

/-- The items `proto_tree_add_item (mdshdr_tree_hdr, hf_mdshdr_dstidx, tvb,
MDSHDR_DIDX_OFFSET, MDSHDR_SIZE_INT16, 0)` and the two that follow it, for
the source index and the VSAN. -/
def header_fields (tvb : Smtp.tvbuff_t) : Option MdsFields :=
  (tvb_get_ntohs tvb MDSHDR_DIDX_OFFSET).bind fun wd =>
  (tvb_get_ntohs tvb MDSHDR_SIDX_OFFSET).bind fun ws =>
  (tvb_get_ntohs tvb MDSHDR_VSAN_OFFSET).bind fun wv =>
  some { dstidx := field_value hf_mdshdr_dstidx_mask wd
         srcidx := field_value hf_mdshdr_srcidx_mask ws
         vsan := field_value hf_mdshdr_vsan_mask wv }

/-- An MDS header of sixteen bytes with a declared length of 0 whose word at
offset 5 is 0x0004, whose word at offset 6 is 0x0401 and whose word at offset
13 is 0x0007. -/
def header_dst_index_1 : Smtp.tvbuff_t :=
  { data := [0, 0x01, 0, 0, 0, 0, 0x04, 0x01, 0, 0, 0, 0, 0, 0, 0x07, 0], reported_length := 16 }

end Mdshdr

namespace Smtp

/-! ## packet-smtp.c: responses and vendor commands -/

/-- Frame `n` sent by the server 10.0.0.2:25 to the client 10.0.0.1:1025. -/
def server_frame (n : Nat) : packet_info :=
  { fd_num := n, src := 2, dst := 1, ptype := 6, srcport := 25, destport := 1025,
    match_port := 25, can_desegment := 1, desegment_offset := 0, desegment_len := 0,
    fragmented := false }

/-- The state after the client has sent "DATA" CR LF and the body line
"Hello" CR LF: the conversation is reading message data and `crlf_seen` is
set. -/
def body_line_sent_state : SmtpState :=
  dissect_all env_default
    [⟨tvb_of "DATA\r\n", client_frame 1⟩, ⟨tvb_of "Hello\r\n", client_frame 2⟩] empty_state

/-- The state after the client has sent a whole message, "DATA" CR LF,
"Hello" CR LF and "." CR LF: the conversation is not reading message data
and `data_seen` is set. -/
def message_sent_state : SmtpState :=
  dissect_all env_default
    [⟨tvb_of "DATA\r\n", client_frame 1⟩, ⟨tvb_of "Hello\r\n", client_frame 2⟩,
     ⟨tvb_of ".\r\n", client_frame 3⟩] empty_state

/-- The line begins with `token`, compared ignoring case: its first
characters, as many as the token has, are the characters of the token in
upper or lower case. -/
def begins_with_ignoring_case (line : List Nat) (token : String) : Bool :=
  decide ((bytes token).length ≤ line.length) &&
  (line.take (bytes token).length).map tolower == (bytes token).map tolower

/-- The line begins with one of the vendor tokens "X-EXPS ", "X-LINK2STATE "
or "XEXCH50 ", compared ignoring case. -/
def begins_with_vendor_token (line : List Nat) : Bool :=
  begins_with_ignoring_case line "X-EXPS " ||
  begins_with_ignoring_case line "X-LINK2STATE " ||
  begins_with_ignoring_case line "XEXCH50 "

end Smtp

/-! # Part II: theorems -/

namespace Wiretap

/-! ## The dispatch loop of `wtap_open_offline` -/

theorem call_all_nil (probe : OpenRoutine → ProbeResult) (s : OpenState) :
    call_all probe [] s = s := rfl

theorem call_all_cons (probe : OpenRoutine → ProbeResult) (r : OpenRoutine)
    (l : List OpenRoutine) (s : OpenState) :
    call_all probe (r :: l) s = call_all probe l (call_routine probe r s) := rfl

theorem call_all_calls (probe : OpenRoutine → ProbeResult) (l : List OpenRoutine) :
    ∀ s : OpenState, (call_all probe l s).calls = s.calls ++ l := by
  induction l with
  | nil => intro s; simp [call_all_nil]
  | cons r l ih => intro s; rw [call_all_cons, ih]; simp [call_routine]

theorem call_all_closes (probe : OpenRoutine → ProbeResult) (l : List OpenRoutine) :
    ∀ s : OpenState, (call_all probe l s).file_close_calls = s.file_close_calls ∧
      (call_all probe l s).free_calls = s.free_calls := by
  induction l with
  | nil => intro s; simp [call_all_nil]
  | cons r l ih => intro s; rw [call_all_cons]; simpa [call_routine] using ih _

/-- Routines that return 0 are called one after the other and the loop goes
on with the rest of the table. -/
theorem try_all_file_types_skip (probe : OpenRoutine → ProbeResult)
    (pre rest : List OpenRoutine) (hpre : ∀ q ∈ pre, (probe q).ret = 0) :
    ∀ s : OpenState, try_all_file_types probe (pre ++ rest) s
      = try_all_file_types probe rest (call_all probe pre s) := by
  induction pre with
  | nil => intro s; rfl
  | cons r pre ih =>
    intro s
    have hr : (probe r).ret = 0 := hpre r (List.mem_cons_self _ _)
    have hrest : ∀ q ∈ pre, (probe q).ret = 0 :=
      fun q hq => hpre q (List.mem_cons_of_mem _ hq)
    simp only [List.cons_append, try_all_file_types, hr, call_all_cons]
    simpa using ih hrest _

theorem open_routines_nodup : open_routines.Nodup := by decide

/-- The table split at index `i`. -/
theorem open_routines_split (i : Nat) (r : OpenRoutine)
    (hr : open_routines[i]? = some r) :
    open_routines = open_routines.take i ++ r :: open_routines.drop (i + 1) := by
  obtain ⟨h, rfl⟩ := List.getElem?_eq_some.mp hr
  rw [← List.drop_eq_getElem_cons h, List.take_append_drop]

theorem take_succ_of_getElem_some (i : Nat) (r : OpenRoutine)
    (hr : open_routines[i]? = some r) :
    open_routines.take (i + 1) = open_routines.take i ++ [r] := by
  rw [List.take_succ, hr]; rfl

theorem wtap_open_offline_loop (env : OpenEnv) (probe : OpenRoutine → ProbeResult)
    (s : OpenState) (h : reaches_loop env) :
    ∃ e, wtap_open_offline env probe s
      = try_all_file_types probe open_routines { s with errno := e } := by
  obtain ⟨h1, h2, h3, h4, h5⟩ := h
  refine ⟨(env.filed_open_errno).getD ((env.open_errno).getD ErrCode.WTAP_ERR_CANT_OPEN), ?_⟩
  have h2' : (!env.is_reg && !env.is_fifo) = false := by
    rcases h2 with h2 | h2 <;> simp [h2]
  simp [wtap_open_offline, h1, h2', h3, h4, h5]

theorem not_called_after (i : Nat) :
    ∀ q ∈ open_routines.drop (i + 1), q ∉ open_routines.take (i + 1) := by
  have h := open_routines_nodup
  rw [← List.take_append_drop (i + 1) open_routines] at h
  intro q hq hq'
  exact (List.nodup_append.mp h).2.2 hq' hq

/-- The loop run on a table whose first `i` routines return 0 goes on at
routine `i` in the state these calls leave. -/
theorem try_all_reaches (probe : OpenRoutine → ProbeResult) (s : OpenState)
    (i : Nat) (r : OpenRoutine)
    (hpre : ∀ q ∈ open_routines.take i, (probe q).ret = 0)
    (hi : open_routines[i]? = some r) :
    try_all_file_types probe open_routines s
      = try_all_file_types probe (r :: open_routines.drop (i + 1))
          (call_all probe (open_routines.take i) s) := by
  have h := try_all_file_types_skip probe (open_routines.take i)
    (r :: open_routines.drop (i + 1)) hpre s
  rw [← open_routines_split i r hi] at h
  exact h

/-- C1: when the routines before index `i` return 0 and routine `i` returns 1,
`wtap_open_offline` succeeds with routine `i`; exactly the routines up to `i`
are called, in table order, none after it (whatever those would return, so
an earlier match wins over a later one); the file is not closed; and the
routine selected does not depend on the state the call starts in. -/
theorem wtap_open_offline_first_match (env : OpenEnv)
    (probe : OpenRoutine → ProbeResult) (s : OpenState) (i : Nat) (r : OpenRoutine)
    (hloop : reaches_loop env)
    (hpre : ∀ q ∈ open_routines.take i, (probe q).ret = 0)
    (hi : open_routines[i]? = some r)
    (hr : (probe r).ret = 1) :
    (wtap_open_offline env probe s).1 = OpenReturn.wth r ∧
    (wtap_open_offline env probe s).2.calls = s.calls ++ open_routines.take (i + 1) ∧
    (∀ q ∈ open_routines.drop (i + 1), q ∉ open_routines.take (i + 1)) ∧
    (wtap_open_offline env probe s).2.file_close_calls = s.file_close_calls ∧
    (∀ s' : OpenState,
      (wtap_open_offline env probe s').1 = (wtap_open_offline env probe s).1) := by
  have key : ∀ t : OpenState,
      (wtap_open_offline env probe t).1 = OpenReturn.wth r ∧
      (wtap_open_offline env probe t).2.calls = t.calls ++ open_routines.take (i + 1) ∧
      (wtap_open_offline env probe t).2.file_close_calls = t.file_close_calls := by
    intro t
    obtain ⟨e, he⟩ := wtap_open_offline_loop env probe t hloop
    rw [he, try_all_reaches probe _ i r hpre hi, take_succ_of_getElem_some i r hi]
    have hc := call_all_calls probe (open_routines.take i) { t with errno := e }
    have hf := (call_all_closes probe (open_routines.take i) { t with errno := e }).1
    simp [try_all_file_types, hr, call_routine, hc, hf]
  refine ⟨(key s).1, (key s).2.1, not_called_after i, (key s).2.2, ?_⟩
  intro s'
  rw [(key s').1, (key s).1]

theorem wtap_open_offline_first_match_witness :
    reaches_loop env_regular_file ∧
    (∀ q ∈ open_routines.take 3, (probe_snoop_and_toshiba q).ret = 0) ∧
    (probe_snoop_and_toshiba OpenRoutine.toshiba_open).ret = 1 ∧
    (wtap_open_offline env_regular_file probe_snoop_and_toshiba fresh_state).1
      = OpenReturn.wth OpenRoutine.snoop_open ∧
    (wtap_open_offline env_regular_file probe_snoop_and_toshiba fresh_state).2.calls
      = [OpenRoutine.libpcap_open, OpenRoutine.lanalyzer_open,
         OpenRoutine.ngsniffer_open, OpenRoutine.snoop_open] :=
  have h := wtap_open_offline_first_match env_regular_file probe_snoop_and_toshiba
    fresh_state 3 OpenRoutine.snoop_open (by decide) (by decide) (by decide) (by decide)
  ⟨by decide, by decide, by decide, h.1, h.2.1⟩

/-- C2: when the routines before index `i` return 0 and routine `i` returns -1,
`wtap_open_offline` returns NULL with `*err = errno`; exactly the routines up
to `i` are called, none after it (even one that would return 1), and
`file_close` and `free` are each called once. -/
theorem wtap_open_offline_io_error (env : OpenEnv)
    (probe : OpenRoutine → ProbeResult) (s : OpenState) (i : Nat) (r : OpenRoutine)
    (hloop : reaches_loop env)
    (hpre : ∀ q ∈ open_routines.take i, (probe q).ret = 0)
    (hi : open_routines[i]? = some r)
    (hr : (probe r).ret = -1) :
    (wtap_open_offline env probe s).1 = OpenReturn.NULL ∧
    (wtap_open_offline env probe s).2.calls = s.calls ++ open_routines.take (i + 1) ∧
    (∀ q ∈ open_routines.drop (i + 1), q ∉ open_routines.take (i + 1)) ∧
    (wtap_open_offline env probe s).2.file_close_calls = s.file_close_calls + 1 ∧
    (wtap_open_offline env probe s).2.free_calls = s.free_calls + 1 ∧
    (wtap_open_offline env probe s).2.err
      = some (wtap_open_offline env probe s).2.errno := by
  obtain ⟨e, he⟩ := wtap_open_offline_loop env probe s hloop
  rw [he, try_all_reaches probe _ i r hpre hi, take_succ_of_getElem_some i r hi]
  have hc := call_all_calls probe (open_routines.take i) { s with errno := e }
  have hf := call_all_closes probe (open_routines.take i) { s with errno := e }
  refine ⟨?_, ?_, ?_, ?_, ?_, ?_⟩
  · simp [try_all_file_types, hr]
  · simp [try_all_file_types, hr, call_routine, hc]
  · rw [← take_succ_of_getElem_some i r hi]; exact not_called_after i
  · simp [try_all_file_types, hr, call_routine, hf.1]
  · simp [try_all_file_types, hr, call_routine, hf.2]
  · simp [try_all_file_types, hr]

theorem wtap_open_offline_io_error_witness :
    reaches_loop env_regular_file ∧
    (∀ q ∈ open_routines.take 2, (probe_ngsniffer_io_error q).ret = 0) ∧
    (probe_ngsniffer_io_error OpenRoutine.netxray_open).ret = 1 ∧
    (wtap_open_offline env_regular_file probe_ngsniffer_io_error fresh_state).1
      = OpenReturn.NULL ∧
    (wtap_open_offline env_regular_file probe_ngsniffer_io_error fresh_state).2.calls
      = [OpenRoutine.libpcap_open, OpenRoutine.lanalyzer_open,
         OpenRoutine.ngsniffer_open] ∧
    (wtap_open_offline env_regular_file probe_ngsniffer_io_error
      fresh_state).2.file_close_calls = 1 :=
  have h := wtap_open_offline_io_error env_regular_file probe_ngsniffer_io_error
    fresh_state 2 OpenRoutine.ngsniffer_open (by decide) (by decide) (by decide) (by decide)
  ⟨by decide, by decide, by decide, h.1, h.2.1, h.2.2.2.1⟩

/-- C3: when every routine of the table returns 0, `wtap_open_offline` calls
the eleven routines once each in table order and returns NULL with
`*err = WTAP_ERR_FILE_UNKNOWN_FORMAT`, having closed the file once. -/
theorem wtap_open_offline_unknown_format (env : OpenEnv)
    (probe : OpenRoutine → ProbeResult) (s : OpenState)
    (hloop : reaches_loop env)
    (hall : ∀ q ∈ open_routines, (probe q).ret = 0) :
    (wtap_open_offline env probe s).1 = OpenReturn.NULL ∧
    (wtap_open_offline env probe s).2.calls = s.calls ++ open_routines ∧
    (∀ q : OpenRoutine, open_routines.count q = 1) ∧
    N_FILE_TYPES = 11 ∧
    (wtap_open_offline env probe s).2.err = some ErrCode.WTAP_ERR_FILE_UNKNOWN_FORMAT ∧
    (wtap_open_offline env probe s).2.file_close_calls = s.file_close_calls + 1 := by
  obtain ⟨e, he⟩ := wtap_open_offline_loop env probe s hloop
  have h := try_all_file_types_skip probe open_routines [] hall { s with errno := e }
  rw [List.append_nil] at h
  rw [he, h]
  have hc := call_all_calls probe open_routines { s with errno := e }
  have hf := call_all_closes probe open_routines { s with errno := e }
  refine ⟨rfl, ?_, ?_, rfl, rfl, ?_⟩
  · simpa [try_all_file_types] using hc
  · intro q; cases q <;> decide
  · simpa [try_all_file_types] using hf.1

theorem wtap_open_offline_unknown_format_witness :
    reaches_loop env_regular_file ∧
    (∀ q ∈ open_routines, (probe_none_matches q).ret = 0) ∧
    (wtap_open_offline env_regular_file probe_none_matches fresh_state).1
      = OpenReturn.NULL ∧
    (wtap_open_offline env_regular_file probe_none_matches fresh_state).2.calls
      = open_routines ∧
    (wtap_open_offline env_regular_file probe_none_matches fresh_state).2.err
      = some ErrCode.WTAP_ERR_FILE_UNKNOWN_FORMAT :=
  have h := wtap_open_offline_unknown_format env_regular_file probe_none_matches
    fresh_state (by decide) (by decide)
  ⟨by decide, by decide, h.1, h.2.1, h.2.2.2.2.1⟩

end Wiretap

namespace Smtp

/-! ## The SMTP dissector -/

/-! ### Buffer reads -/

theorem bytes_dot_crlf : bytes ".\r\n" = [46, 13, 10] := by decide

theorem bytes_crlf_dot_crlf : bytes "\r\n.\r\n" = [13, 10, 46, 13, 10] := by decide

theorem bytes_crlf : bytes "\r\n" = [13, 10] := by decide

theorem bytes_DATA : bytes "DATA" = [68, 65, 84, 65] := by decide

theorem strncmp_eq_zero (s : List Nat) (hs : ∀ c ∈ s, c ≠ 0) :
    ∀ a : List Nat, a.length = s.length → (strncmp a s s.length = 0 ↔ a = s) := by
  induction s with
  | nil =>
    intro a ha
    simp at ha
    simp [strncmp, ha]
  | cons c s ih =>
    intro a ha
    cases a with
    | nil => simp at ha
    | cons x a =>
      have hc : c ≠ 0 := hs c (List.mem_cons_self _ _)
      have hs' : ∀ d ∈ s, d ≠ 0 := fun d hd => hs d (List.mem_cons_of_mem _ hd)
      have ha' : a.length = s.length := by simpa using ha
      by_cases hx : x = c
      · subst hx
        simp [strncmp, hc, ih hs' a ha']
      · have : (x : Int) - (c : Int) ≠ 0 := by omega
        simp [strncmp, hx, this]

theorem compute_offset_zero (tvb : tvbuff_t) : compute_offset tvb 0 = some 0 := by
  simp [compute_offset]

theorem tvb_strneql_zero_iff (tvb : tvbuff_t) (s : List Nat) (hs : ∀ c ∈ s, c ≠ 0) :
    tvb_strneql tvb 0 s s.length = 0 ↔ s <+: tvb.data := by
  unfold tvb_strneql
  rw [compute_offset_zero]
  simp only [List.drop_zero, Nat.zero_add]
  by_cases hlen : s.length ≤ tvb.data.length
  · have hl : (tvb.data.take s.length).length = s.length := by
      simp [List.length_take, hlen]
    rw [if_pos hlen]
    have h := strncmp_eq_zero s hs _ hl
    constructor
    · intro h0
      have : strncmp (List.take s.length tvb.data) s s.length = 0 := by
        by_contra hne
        simp [hne] at h0
      rw [List.prefix_iff_eq_take]
      exact (h.mp this).symm
    · intro hp
      rw [List.prefix_iff_eq_take] at hp
      have : strncmp (List.take s.length tvb.data) s s.length = 0 := h.mpr hp.symm
      simp [this]
  · rw [if_neg hlen]
    constructor
    · intro h; simp at h
    · intro hp
      exact absurd hp.length_le hlen

theorem eom_condition_iff (tvb : tvbuff_t) (crlf_seen : Nat) :
    eom_condition tvb crlf_seen = true ↔ begins_with_eom tvb crlf_seen := by
  have h3 := tvb_strneql_zero_iff tvb (bytes ".\r\n") (by decide)
  have h5 := tvb_strneql_zero_iff tvb (bytes "\r\n.\r\n") (by decide)
  have l3 : (bytes ".\r\n").length = 3 := by decide
  have l5 : (bytes "\r\n.\r\n").length = 5 := by decide
  rw [l3] at h3
  rw [l5] at h5
  unfold eom_condition begins_with_eom
  simp only [Bool.or_eq_true, Bool.and_eq_true, beq_iff_eq, bne_iff_ne, h3, h5]
  tauto

theorem line_found_of_prefix_crlf (tvb : tvbuff_t) (d : Bool) (rest : List Nat)
    (h : tvb.data = 13 :: 10 :: rest) :
    tvb_find_line_end tvb 0 d = some (0, 2) := by
  simp [tvb_find_line_end, h, find_cr_or_lf]

theorem line_found_of_prefix_dot (tvb : tvbuff_t) (d : Bool) (rest : List Nat)
    (h : tvb.data = 46 :: 13 :: 10 :: rest) :
    tvb_find_line_end tvb 0 d = some (1, 3) := by
  simp [tvb_find_line_end, h, find_cr_or_lf]

theorem line_found_of_eom (tvb : tvbuff_t) (crlf_seen : Nat) (d : Bool)
    (h : begins_with_eom tvb crlf_seen) :
    ∃ linelen next_offset, tvb_find_line_end tvb 0 d = some (linelen, next_offset) := by
  rcases h with h | ⟨h, _⟩
  · obtain ⟨t, ht⟩ := h
    have hb : bytes "\r\n.\r\n" = [13, 10, 46, 13, 10] := by decide
    rw [hb] at ht
    exact ⟨0, 2, line_found_of_prefix_crlf tvb d _ ht.symm⟩
  · obtain ⟨t, ht⟩ := h
    have hb : bytes ".\r\n" = [46, 13, 10] := by decide
    rw [hb] at ht
    exact ⟨1, 3, line_found_of_prefix_dot tvb d _ ht.symm⟩

/-! ### The conversation table -/

theorem conv_matches_congr (p q : packet_info) (c : conversation_t)
    (h : same_conv p q = true) : conv_matches p c = conv_matches q c := by
  simp only [same_conv, same_conversation, Bool.and_eq_true, Bool.or_eq_true, beq_iff_eq,
    and_assoc] at h
  simp only [conv_matches, same_conversation]
  rcases h with ⟨hpt, ⟨h1, h2, h3, h4⟩ | ⟨h1, h2, h3, h4⟩⟩
  · rw [hpt, h1, h2, h3, h4]
  · rw [hpt, h1, h2, h3, h4]
    rw [Bool.or_comm]

theorem conv_matches_both (p q : packet_info) (c : conversation_t)
    (hp : conv_matches p c = true) (hq : conv_matches q c = true) :
    same_conv p q = true := by
  simp only [conv_matches, same_conv, same_conversation, Bool.and_eq_true, Bool.or_eq_true,
    beq_iff_eq, and_assoc] at *
  rcases hp with ⟨hpt, ⟨h1, h2, h3, h4⟩ | ⟨h1, h2, h3, h4⟩⟩ <;>
  rcases hq with ⟨hqt, ⟨k1, k2, k3, k4⟩ | ⟨k1, k2, k3, k4⟩⟩ <;>
  (refine ⟨by omega, ?_⟩; omega)

theorem conv_matches_set (q : packet_info) (c : conversation_t) (rv : Option smtp_request_val) :
    conv_matches q { c with proto_data := rv } = conv_matches q c := rfl

theorem request_val_in_set_same (p : packet_info) (rv : smtp_request_val) :
    ∀ tbl : List conversation_t, (∃ c ∈ tbl, conv_matches p c = true) →
      request_val_in (set_request_val p rv tbl) p = some rv := by
  intro tbl
  induction tbl with
  | nil => intro h; simp at h
  | cons c rest ih =>
    intro h
    by_cases hc : conv_matches p c = true
    · simp [set_request_val, hc, request_val_in, find_conversation, List.find?, conv_matches_set]
    · have hex : ∃ c ∈ rest, conv_matches p c = true := by
        obtain ⟨d, hd, hm⟩ := h
        rcases List.mem_cons.mp hd with rfl | hd
        · exact absurd hm hc
        · exact ⟨d, hd, hm⟩
      have := ih hex
      simp only [Bool.not_eq_true] at hc
      simp only [request_val_in, find_conversation] at this ⊢
      simp [set_request_val, hc, List.find?, this]

theorem request_val_in_set_other (p q : packet_info) (rv : smtp_request_val)
    (h : same_conv p q = false) :
    ∀ tbl : List conversation_t,
      request_val_in (set_request_val p rv tbl) q = request_val_in tbl q := by
  intro tbl
  induction tbl with
  | nil => rfl
  | cons c rest ih =>
    by_cases hc : conv_matches p c = true
    · have hq : conv_matches q c = false := by
        by_contra hq
        simp only [Bool.not_eq_false] at hq
        have := conv_matches_both p q c hc hq
        rw [h] at this
        exact absurd this (by decide)
      simp [set_request_val, hc, request_val_in, find_conversation, List.find?, conv_matches_set, hq]
    · simp only [Bool.not_eq_true] at hc
      simp only [request_val_in, find_conversation] at ih ⊢
      by_cases hq : conv_matches q c = true
      · simp [set_request_val, hc, List.find?, hq]
      · simp only [Bool.not_eq_true] at hq
        simp [set_request_val, hc, List.find?, hq, ih]

theorem request_val_in_congr (p q : packet_info) (tbl : List conversation_t)
    (h : same_conv p q = true) : request_val_in tbl p = request_val_in tbl q := by
  have : conv_matches p = conv_matches q := funext (fun c => conv_matches_congr p q c h)
  simp [request_val_in, find_conversation, this]

/-! ### The first pass over a frame -/

theorem find_or_new_proto_data (st : SmtpState) (p : packet_info) :
    (find_or_new st p).1.proto_data = request_val_of st p := by
  unfold find_or_new request_val_of request_val_in
  cases h : find_conversation st.conversations p with
  | none => simp [conversation_new]
  | some c => simp

theorem find_or_new_frame_data (st : SmtpState) (p : packet_info) :
    (find_or_new st p).2.frame_data = st.frame_data := by
  unfold find_or_new
  cases h : find_conversation st.conversations p with
  | none => simp [conversation_new]
  | some c => simp

theorem find_or_new_exists (st : SmtpState) (p : packet_info) :
    ∃ c ∈ (find_or_new st p).2.conversations, conv_matches p c = true := by
  unfold find_or_new
  cases h : find_conversation st.conversations p with
  | none =>
    refine ⟨(conversation_new st p).1, ?_, ?_⟩
    · simp [conversation_new]
    · simp [conversation_new, conv_matches, same_conversation]
  | some c =>
    unfold find_conversation at h
    exact ⟨c, List.mem_of_find?_eq_some h, List.find?_some h⟩

theorem find_or_new_request_val (st : SmtpState) (p q : packet_info) :
    request_val_in (find_or_new st p).2.conversations q
      = request_val_in st.conversations q := by
  unfold find_or_new
  cases h : find_conversation st.conversations p with
  | some c => simp
  | none =>
    simp only [conversation_new, request_val_in, find_conversation, List.find?_append]
    cases hq : List.find? (conv_matches q) st.conversations with
    | some d => simp
    | none =>
      have hn : (conversation_new st p).1.proto_data = none := rfl
      by_cases hm : conv_matches q (conversation_new st p).1 = true
      · simp only [conversation_new] at hm hn
        simp [List.find?, hm]
      · simp only [Bool.not_eq_true] at hm
        simp only [conversation_new] at hm
        simp [List.find?, hm]

theorem first_pass_same (tvb : tvbuff_t) (p : packet_info) (request : Bool)
    (linelen : Nat) (line : List Nat) (st : SmtpState) :
    request_val_of (first_pass tvb p request linelen line st).1 p
      = some (next_request_val tvb request linelen line (request_val_of st p)) := by
  have hex := find_or_new_exists st p
  have hpd := find_or_new_proto_data st p
  unfold first_pass next_request_val
  simp only [hpd]
  cases request with
  | true => simpa [request_val_of] using request_val_in_set_same p _ _ hex
  | false => simpa [request_val_of] using request_val_in_set_same p _ _ hex

theorem first_pass_other (tvb : tvbuff_t) (p q : packet_info) (request : Bool)
    (linelen : Nat) (line : List Nat) (st : SmtpState) (h : same_conv p q = false) :
    request_val_of (first_pass tvb p request linelen line st).1 q = request_val_of st q := by
  unfold first_pass request_val_of
  cases request with
  | true =>
    simp only [if_true]
    rw [request_val_in_set_other p q _ h, find_or_new_request_val]
  | false =>
    simp only [Bool.false_eq_true, if_false]
    rw [request_val_in_set_other p q _ h, find_or_new_request_val]

theorem first_pass_request (tvb : tvbuff_t) (p : packet_info)
    (linelen : Nat) (line : List Nat) (st : SmtpState) :
    ∃ d : smtp_proto_data,
      d.pdu_type = (classify_request linelen line
        (check_eom tvb (current_request_val st p)).2
        (check_eom tvb (current_request_val st p)).1).1 ∧
      (first_pass tvb p true linelen line st).2 = some d ∧
      (first_pass tvb p true linelen line st).1.frame_data
        = (p.fd_num, d) :: st.frame_data := by
  have hpd := find_or_new_proto_data st p
  refine ⟨_, ?_, rfl, ?_⟩
  · simp [hpd, current_request_val]
  · simp [first_pass, p_add_proto_data, find_or_new_frame_data]

theorem first_pass_response (tvb : tvbuff_t) (p : packet_info)
    (linelen : Nat) (line : List Nat) (st : SmtpState) :
    (first_pass tvb p false linelen line st).2 = none ∧
    (first_pass tvb p false linelen line st).1.frame_data = st.frame_data := by
  simp [first_pass, find_or_new_frame_data]

/-! ### One call of `dissect_smtp` -/

theorem dissect_smtp_no_line (env : Env) (tvb : tvbuff_t) (p : packet_info) (st : SmtpState)
    (h : tvb_find_line_end tvb 0 (env.smtp_desegment && p.can_desegment != 0) = none) :
    (dissect_smtp env tvb p st).st = st ∧
    (dissect_smtp env tvb p st).frame_data = none := by
  simp [dissect_smtp, h]

theorem dissect_smtp_first (env : Env) (tvb : tvbuff_t) (p : packet_info) (st : SmtpState)
    (linelen next_offset : Nat)
    (h : tvb_find_line_end tvb 0 (env.smtp_desegment && p.can_desegment != 0)
      = some (linelen, next_offset))
    (hf : p_get_proto_data st.frame_data p.fd_num = none) :
    (dissect_smtp env tvb p st).st
      = (first_pass tvb p (is_request p) linelen (tvb_get_ptr tvb 0 linelen) st).1 ∧
    (dissect_smtp env tvb p st).frame_data
      = (first_pass tvb p (is_request p) linelen (tvb_get_ptr tvb 0 linelen) st).2 := by
  simp [dissect_smtp, h, hf]

theorem dissect_smtp_revisit (env : Env) (tvb : tvbuff_t) (p : packet_info) (st : SmtpState)
    (fd : smtp_proto_data) (hf : p_get_proto_data st.frame_data p.fd_num = some fd) :
    (dissect_smtp env tvb p st).st = st := by
  unfold dissect_smtp
  cases h : tvb_find_line_end tvb 0 (env.smtp_desegment && p.can_desegment != 0) with
  | none => simp
  | some r => simp [hf]

theorem p_get_proto_data_add (tbl : List (Nat × smtp_proto_data)) (n m : Nat)
    (d : smtp_proto_data) :
    p_get_proto_data ((n, d) :: tbl) m
      = if n = m then some d else p_get_proto_data tbl m := by
  by_cases h : n = m
  · simp [p_get_proto_data, List.find?, h]
  · have : (n == m) = false := by simpa using h
    simp [p_get_proto_data, List.find?, h, this]

/-! ### Classification of a request -/

theorem classify_reading (tvb : tvbuff_t) (linelen : Nat) (line : List Nat)
    (rv : smtp_request_val) (h : rv.reading_data = true) :
    classify_request linelen line (check_eom tvb rv).2 (check_eom tvb rv).1
      = if eom_condition tvb rv.crlf_seen = true then
          (SMTP_PDU_EOM, { reading_data := false,
                           crlf_seen := if ends_with_crlf tvb = true then 1 else 0,
                           data_seen := rv.data_seen })
        else
          (SMTP_PDU_MESSAGE, { reading_data := true,
                               crlf_seen := if ends_with_crlf tvb = true then 1 else 0,
                               data_seen := rv.data_seen }) := by
  unfold check_eom classify_request
  rw [h]
  by_cases he : ends_with_crlf tvb = true <;>
  by_cases hc : eom_condition tvb rv.crlf_seen = true <;>
  simp [he, hc]

theorem check_eom_not_reading (tvb : tvbuff_t) (rv : smtp_request_val)
    (h : rv.reading_data = false) : check_eom tvb rv = (rv, false) := by
  simp [check_eom, h]

/-- The effect of a request seen for the first time whose first line is found. -/
theorem dissect_request_first (env : Env) (tvb : tvbuff_t) (p : packet_info) (st : SmtpState)
    (linelen next_offset : Nat)
    (hline : tvb_find_line_end tvb 0 (env.smtp_desegment && p.can_desegment != 0)
      = some (linelen, next_offset))
    (hfirst : p_get_proto_data st.frame_data p.fd_num = none)
    (hreq : is_request p = true) :
    ∃ d : smtp_proto_data,
      d.pdu_type = (classify_request linelen (tvb_get_ptr tvb 0 linelen)
        (check_eom tvb (current_request_val st p)).2
        (check_eom tvb (current_request_val st p)).1).1 ∧
      (dissect_smtp env tvb p st).st.frame_data = (p.fd_num, d) :: st.frame_data ∧
      frame_pdu_type (dissect_smtp env tvb p st).st p = some d.pdu_type ∧
      current_request_val (dissect_smtp env tvb p st).st p
        = (classify_request linelen (tvb_get_ptr tvb 0 linelen)
            (check_eom tvb (current_request_val st p)).2
            (check_eom tvb (current_request_val st p)).1).2 := by
  have hst := (dissect_smtp_first env tvb p st linelen next_offset hline hfirst).1
  rw [hreq] at hst
  obtain ⟨d, hd, _, hfd⟩ := first_pass_request tvb p linelen (tvb_get_ptr tvb 0 linelen) st
  refine ⟨d, hd, ?_, ?_, ?_⟩
  · rw [hst, hfd]
  · unfold frame_pdu_type
    rw [hst, hfd, p_get_proto_data_add]
    simp
  · unfold current_request_val
    rw [hst, first_pass_same]
    simp [next_request_val, current_request_val]

theorem frame_pdu_type_none (st : SmtpState) (p : packet_info)
    (h : p_get_proto_data st.frame_data p.fd_num = none) : frame_pdu_type st p = none := by
  simp [frame_pdu_type, h]

theorem tvb_find_line_end_no_desegment (tvb : tvbuff_t) (offset : Nat) :
    tvb_find_line_end tvb offset false ≠ none := by
  unfold tvb_find_line_end
  cases find_cr_or_lf (List.drop offset tvb.data) with
  | none => simp
  | some k =>
    simp only [Bool.false_eq_true, if_false]
    split_ifs <;> simp

/-! ### The DATA command -/

theorem tolower_eq_d (x : Nat) : tolower x = 100 ↔ (x = 68 ∨ x = 100) := by
  unfold tolower; split_ifs <;> omega

theorem tolower_eq_a (x : Nat) : tolower x = 97 ↔ (x = 65 ∨ x = 97) := by
  unfold tolower; split_ifs <;> omega

theorem tolower_eq_t (x : Nat) : tolower x = 116 ↔ (x = 84 ∨ x = 116) := by
  unfold tolower; split_ifs <;> omega

theorem strncasecmp_cons (x y : Nat) (a b : List Nat) (n : Nat) :
    strncasecmp (x :: a) (y :: b) (n + 1)
      = if tolower x ≠ tolower y then (tolower x : Int) - (tolower y : Int)
        else if tolower x = 0 then 0 else strncasecmp a b n := by
  simp [strncasecmp]

theorem strncasecmp_nil (b : List Nat) (n : Nat) (y : Nat) (hy : tolower y ≠ 0) :
    strncasecmp [] (y :: b) (n + 1) ≠ 0 := by
  have h0 : tolower 0 = 0 := by decide
  simp only [strncasecmp, List.headD_nil, List.headD_cons, h0]
  have : (0 : Nat) ≠ tolower y := fun h => hy h.symm
  simp only [ne_eq, this, not_false_eq_true, if_true]
  omega

/-- One step of the comparison against a letter. -/
theorem strncasecmp_step (x y : Nat) (a b : List Nat) (n : Nat) (hy : tolower y ≠ 0) :
    strncasecmp (x :: a) (y :: b) (n + 1) = 0
      ↔ tolower x = tolower y ∧ strncasecmp a b n = 0 := by
  rw [strncasecmp_cons]
  by_cases h : tolower x = tolower y
  · have hx : tolower x ≠ 0 := by rw [h]; exact hy
    simp [h, hy]
  · have : (tolower x : Int) - (tolower y : Int) ≠ 0 := by omega
    simp [h, this]

theorem strncasecmp_DATA (line : List Nat) :
    strncasecmp line (bytes "DATA") 4 = 0 ↔ is_DATA_ignoring_case line := by
  have hb : bytes "DATA" = [68, 65, 84, 65] := by decide
  have h68 : tolower 68 = 100 := by decide
  have h65 : tolower 65 = 97 := by decide
  have h84 : tolower 84 = 116 := by decide
  rw [hb]
  unfold is_DATA_ignoring_case
  rcases line with _ | ⟨a, _ | ⟨b, _ | ⟨c, _ | ⟨d, rest⟩⟩⟩⟩
  · have := strncasecmp_nil [65, 84, 65] 3 68 (by decide)
    simp [this]
  · rw [strncasecmp_step _ _ _ _ _ (by decide)]
    have := strncasecmp_nil [84, 65] 2 65 (by decide)
    simp [this]
  · rw [strncasecmp_step _ _ _ _ _ (by decide), strncasecmp_step _ _ _ _ _ (by decide)]
    have := strncasecmp_nil [65] 1 84 (by decide)
    simp [this]
  · rw [strncasecmp_step _ _ _ _ _ (by decide), strncasecmp_step _ _ _ _ _ (by decide),
      strncasecmp_step _ _ _ _ _ (by decide)]
    have := strncasecmp_nil [] 0 65 (by decide)
    simp [this]
  · rw [strncasecmp_step _ _ _ _ _ (by decide), strncasecmp_step _ _ _ _ _ (by decide),
      strncasecmp_step _ _ _ _ _ (by decide), strncasecmp_step _ _ _ _ _ (by decide)]
    simp [strncasecmp, h68, h65, h84, tolower_eq_d, tolower_eq_a, tolower_eq_t]

theorem ISALPHA_of_letter (x lo : Nat) (hlo : 97 ≤ lo ∧ lo ≤ 122) (h : x + 32 = lo ∨ x = lo) :
    ISALPHA x = true := by
  unfold ISALPHA
  simp only [Bool.or_eq_true, Bool.and_eq_true, decide_eq_true_eq]
  omega

theorem is_command_line_of_DATA (linelen : Nat) (line : List Nat)
    (h : is_DATA_ignoring_case line) :
    is_command_line linelen line = true ↔ (4 ≤ linelen ∧ (linelen = 4 ∨ line.getD 4 0 = 32)) := by
  obtain ⟨h0, h1, h2, h3⟩ := h
  have a0 : ISALPHA (line.getD 0 0) = true := ISALPHA_of_letter _ 100 (by omega) (by omega)
  have a1 : ISALPHA (line.getD 1 0) = true := ISALPHA_of_letter _ 97 (by omega) (by omega)
  have a2 : ISALPHA (line.getD 2 0) = true := ISALPHA_of_letter _ 116 (by omega) (by omega)
  have a3 : ISALPHA (line.getD 3 0) = true := ISALPHA_of_letter _ 97 (by omega) (by omega)
  unfold is_command_line
  simp only [Bool.and_eq_true, Bool.or_eq_true, decide_eq_true_eq, beq_iff_eq, a0, a1, a2, a3,
    and_true]

/-- The DATA branch of `classify_request` is taken exactly for a DATA line. -/
theorem classify_not_reading (linelen : Nat) (line : List Nat) (rv : smtp_request_val)
    (h : rv.reading_data = false) :
    ((4 ≤ linelen ∧ is_DATA_ignoring_case line ∧ (linelen = 4 ∨ line.getD 4 0 = 32)) →
      (classify_request linelen line false rv).2
        = { reading_data := true, crlf_seen := rv.crlf_seen, data_seen := 1 }) ∧
    (¬ (4 ≤ linelen ∧ is_DATA_ignoring_case line ∧ (linelen = 4 ∨ line.getD 4 0 = 32)) →
      (classify_request linelen line false rv).2 = rv) := by
  constructor
  · rintro ⟨h4, hD, h5⟩
    have hc : is_command_line linelen line = true :=
      (is_command_line_of_DATA linelen line hD).mpr ⟨h4, h5⟩
    have hs : strncasecmp line (bytes "DATA") 4 = 0 := (strncasecmp_DATA line).mpr hD
    simp [classify_request, h, hc, hs]
  · intro hn
    unfold classify_request
    rw [h]
    simp only [Bool.false_eq_true, if_false]
    by_cases hc : is_command_line linelen line = true
    · by_cases hs : strncasecmp line (bytes "DATA") 4 = 0
      · exfalso
        have hD := (strncasecmp_DATA line).mp hs
        have := (is_command_line_of_DATA linelen line hD).mp hc
        exact hn ⟨this.1, hD, this.2⟩
      · simp [hc, hs]
    · simp only [Bool.not_eq_true] at hc
      rw [hc]
      simp only [Bool.false_eq_true, if_false]
      split_ifs <;> rfl

/-! ### Segments that end in CR LF -/

theorem find_cr_or_lf_suffix : ∀ pre : List Nat,
    ∃ k, find_cr_or_lf (pre ++ [13, 10]) = some k ∧ k ≤ pre.length := by
  intro pre
  induction pre with
  | nil => exact ⟨0, by simp [find_cr_or_lf], by simp⟩
  | cons c pre ih =>
    obtain ⟨k, hk, hle⟩ := ih
    by_cases hc : c = 13 ∨ c = 10
    · exact ⟨0, by simp [find_cr_or_lf, hc], by simp⟩
    · exact ⟨k + 1, by simp [find_cr_or_lf, hc, hk], by simp [hle]⟩

theorem line_found_of_crlf_suffix (tvb : tvbuff_t) (pre : List Nat) (d : Bool)
    (h : tvb.data = pre ++ [13, 10]) : tvb_find_line_end tvb 0 d ≠ none := by
  obtain ⟨k, hk, hle⟩ := find_cr_or_lf_suffix pre
  unfold tvb_find_line_end
  simp only [List.drop_zero, h, hk]
  have hlen : ¬ (0 + k + 1 ≥ 0 + ((pre ++ [13, 10]).length - 0)) := by
    simp only [List.length_append, List.length_cons, List.length_nil]
    omega
  simp only [hlen, if_false]
  split_ifs <;> simp

theorem tvb_length_remaining_zero (tvb : tvbuff_t) :
    tvb_length_remaining tvb 0 = (tvb.data.length : Int) := by
  simp [tvb_length_remaining, compute_offset]

theorem tvb_reported_length_remaining_zero (tvb : tvbuff_t) :
    tvb_reported_length_remaining tvb 0 = (tvb.reported_length : Int) := by
  simp [tvb_reported_length_remaining, compute_offset]

theorem ends_with_crlf_of_suffix (tvb : tvbuff_t) (pre : List Nat)
    (hrep : tvb.reported_length = tvb.data.length)
    (h : tvb.data = pre ++ [13, 10]) : ends_with_crlf tvb = true := by
  have hlen : tvb.data.length = pre.length + 2 := by simp [h]
  have hoff : compute_offset tvb (0 + (tvb.data.length : Int) - 2) = some pre.length := by
    unfold compute_offset
    have e : (0 + (tvb.data.length : Int) - 2) = (pre.length : Int) := by
      rw [hlen]; push_cast; ring
    rw [e, hrep, hlen]
    simp
  have hb : bytes "\r\n" = [13, 10] := by decide
  unfold ends_with_crlf
  simp only [tvb_length_remaining_zero, tvb_reported_length_remaining_zero, hrep]
  unfold tvb_strneql
  rw [hoff, hb, h]
  simp [strncmp]

theorem current_request_val_congr (st : SmtpState) (p q : packet_info)
    (h : same_conv p q = true) : current_request_val st p = current_request_val st q := by
  unfold current_request_val request_val_of
  rw [request_val_in_congr p q _ h]

/-- A request seen for the first time while `reading_data` is TRUE is an
end-of-message packet exactly when the end-of-message condition holds. -/
theorem eom_iff (env : Env) (tvb : tvbuff_t) (pinfo : packet_info) (st : SmtpState)
    (hreq : is_request pinfo = true)
    (hfirst : p_get_proto_data st.frame_data pinfo.fd_num = none)
    (hrd : reading_data_of st pinfo = true) :
    (frame_pdu_type (dissect_smtp env tvb pinfo st).st pinfo = some SMTP_PDU_EOM ∧
      reading_data_of (dissect_smtp env tvb pinfo st).st pinfo = false)
      ↔ begins_with_eom tvb (crlf_seen_of st pinfo) := by
  cases hline : tvb_find_line_end tvb 0 (env.smtp_desegment && pinfo.can_desegment != 0) with
  | none =>
    have hst := (dissect_smtp_no_line env tvb pinfo st hline).1
    rw [hst, frame_pdu_type_none st pinfo hfirst]
    constructor
    · rintro ⟨h, _⟩; exact absurd h (by simp)
    · intro hb
      obtain ⟨l, n, hl⟩ := line_found_of_eom tvb _
        (env.smtp_desegment && pinfo.can_desegment != 0) hb
      rw [hline] at hl
      exact absurd hl (by simp)
  | some r =>
    obtain ⟨linelen, next_offset⟩ := r
    obtain ⟨d, hd, _, hpdu, hrv⟩ :=
      dissect_request_first env tvb pinfo st linelen next_offset hline hfirst hreq
    have hcl := classify_reading tvb linelen (tvb_get_ptr tvb 0 linelen)
      (current_request_val st pinfo) hrd
    unfold reading_data_of
    rw [hpdu, hrv, hd, ← eom_condition_iff]
    unfold crlf_seen_of
    by_cases he : eom_condition tvb (current_request_val st pinfo).crlf_seen = true
    · rw [hcl, if_pos he]
      simp [he]
    · rw [hcl, if_neg he]
      simp [he, SMTP_PDU_MESSAGE, SMTP_PDU_EOM]

/-! ### Independence of conversations -/

theorem same_conv_symm (p q : packet_info) : same_conv p q = same_conv q p := by
  unfold same_conv same_conversation
  rw [Bool.eq_iff_iff]
  simp only [Bool.and_eq_true, Bool.or_eq_true, beq_iff_eq]
  constructor <;>
  · rintro ⟨h, ⟨⟨⟨h1, h2⟩, h3⟩, h4⟩ | ⟨⟨⟨h1, h2⟩, h3⟩, h4⟩⟩
    · exact ⟨h.symm, Or.inl ⟨⟨⟨h1.symm, h2.symm⟩, h3.symm⟩, h4.symm⟩⟩
    · exact ⟨h.symm, Or.inr ⟨⟨⟨h3.symm, h4.symm⟩, h1.symm⟩, h2.symm⟩⟩

theorem request_val_of_congr (st : SmtpState) (p q : packet_info)
    (h : same_conv p q = true) : request_val_of st p = request_val_of st q :=
  request_val_in_congr p q _ h

/-- A call on a packet leaves the `request_val` of every other conversation
as it was. -/
theorem dissect_smtp_other (env : Env) (tvb : tvbuff_t) (p q : packet_info) (st : SmtpState)
    (h : same_conv p q = false) :
    request_val_of (dissect_smtp env tvb p st).st q = request_val_of st q := by
  cases hline : tvb_find_line_end tvb 0 (env.smtp_desegment && p.can_desegment != 0) with
  | none => rw [(dissect_smtp_no_line env tvb p st hline).1]
  | some r =>
    obtain ⟨linelen, next_offset⟩ := r
    cases hf : p_get_proto_data st.frame_data p.fd_num with
    | some fd => rw [dissect_smtp_revisit env tvb p st fd hf]
    | none =>
      rw [(dissect_smtp_first env tvb p st linelen next_offset hline hf).1]
      exact first_pass_other tvb p q _ linelen _ st h

/-- A call on a packet attaches data to no other frame. -/
theorem dissect_smtp_other_frame (env : Env) (tvb : tvbuff_t) (p : packet_info)
    (st : SmtpState) (m : Nat) (h : m ≠ p.fd_num) :
    p_get_proto_data (dissect_smtp env tvb p st).st.frame_data m
      = p_get_proto_data st.frame_data m := by
  cases hline : tvb_find_line_end tvb 0 (env.smtp_desegment && p.can_desegment != 0) with
  | none => rw [(dissect_smtp_no_line env tvb p st hline).1]
  | some r =>
    obtain ⟨linelen, next_offset⟩ := r
    cases hf : p_get_proto_data st.frame_data p.fd_num with
    | some fd => rw [dissect_smtp_revisit env tvb p st fd hf]
    | none =>
      rw [(dissect_smtp_first env tvb p st linelen next_offset hline hf).1]
      cases hreq : is_request p with
      | true =>
        obtain ⟨d, _, _, hfd⟩ := first_pass_request tvb p linelen (tvb_get_ptr tvb 0 linelen) st
        rw [hfd, p_get_proto_data_add, if_neg (fun e => h e.symm)]
      | false =>
        rw [(first_pass_response tvb p linelen (tvb_get_ptr tvb 0 linelen) st).2]

/-- The effect of a call on the packet's own conversation depends only on
what is stored for that conversation and on whether the frame was seen
before. -/
theorem dissect_smtp_congr (env : Env) (tvb : tvbuff_t) (p k : packet_info)
    (st1 st2 : SmtpState) (hk : same_conv k p = true)
    (hrv : request_val_of st1 k = request_val_of st2 k)
    (hfd : (p_get_proto_data st1.frame_data p.fd_num).isSome
      = (p_get_proto_data st2.frame_data p.fd_num).isSome) :
    request_val_of (dissect_smtp env tvb p st1).st k
      = request_val_of (dissect_smtp env tvb p st2).st k ∧
    ∀ m : Nat,
      (p_get_proto_data st1.frame_data m).isSome
        = (p_get_proto_data st2.frame_data m).isSome →
      (p_get_proto_data (dissect_smtp env tvb p st1).st.frame_data m).isSome
        = (p_get_proto_data (dissect_smtp env tvb p st2).st.frame_data m).isSome := by
  cases hline : tvb_find_line_end tvb 0 (env.smtp_desegment && p.can_desegment != 0) with
  | none =>
    rw [(dissect_smtp_no_line env tvb p st1 hline).1, (dissect_smtp_no_line env tvb p st2 hline).1]
    exact ⟨hrv, fun _ h => h⟩
  | some r =>
    obtain ⟨linelen, next_offset⟩ := r
    cases hf1 : p_get_proto_data st1.frame_data p.fd_num with
    | some fd1 =>
      cases hf2 : p_get_proto_data st2.frame_data p.fd_num with
      | none => rw [hf1, hf2] at hfd; exact absurd hfd (by simp)
      | some fd2 =>
        rw [dissect_smtp_revisit env tvb p st1 fd1 hf1, dissect_smtp_revisit env tvb p st2 fd2 hf2]
        exact ⟨hrv, fun _ h => h⟩
    | none =>
      cases hf2 : p_get_proto_data st2.frame_data p.fd_num with
      | some fd2 => rw [hf1, hf2] at hfd; exact absurd hfd (by simp)
      | none =>
        rw [(dissect_smtp_first env tvb p st1 linelen next_offset hline hf1).1,
          (dissect_smtp_first env tvb p st2 linelen next_offset hline hf2).1]
        constructor
        · rw [request_val_of_congr _ k p hk, request_val_of_congr _ k p hk,
            first_pass_same, first_pass_same,
            ← request_val_of_congr st1 k p hk, ← request_val_of_congr st2 k p hk, hrv]
        · intro m hm
          cases hreq : is_request p with
          | true =>
            obtain ⟨d1, _, _, hfd1⟩ :=
              first_pass_request tvb p linelen (tvb_get_ptr tvb 0 linelen) st1
            obtain ⟨d2, _, _, hfd2⟩ :=
              first_pass_request tvb p linelen (tvb_get_ptr tvb 0 linelen) st2
            rw [hfd1, hfd2, p_get_proto_data_add, p_get_proto_data_add]
            by_cases e : p.fd_num = m
            · simp [e]
            · simp [e, hm]
          | false =>
            rw [(first_pass_response tvb p linelen (tvb_get_ptr tvb 0 linelen) st1).2,
              (first_pass_response tvb p linelen (tvb_get_ptr tvb 0 linelen) st2).2]
            exact hm

theorem dissect_all_cons (env : Env) (seg : Segment) (rest : List Segment) (st : SmtpState) :
    dissect_all env (seg :: rest) st
      = dissect_all env rest (dissect_smtp env seg.tvb seg.pinfo st).st := rfl

/-- Running an interleaved list and running only the segments of one
conversation lead to the same `request_val` for that conversation. -/
theorem dissect_all_project (env : Env) (k : packet_info) :
    ∀ (segs : List Segment) (st1 st2 : SmtpState),
      (∀ a ∈ segs, ∀ b ∈ segs, a.pinfo.fd_num = b.pinfo.fd_num →
        same_conv k a.pinfo = same_conv k b.pinfo) →
      request_val_of st1 k = request_val_of st2 k →
      (∀ a ∈ segs, same_conv k a.pinfo = true →
        (p_get_proto_data st1.frame_data a.pinfo.fd_num).isSome
          = (p_get_proto_data st2.frame_data a.pinfo.fd_num).isSome) →
      request_val_of (dissect_all env segs st1) k
        = request_val_of
            (dissect_all env (segs.filter (fun s => same_conv k s.pinfo)) st2) k := by
  intro segs
  induction segs with
  | nil => intro st1 st2 _ hrv _; exact hrv
  | cons s rest ih =>
    intro st1 st2 hfr hrv hfd
    have hfr' : ∀ a ∈ rest, ∀ b ∈ rest, a.pinfo.fd_num = b.pinfo.fd_num →
        same_conv k a.pinfo = same_conv k b.pinfo :=
      fun a ha b hb => hfr a (List.mem_cons_of_mem _ ha) b (List.mem_cons_of_mem _ hb)
    cases hs : same_conv k s.pinfo with
    | true =>
      have hc := dissect_smtp_congr env s.tvb s.pinfo k st1 st2 hs hrv
        (hfd s (List.mem_cons_self _ _) hs)
      rw [List.filter_cons_of_pos (by simpa using hs), dissect_all_cons, dissect_all_cons]
      apply ih _ _ hfr' hc.1
      intro a ha hka
      exact hc.2 _ (hfd a (List.mem_cons_of_mem _ ha) hka)
    | false =>
      rw [List.filter_cons_of_neg (by simpa using hs), dissect_all_cons]
      apply ih _ _ hfr'
      · rw [dissect_smtp_other env s.tvb s.pinfo k st1 (by rw [same_conv_symm]; exact hs)]
        exact hrv
      · intro a ha hka
        have hne : a.pinfo.fd_num ≠ s.pinfo.fd_num := by
          intro e
          have := hfr a (List.mem_cons_of_mem _ ha) s (List.mem_cons_self _ _) e
          rw [hka, hs] at this
          exact absurd this (by decide)
        rw [dissect_smtp_other_frame env s.tvb s.pinfo st1 _ hne]
        exact hfd a (List.mem_cons_of_mem _ ha) hka

/-! ### The loops over the lines of a segment -/

theorem find_cr_or_lf_lt : ∀ (l : List Nat) (k : Nat), find_cr_or_lf l = some k → k < l.length := by
  intro l
  induction l with
  | nil => intro k h; simp [find_cr_or_lf] at h
  | cons c rest ih =>
    intro k h
    by_cases hc : c = 13 ∨ c = 10
    · simp [find_cr_or_lf, hc] at h
      subst h; simp
    · cases hr : find_cr_or_lf rest with
      | none => simp [find_cr_or_lf, hc, hr] at h
      | some j =>
        simp [find_cr_or_lf, hc, hr] at h
        subst h
        have := ih j hr
        simp; omega

theorem tvb_offset_exists_lt (tvb : tvbuff_t) (offset : Nat)
    (h : tvb_offset_exists tvb offset = true) : offset < tvb.data.length := by
  unfold tvb_offset_exists compute_offset at h
  simp only [Int.natCast_nonneg, if_true, Int.toNat_ofNat] at h
  split_ifs at h
  simpa using h

/-- Without `desegment` a line found at an offset inside the buffer ends
after that offset and inside the buffer, so each round of the loops makes
progress. -/
theorem tvb_find_line_end_advances (tvb : tvbuff_t) (offset linelen next_offset : Nat)
    (hoff : offset < tvb.data.length)
    (h : tvb_find_line_end tvb offset false = some (linelen, next_offset)) :
    offset < next_offset ∧ next_offset ≤ tvb.data.length := by
  unfold tvb_find_line_end at h
  cases hk : find_cr_or_lf (List.drop offset tvb.data) with
  | none =>
    rw [hk] at h
    simp only [Bool.false_eq_true, if_false, Option.some.injEq, Prod.mk.injEq] at h
    omega
  | some k =>
    rw [hk] at h
    have hlt := find_cr_or_lf_lt _ k hk
    simp only [List.length_drop] at hlt
    simp only [Bool.false_eq_true, if_false] at h
    split_ifs at h <;>
      (simp only [Option.some.injEq, Prod.mk.injEq] at h; omega)

/-- The result of `dissect_smtp_data` does not depend on the fuel once there
is more fuel than bytes left: the fuel handed over by `dissect_smtp` never
runs out. -/
theorem dissect_smtp_data_fuel (tvb : tvbuff_t) :
    ∀ (fuel1 fuel2 offset : Nat),
      tvb.data.length - offset < fuel1 → tvb.data.length - offset < fuel2 →
      dissect_smtp_data tvb fuel1 offset = dissect_smtp_data tvb fuel2 offset := by
  intro fuel1
  induction fuel1 with
  | zero => intro fuel2 offset h1; omega
  | succ n ih =>
    intro fuel2 offset h1 h2
    cases fuel2 with
    | zero => omega
    | succ m =>
      unfold dissect_smtp_data
      cases he : tvb_offset_exists tvb offset with
      | false => simp
      | true =>
        have hoff := tvb_offset_exists_lt tvb offset he
        cases hl : tvb_find_line_end tvb offset false with
        | none => simp
        | some r =>
          obtain ⟨linelen, next_offset⟩ := r
          have hadv := tvb_find_line_end_advances tvb offset linelen next_offset hoff hl
          simp only [if_true]
          rw [ih m next_offset (by omega) (by omega)]

/-- The result of the response loop does not depend on the fuel once there is
more fuel than bytes left. -/
theorem dissect_response_fuel (tvb : tvbuff_t) :
    ∀ (fuel1 fuel2 offset : Nat),
      tvb.data.length - offset < fuel1 → tvb.data.length - offset < fuel2 →
      dissect_response tvb fuel1 offset = dissect_response tvb fuel2 offset := by
  intro fuel1
  induction fuel1 with
  | zero => intro fuel2 offset h1; omega
  | succ n ih =>
    intro fuel2 offset h1 h2
    cases fuel2 with
    | zero => omega
    | succ m =>
      unfold dissect_response
      cases he : tvb_offset_exists tvb offset with
      | false => simp
      | true =>
        have hoff := tvb_offset_exists_lt tvb offset he
        cases hl : tvb_find_line_end tvb offset false with
        | none => simp
        | some r =>
          obtain ⟨linelen, next_offset⟩ := r
          have hadv := tvb_find_line_end_advances tvb offset linelen next_offset hoff hl
          simp only [if_true]
          rw [ih m next_offset (by omega) (by omega)]

/-- The test that sets `crlf_seen` holds exactly for a fully captured buffer
whose last two bytes are CR LF. -/
theorem ends_with_crlf_iff (tvb : tvbuff_t) :
    ends_with_crlf tvb = true
      ↔ (tvb.reported_length = tvb.data.length ∧ bytes "\r\n" <:+ tvb.data) := by
  have hb : bytes "\r\n" = [13, 10] := by decide
  constructor
  · intro h
    unfold ends_with_crlf at h
    simp only [tvb_length_remaining_zero, tvb_reported_length_remaining_zero,
      Bool.and_eq_true, beq_iff_eq] at h
    obtain ⟨hrep, hs⟩ := h
    have hrep' : tvb.reported_length = tvb.data.length := by omega
    refine ⟨hrep', ?_⟩
    unfold tvb_strneql compute_offset at hs
    by_cases h2 : 2 ≤ tvb.data.length
    · have hpos : (0 : Int) ≤ 0 + (tvb.data.length : Int) - 2 := by omega
      have hto : (0 + (tvb.data.length : Int) - 2).toNat = tvb.data.length - 2 := by omega
      simp only [hpos, if_true, hto, hrep'] at hs
      have hn : ¬ (tvb.data.length - 2 > tvb.data.length) := by omega
      simp only [hn, if_false] at hs
      have hle : tvb.data.length - 2 + 2 ≤ tvb.data.length := by omega
      simp only [hle, if_true] at hs
      have hlen : (List.take 2 (List.drop (tvb.data.length - 2) tvb.data)).length
          = (bytes "\r\n").length := by
        rw [hb]; simp; omega
      have hz : strncmp (List.take 2 (List.drop (tvb.data.length - 2) tvb.data))
          (bytes "\r\n") (bytes "\r\n").length = 0 := by
        have l2 : (bytes "\r\n").length = 2 := by decide
        rw [l2]
        by_contra hne
        simp [hne] at hs
      have heq := (strncmp_eq_zero (bytes "\r\n") (by decide) _ hlen).mp hz
      have htk : List.take 2 (List.drop (tvb.data.length - 2) tvb.data)
          = List.drop (tvb.data.length - 2) tvb.data := by
        apply List.take_of_length_le
        simp only [List.length_drop]
        omega
      rw [htk] at heq
      exact ⟨List.take (tvb.data.length - 2) tvb.data, by rw [← heq, List.take_append_drop]⟩
    · exfalso
      have hneg : ¬ ((0 : Int) ≤ 0 + (tvb.data.length : Int) - 2) := by omega
      have hto : (-(0 + (tvb.data.length : Int) - 2)).toNat = 2 - tvb.data.length := by omega
      simp only [hneg, if_false, hto, hrep'] at hs
      split_ifs at hs with c1
      · simp at hs
      · have hgt : ¬ (tvb.data.length - (2 - tvb.data.length) + 2 ≤ tvb.data.length) := by omega
        simp [hgt] at hs
  · rintro ⟨hrep, pre, hpre⟩
    rw [hb] at hpre
    exact ends_with_crlf_of_suffix tvb pre hrep hpre.symm

/-! ### The claims about `dissect_smtp` -/

/-- C4: the code at the scenario of the claim. After the client segment
"DATA" CR LF the conversation is reading message data; the client segment
"Hello" CR LF "." CR LF is then classified `SMTP_PDU_MESSAGE`, handed to the
reassembly as a whole, and `reading_data` is still TRUE after it: the end of
message inside the segment is not seen. -/
theorem data_then_hello_dot_stays_in_body :
    reading_data_of
      (dissect_smtp env_default (tvb_of "DATA\r\n") (client_frame 1) empty_state).st
      (client_frame 1) = true ∧
    frame_pdu_type
      (dissect_smtp env_default (tvb_of "Hello\r\n.\r\n") (client_frame 2)
        (dissect_smtp env_default (tvb_of "DATA\r\n") (client_frame 1) empty_state).st).st
      (client_frame 2) = some SMTP_PDU_MESSAGE ∧
    reading_data_of
      (dissect_smtp env_default (tvb_of "Hello\r\n.\r\n") (client_frame 2)
        (dissect_smtp env_default (tvb_of "DATA\r\n") (client_frame 1) empty_state).st).st
      (client_frame 2) = true ∧
    (dissect_smtp env_default (tvb_of "Hello\r\n.\r\n") (client_frame 2)
        (dissect_smtp env_default (tvb_of "DATA\r\n") (client_frame 1)
          empty_state).st).display.calls
      = [ReassemblyCall.fragment_add_seq_next 0 (bytes "Hello\r\n.\r\n")] ∧
    reading_data_of
      (dissect_smtp env_no_desegment (tvb_of "Hello\r\n.\r\n") (client_frame 2)
        (dissect_smtp env_no_desegment (tvb_of "DATA\r\n") (client_frame 1)
          empty_state).st).st
      (client_frame 2) = true := by
  decide

/-- C5: the code at a body text where cutting matters. Starting in
ReadingBody, the uncut bytes "Hello" CR LF "." CR LF leave `reading_data`
TRUE with no end of message, while the same bytes cut after "Hello" CR LF
end with `reading_data` FALSE and the second segment classified
`SMTP_PDU_EOM`. For the empty body the uncut bytes CR LF "." CR LF are an end
of message, while cut between the CR and the LF they are not. -/
theorem cutting_changes_the_outcome :
    reading_data_of
      (dissect_all env_default [⟨tvb_of "Hello\r\n.\r\n", client_frame 2⟩]
        reading_body_state) (client_frame 2) = true ∧
    reading_data_of
      (dissect_all env_default
        [⟨tvb_of "Hello\r\n", client_frame 2⟩, ⟨tvb_of ".\r\n", client_frame 3⟩]
        reading_body_state) (client_frame 2) = false ∧
    frame_pdu_type
      (dissect_all env_default
        [⟨tvb_of "Hello\r\n", client_frame 2⟩, ⟨tvb_of ".\r\n", client_frame 3⟩]
        reading_body_state) (client_frame 3) = some SMTP_PDU_EOM ∧
    reading_data_of
      (dissect_all env_no_desegment [⟨tvb_of "\r\n.\r\n", client_frame 2⟩]
        reading_body_state) (client_frame 2) = false ∧
    reading_data_of
      (dissect_all env_no_desegment
        [⟨tvb_of "\r", client_frame 2⟩, ⟨tvb_of "\n.\r\n", client_frame 3⟩]
        reading_body_state) (client_frame 2) = true ∧
    reading_data_of
      (dissect_all env_default
        [⟨tvb_of "\r", client_frame 2⟩, ⟨tvb_of "\n.\r\n", client_frame 3⟩]
        reading_body_state) (client_frame 2) = true := by
  decide

/-- C6: a client segment processed for the first time while `reading_data` is
TRUE is classified `SMTP_PDU_EOM`, with `reading_data` becoming FALSE, if and
only if it begins with CR LF "." CR LF, or begins with "." CR LF while
`crlf_seen` is set. In particular, when the segment is fully captured message
data ending in CR LF, a next client segment of the conversation that begins
with "." CR LF is classified `SMTP_PDU_EOM` and ends the message. -/
theorem eom_recognised_iff (env : Env) (tvb : tvbuff_t) (pinfo : packet_info)
    (st : SmtpState)
    (hreq : is_request pinfo = true)
    (hfirst : p_get_proto_data st.frame_data pinfo.fd_num = none)
    (hrd : reading_data_of st pinfo = true) :
    ((frame_pdu_type (dissect_smtp env tvb pinfo st).st pinfo = some SMTP_PDU_EOM ∧
        reading_data_of (dissect_smtp env tvb pinfo st).st pinfo = false)
      ↔ begins_with_eom tvb (crlf_seen_of st pinfo)) ∧
    (∀ (tvb2 : tvbuff_t) (p2 : packet_info) (body : List Nat),
      tvb.reported_length = tvb.data.length →
      tvb.data = body ++ bytes "\r\n" →
      ¬ begins_with_eom tvb (crlf_seen_of st pinfo) →
      is_request p2 = true →
      same_conv pinfo p2 = true →
      p2.fd_num ≠ pinfo.fd_num →
      p_get_proto_data st.frame_data p2.fd_num = none →
      bytes ".\r\n" <+: tvb2.data →
      frame_pdu_type
          (dissect_smtp env tvb2 p2 (dissect_smtp env tvb pinfo st).st).st p2
        = some SMTP_PDU_EOM ∧
      reading_data_of
          (dissect_smtp env tvb2 p2 (dissect_smtp env tvb pinfo st).st).st p2 = false) := by
  refine ⟨eom_iff env tvb pinfo st hreq hfirst hrd, ?_⟩
  intro tvb2 p2 body hrep hsuf hne hreq2 hsame hfd hfirst2 hdot
  have hb : bytes "\r\n" = [13, 10] := by decide
  rw [hb] at hsuf
  -- the first segment is message data and leaves crlf_seen set
  cases hline : tvb_find_line_end tvb 0 (env.smtp_desegment && pinfo.can_desegment != 0) with
  | none => exact absurd hline (line_found_of_crlf_suffix tvb body _ hsuf)
  | some r =>
    obtain ⟨linelen, next_offset⟩ := r
    obtain ⟨d, _, hfdata, _, hrv⟩ :=
      dissect_request_first env tvb pinfo st linelen next_offset hline hfirst hreq
    have hcl := classify_reading tvb linelen (tvb_get_ptr tvb 0 linelen)
      (current_request_val st pinfo) hrd
    have he : ¬ eom_condition tvb (current_request_val st pinfo).crlf_seen = true :=
      fun h => hne ((eom_condition_iff _ _).mp h)
    rw [hcl, if_neg he, ends_with_crlf_of_suffix tvb body hrep hsuf] at hrv
    have hrv2 : current_request_val (dissect_smtp env tvb pinfo st).st p2
        = { reading_data := true, crlf_seen := 1,
            data_seen := (current_request_val st pinfo).data_seen } := by
      rw [← current_request_val_congr _ pinfo p2 hsame, hrv]; simp
    have hfirst2' : p_get_proto_data (dissect_smtp env tvb pinfo st).st.frame_data p2.fd_num
        = none := by
      rw [hfdata, p_get_proto_data_add, if_neg (fun h => hfd h.symm)]
      exact hfirst2
    have hrd2 : reading_data_of (dissect_smtp env tvb pinfo st).st p2 = true := by
      unfold reading_data_of; rw [hrv2]
    have hcr : crlf_seen_of (dissect_smtp env tvb pinfo st).st p2 = 1 := by
      unfold crlf_seen_of; rw [hrv2]
    apply (eom_iff env tvb2 p2 _ hreq2 hfirst2' hrd2).mpr
    rw [hcr]
    exact Or.inr ⟨hdot, by decide⟩

theorem eom_recognised_iff_witness :
    is_request (client_frame 2) = true ∧
    reading_data_of reading_body_state (client_frame 2) = true ∧
    ¬ begins_with_eom (tvb_of "Hello\r\n") (crlf_seen_of reading_body_state (client_frame 2)) ∧
    frame_pdu_type
        (dissect_smtp env_default (tvb_of ".\r\n") (client_frame 3)
          (dissect_smtp env_default (tvb_of "Hello\r\n") (client_frame 2)
            reading_body_state).st).st (client_frame 3)
      = some SMTP_PDU_EOM ∧
    reading_data_of
        (dissect_smtp env_default (tvb_of ".\r\n") (client_frame 3)
          (dissect_smtp env_default (tvb_of "Hello\r\n") (client_frame 2)
            reading_body_state).st).st (client_frame 3) = false :=
  have h := eom_recognised_iff env_default (tvb_of "Hello\r\n") (client_frame 2)
    reading_body_state (by decide) (by decide) (by decide)
  have hn : ¬ begins_with_eom (tvb_of "Hello\r\n")
      (crlf_seen_of reading_body_state (client_frame 2)) :=
    fun hb => absurd (h.1.mpr hb).2 (by decide)
  have h2 := h.2 (tvb_of ".\r\n") (client_frame 3) (bytes "Hello") (by decide) (by decide)
    hn (by decide) (by decide) (by decide) (by decide) ⟨[], by decide⟩
  ⟨by decide, by decide, hn, h2.1, h2.2⟩

/-- C7: a client segment processed for the first time while `reading_data` is
FALSE sets `reading_data` and `data_seen` if its first line has at least four
characters, the first four being "DATA" in either case, and is four
characters long or has a space as fifth character; with any other first
line, or when no line is found, `reading_data` stays FALSE. -/
theorem data_command_starts_body (env : Env) (tvb : tvbuff_t) (pinfo : packet_info)
    (st : SmtpState)
    (hreq : is_request pinfo = true)
    (hfirst : p_get_proto_data st.frame_data pinfo.fd_num = none)
    (hrd : reading_data_of st pinfo = false) :
    (first_line_is_DATA env tvb pinfo →
      reading_data_of (dissect_smtp env tvb pinfo st).st pinfo = true ∧
      data_seen_of (dissect_smtp env tvb pinfo st).st pinfo = 1) ∧
    (¬ first_line_is_DATA env tvb pinfo →
      reading_data_of (dissect_smtp env tvb pinfo st).st pinfo = false) := by
  cases hline : tvb_find_line_end tvb 0 (env.smtp_desegment && pinfo.can_desegment != 0) with
  | none =>
    have hst := (dissect_smtp_no_line env tvb pinfo st hline).1
    rw [hst]
    constructor
    · rintro ⟨l, n, hl, _⟩
      rw [hline] at hl
      exact absurd hl (by simp)
    · intro _; exact hrd
  | some r =>
    obtain ⟨linelen, next_offset⟩ := r
    obtain ⟨d, _, _, _, hrv⟩ :=
      dissect_request_first env tvb pinfo st linelen next_offset hline hfirst hreq
    rw [check_eom_not_reading tvb _ hrd] at hrv
    have hcl := classify_not_reading linelen (tvb_get_ptr tvb 0 linelen)
      (current_request_val st pinfo) hrd
    have hiff : first_line_is_DATA env tvb pinfo ↔
        (4 ≤ linelen ∧ is_DATA_ignoring_case (tvb_get_ptr tvb 0 linelen) ∧
          (linelen = 4 ∨ (tvb_get_ptr tvb 0 linelen).getD 4 0 = 32)) := by
      unfold first_line_is_DATA
      rw [hline]
      constructor
      · rintro ⟨l, n, hl, h⟩
        simp only [Option.some.injEq, Prod.mk.injEq] at hl
        obtain ⟨rfl, rfl⟩ := hl
        exact h
      · intro h; exact ⟨linelen, next_offset, rfl, h⟩
    unfold reading_data_of data_seen_of
    rw [hrv, hiff]
    constructor
    · intro h; rw [hcl.1 h]; exact ⟨rfl, rfl⟩
    · intro h; rw [hcl.2 h]; exact hrd

theorem data_command_starts_body_witness :
    is_request (client_frame 1) = true ∧
    reading_data_of empty_state (client_frame 1) = false ∧
    first_line_is_DATA env_default (tvb_of "data\r\n") (client_frame 1) ∧
    reading_data_of
      (dissect_smtp env_default (tvb_of "data\r\n") (client_frame 1) empty_state).st
      (client_frame 1) = true ∧
    ¬ first_line_is_DATA env_default (tvb_of "DATAX\r\n") (client_frame 1) ∧
    reading_data_of
      (dissect_smtp env_default (tvb_of "DATAX\r\n") (client_frame 1) empty_state).st
      (client_frame 1) = false :=
  have h := data_command_starts_body env_default (tvb_of "data\r\n") (client_frame 1)
    empty_state (by decide) (by decide) (by decide)
  have hD : first_line_is_DATA env_default (tvb_of "data\r\n") (client_frame 1) :=
    ⟨4, 6, by decide, by decide, by decide, Or.inl rfl⟩
  have hX : ¬ first_line_is_DATA env_default (tvb_of "DATAX\r\n") (client_frame 1) := by
    rintro ⟨l, n, hl, _, _, h5⟩
    have hl' : tvb_find_line_end (tvb_of "DATAX\r\n") 0
        (env_default.smtp_desegment && (client_frame 1).can_desegment != 0)
        = some (5, 7) := by decide
    rw [hl'] at hl
    simp only [Option.some.injEq, Prod.mk.injEq] at hl
    obtain ⟨rfl, rfl⟩ := hl
    revert h5
    decide
  ⟨by decide, by decide, hD, (h.1 hD).1, hX, by decide⟩

/-- C8 as stated fails for a segment without a complete line while line
desegmentation is in effect: in a conversation that is reading message data,
the client segment "abc", processed for the first time, has no line end;
`dissect_smtp` asks for more data and the frame is classified neither
`SMTP_PDU_MESSAGE` nor `SMTP_PDU_EOM`: no per-frame data are attached. With
line desegmentation off the same segment is classified `SMTP_PDU_MESSAGE`. -/
theorem segment_without_line_not_classified :
    is_request (client_frame 2) = true ∧
    p_get_proto_data reading_body_state.frame_data (client_frame 2).fd_num = none ∧
    reading_data_of reading_body_state (client_frame 2) = true ∧
    frame_pdu_type
      (dissect_smtp env_default (tvb_of "abc") (client_frame 2) reading_body_state).st
      (client_frame 2) = none ∧
    (dissect_smtp env_default (tvb_of "abc") (client_frame 2) reading_body_state).frame_data
      = none ∧
    reading_data_of
      (dissect_smtp env_default (tvb_of "abc") (client_frame 2) reading_body_state).st
      (client_frame 2) = true ∧
    frame_pdu_type
      (dissect_smtp env_no_desegment (tvb_of "abc") (client_frame 2) reading_body_state).st
      (client_frame 2) = some SMTP_PDU_MESSAGE := by
  decide

/-- C8, amended: a client segment processed for the first time while
`reading_data` is TRUE is never classified `SMTP_PDU_CMD`; when its first
line is found it is classified `SMTP_PDU_MESSAGE` or `SMTP_PDU_EOM`, whatever
that line is; when no line is found, which happens only with line
desegmentation in effect, it is not classified at all; and in both cases
`reading_data` stays TRUE unless the end-of-message condition holds. -/
theorem reading_data_never_command (env : Env) (tvb : tvbuff_t) (pinfo : packet_info)
    (st : SmtpState)
    (hreq : is_request pinfo = true)
    (hfirst : p_get_proto_data st.frame_data pinfo.fd_num = none)
    (hrd : reading_data_of st pinfo = true) :
    frame_pdu_type (dissect_smtp env tvb pinfo st).st pinfo ≠ some SMTP_PDU_CMD ∧
    (tvb_find_line_end tvb 0 (env.smtp_desegment && pinfo.can_desegment != 0) ≠ none →
      (frame_pdu_type (dissect_smtp env tvb pinfo st).st pinfo = some SMTP_PDU_MESSAGE ∨
       frame_pdu_type (dissect_smtp env tvb pinfo st).st pinfo = some SMTP_PDU_EOM)) ∧
    (tvb_find_line_end tvb 0 (env.smtp_desegment && pinfo.can_desegment != 0) = none →
      (env.smtp_desegment = true ∧ pinfo.can_desegment ≠ 0) ∧
      frame_pdu_type (dissect_smtp env tvb pinfo st).st pinfo = none ∧
      reading_data_of (dissect_smtp env tvb pinfo st).st pinfo = true) ∧
    (¬ begins_with_eom tvb (crlf_seen_of st pinfo) →
      reading_data_of (dissect_smtp env tvb pinfo st).st pinfo = true) := by
  cases hline : tvb_find_line_end tvb 0 (env.smtp_desegment && pinfo.can_desegment != 0) with
  | none =>
    have hst := (dissect_smtp_no_line env tvb pinfo st hline).1
    have hd : (env.smtp_desegment && pinfo.can_desegment != 0) = true := by
      by_contra hne
      simp only [Bool.not_eq_true] at hne
      rw [hne] at hline
      exact tvb_find_line_end_no_desegment tvb 0 hline
    rw [hst, frame_pdu_type_none st pinfo hfirst]
    exact ⟨by simp, fun h => absurd rfl h, fun _ => ⟨by simpa using hd, rfl, hrd⟩, fun _ => hrd⟩
  | some r =>
    obtain ⟨linelen, next_offset⟩ := r
    obtain ⟨d, hd, _, hpdu, hrv⟩ :=
      dissect_request_first env tvb pinfo st linelen next_offset hline hfirst hreq
    have hcl := classify_reading tvb linelen (tvb_get_ptr tvb 0 linelen)
      (current_request_val st pinfo) hrd
    unfold reading_data_of
    rw [hpdu, hrv, hd]
    by_cases he : eom_condition tvb (current_request_val st pinfo).crlf_seen = true
    · have hb : begins_with_eom tvb (crlf_seen_of st pinfo) := (eom_condition_iff _ _).mp he
      rw [hcl, if_pos he]
      exact ⟨by simp [SMTP_PDU_EOM, SMTP_PDU_CMD], fun _ => Or.inr rfl,
        fun h => absurd h (by simp), fun hn => absurd hb hn⟩
    · rw [hcl, if_neg he]
      exact ⟨by simp [SMTP_PDU_MESSAGE, SMTP_PDU_CMD], fun _ => Or.inl rfl,
        fun h => absurd h (by simp), fun _ => rfl⟩

theorem reading_data_never_command_witness :
    is_request (client_frame 2) = true ∧
    reading_data_of reading_body_state (client_frame 2) = true ∧
    frame_pdu_type
      (dissect_smtp env_default (tvb_of "DATA\r\n") (client_frame 2) reading_body_state).st
      (client_frame 2) = some SMTP_PDU_MESSAGE ∧
    reading_data_of
      (dissect_smtp env_default (tvb_of "DATA\r\n") (client_frame 2) reading_body_state).st
      (client_frame 2) = true ∧
    frame_pdu_type
      (dissect_smtp env_default (tvb_of "DATA") (client_frame 2) reading_body_state).st
      (client_frame 2) = none :=
  have h := reading_data_never_command env_default (tvb_of "DATA\r\n") (client_frame 2)
    reading_body_state (by decide) (by decide) (by decide)
  have k := reading_data_never_command env_default (tvb_of "DATA") (client_frame 2)
    reading_body_state (by decide) (by decide) (by decide)
  ⟨by decide, by decide,
   (h.2.1 (by decide)).resolve_right (by decide),
   h.2.2.2 (by decide),
   (k.2.2.1 (by decide)).2.1⟩

/-- C9: when `tvb_find_line_end` returns -1 (no line ending found, which only
happens with desegmentation in effect), `dissect_smtp` sets
`desegment_offset` to 0 and `desegment_len` to 1 and changes nothing else:
the conversation table and the per-frame data are as before, and no tree
item, column text or reassembly call is produced. -/
theorem dissect_smtp_needs_more_data (env : Env) (tvb : tvbuff_t) (pinfo : packet_info)
    (st : SmtpState)
    (h : tvb_find_line_end tvb 0 (env.smtp_desegment && pinfo.can_desegment != 0) = none) :
    (env.smtp_desegment = true ∧ pinfo.can_desegment ≠ 0) ∧
    (dissect_smtp env tvb pinfo st).pinfo
      = { pinfo with desegment_offset := 0, desegment_len := 1 } ∧
    (dissect_smtp env tvb pinfo st).st = st ∧
    (∀ q : packet_info,
      request_val_of (dissect_smtp env tvb pinfo st).st q = request_val_of st q) ∧
    p_get_proto_data (dissect_smtp env tvb pinfo st).st.frame_data pinfo.fd_num
      = p_get_proto_data st.frame_data pinfo.fd_num ∧
    (dissect_smtp env tvb pinfo st).display.tree_items = [] ∧
    (dissect_smtp env tvb pinfo st).display.calls = [] ∧
    (dissect_smtp env tvb pinfo st).display.col_protocol = none ∧
    (dissect_smtp env tvb pinfo st).display.col_info = none := by
  have hd : (env.smtp_desegment && pinfo.can_desegment != 0) = true := by
    by_contra hne
    simp only [Bool.not_eq_true] at hne
    rw [hne] at h
    exact tvb_find_line_end_no_desegment tvb 0 h
  have hst : (dissect_smtp env tvb pinfo st).st = st := by simp [dissect_smtp, h]
  refine ⟨by simpa using hd, ?_, hst, ?_, ?_, ?_, ?_, ?_, ?_⟩
  · simp [dissect_smtp, h]
  · intro q; rw [hst]
  · rw [hst]
  · simp [dissect_smtp, h]
  · simp [dissect_smtp, h]
  · simp [dissect_smtp, h]
  · simp [dissect_smtp, h]

theorem dissect_smtp_needs_more_data_witness :
    tvb_find_line_end (tvb_of "HELO mail") 0
      (env_default.smtp_desegment && (client_frame 1).can_desegment != 0) = none ∧
    (dissect_smtp env_default (tvb_of "HELO mail") (client_frame 1) empty_state).pinfo.desegment_len
      = 1 ∧
    (dissect_smtp env_default (tvb_of "HELO mail") (client_frame 1) empty_state).st
      = empty_state ∧
    (dissect_smtp env_no_desegment (tvb_of "HELO mail") (client_frame 1)
      empty_state).display.tree_items ≠ [] :=
  have h := dissect_smtp_needs_more_data env_default (tvb_of "HELO mail") (client_frame 1)
    empty_state (by decide)
  ⟨by decide, by rw [h.2.1], h.2.2.1, by decide⟩

/-- C10: `dissect_smtp` on a packet of another conversation leaves the
`request_val` stored for conversation `k` unchanged; hence, for a list of
segments in which a frame number is not shared between a segment of `k` and a
segment of another conversation, the `request_val` of `k` after the whole
list equals the one after the segments of `k` alone, in the same order. -/
theorem conversations_independent (env : Env) (segs : List Segment) (st : SmtpState)
    (k : packet_info)
    (hframes : ∀ a ∈ segs, ∀ b ∈ segs, a.pinfo.fd_num = b.pinfo.fd_num →
      same_conv k a.pinfo = same_conv k b.pinfo) :
    (∀ (tvb : tvbuff_t) (pinfo : packet_info) (st' : SmtpState),
      same_conv pinfo k = false →
      request_val_of (dissect_smtp env tvb pinfo st').st k = request_val_of st' k) ∧
    request_val_of (dissect_all env segs st) k
      = request_val_of
          (dissect_all env (segs.filter (fun s => same_conv k s.pinfo)) st) k :=
  ⟨fun tvb pinfo st' h => dissect_smtp_other env tvb pinfo k st' h,
   dissect_all_project env k segs st st hframes rfl (fun _ _ _ => rfl)⟩

theorem conversations_independent_witness :
    (∀ a ∈ interleaved_segments, ∀ b ∈ interleaved_segments,
      a.pinfo.fd_num = b.pinfo.fd_num →
      same_conv (client_frame 0) a.pinfo = same_conv (client_frame 0) b.pinfo) ∧
    request_val_of (dissect_all env_default interleaved_segments empty_state) (client_frame 0)
      = request_val_of
          (dissect_all env_default
            (interleaved_segments.filter (fun s => same_conv (client_frame 0) s.pinfo))
            empty_state) (client_frame 0) ∧
    request_val_of (dissect_all env_default interleaved_segments empty_state) (client_frame 0)
      = some { reading_data := false, crlf_seen := 1, data_seen := 1 } ∧
    request_val_of (dissect_all env_default interleaved_segments empty_state)
        (other_client_frame 0)
      = some { reading_data := true, crlf_seen := 0, data_seen := 1 } :=
  have h := conversations_independent env_default interleaved_segments empty_state
    (client_frame 0) (by decide)
  ⟨by decide, h.2, by decide, by decide⟩

end Smtp

namespace Wiretap

/-- C13: for a filetype other than `WTAP_FILE_PCAP`, `wtap_dump_open_common`
returns NULL, calls no per-format open routine and closes the stream once,
and when `malloc` succeeds `*err` is `WTAP_ERR_UNSUPPORTED_FILE_TYPE`; for
`WTAP_FILE_PCAP` with `libpcap_dump_open` failing it returns NULL and closes
the stream once as well. -/
theorem wtap_dump_open_common_fails (WTAP_FILE_PCAP : Int) (env : DumpEnv)
    (filetype encap snaplen : Int) (s : DumpState) :
    (filetype ≠ WTAP_FILE_PCAP →
      (wtap_dump_open_common WTAP_FILE_PCAP env filetype encap snaplen s).1 = none ∧
      (wtap_dump_open_common WTAP_FILE_PCAP env filetype encap snaplen s).2.subtype_open_calls
        = s.subtype_open_calls ∧
      (wtap_dump_open_common WTAP_FILE_PCAP env filetype encap snaplen s).2.fclose_calls
        = s.fclose_calls + 1 ∧
      (env.malloc_fails = false →
        (wtap_dump_open_common WTAP_FILE_PCAP env filetype encap snaplen s).2.err
          = some ErrCode.WTAP_ERR_UNSUPPORTED_FILE_TYPE)) ∧
    (filetype = WTAP_FILE_PCAP → env.libpcap_dump_open_ok = false →
      (wtap_dump_open_common WTAP_FILE_PCAP env filetype encap snaplen s).1 = none ∧
      (wtap_dump_open_common WTAP_FILE_PCAP env filetype encap snaplen s).2.fclose_calls
        = s.fclose_calls + 1) := by
  constructor
  · intro hft
    cases hm : env.malloc_fails <;> simp [wtap_dump_open_common, hm, hft]
  · intro hft hlp
    cases hm : env.malloc_fails <;> simp [wtap_dump_open_common, hm, hft, hlp]

theorem wtap_dump_open_common_fails_witness :
    (5 : Int) ≠ 2 ∧
    (wtap_dump_open_common 2 dump_env_ok 5 1 65535 fresh_dump_state).1 = none ∧
    (wtap_dump_open_common 2 dump_env_ok 5 1 65535 fresh_dump_state).2.fclose_calls = 1 ∧
    (wtap_dump_open_common 2 dump_env_ok 5 1 65535 fresh_dump_state).2.err
      = some ErrCode.WTAP_ERR_UNSUPPORTED_FILE_TYPE ∧
    (wtap_dump_open_common 2 dump_env_libpcap_fails 2 1 65535 fresh_dump_state).1 = none ∧
    (wtap_dump_open_common 2 dump_env_libpcap_fails 2 1 65535 fresh_dump_state).2.fclose_calls
      = 1 ∧
    (wtap_dump_open_common 2 dump_env_ok 2 1 65535 fresh_dump_state).1 ≠ none :=
  have h := wtap_dump_open_common_fails 2 dump_env_ok 5 1 65535 fresh_dump_state
  have h2 := wtap_dump_open_common_fails 2 dump_env_libpcap_fails 2 1 65535 fresh_dump_state
  ⟨by decide, (h.1 (by decide)).1, (h.1 (by decide)).2.2.1, (h.1 (by decide)).2.2.2 rfl,
   (h2.2 rfl rfl).1, (h2.2 rfl rfl).2, by decide⟩

/-- C14: on every path `wtap_dump_close` calls the per-format close routine
once, `fclose` once and `free` once, whatever these calls return and whatever
state earlier calls left. -/
theorem wtap_dump_close_releases_once (env : DumpEnv) (s : DumpState) :
    (wtap_dump_close env s).2.fclose_calls = s.fclose_calls + 1 ∧
    (wtap_dump_close env s).2.free_calls = s.free_calls + 1 ∧
    (wtap_dump_close env s).2.subtype_close_calls = s.subtype_close_calls + 1 := by
  unfold wtap_dump_close
  cases env.fclose_fails <;> simp

end Wiretap

namespace Spoolss

/-! ## Deferred pointers -/

theorem drop_eq_cons {α : Type} (l : List α) (i : Nat) (x : α) (rest : List α)
    (h : l.drop i = x :: rest) : l[i]? = some x ∧ l.drop (i + 1) = rest ∧ i < l.length := by
  have hi : i < l.length := by
    by_contra hn
    have hnil : l.drop i = [] := List.drop_eq_nil_of_le (by omega)
    rw [hnil] at h
    exact absurd h (by simp)
  rw [List.drop_eq_getElem_cons hi] at h
  simp only [List.cons.injEq] at h
  exact ⟨by rw [List.getElem?_eq_getElem hi, h.1], h.2, hi⟩

theorem dr_iterator_list (fns : ParseFns) (same_list : Bool) (dp : deferred_ptr)
    (s : ForeachState)
    (h : same_list = true → (fns dp.fn s.offset dp.tree).deferred = []) :
    (dr_iterator fns same_list dp s).list = s.list := by
  cases same_list with
  | false => simp [dr_iterator]
  | true => simp [dr_iterator, h rfl]

/-- A walk over elements whose parse functions do not append to the walked
list ends, and calls them in list order. -/
theorem g_list_foreach_in_order (mode : Foreach) (fns : ParseFns) (same_list : Bool) :
    ∀ (rest : List deferred_ptr) (fuel i : Nat) (s : ForeachState),
      s.list.drop i = rest → rest.length < fuel →
      (same_list = true → ∀ dp ∈ rest, ∀ off, (fns dp.fn off dp.tree).deferred = []) →
      ∃ s', g_list_foreach mode fns same_list fuel i s = some s' ∧
        s'.calls.map Call.key
          = s.calls.map Call.key ++ (resolve_in_order fns rest s.offset).1 ∧
        s'.calls.map (fun c => ({ fn := c.fn, tree := c.tree } : deferred_ptr))
          = s.calls.map (fun c => ({ fn := c.fn, tree := c.tree } : deferred_ptr)) ++ rest ∧
        s'.offset = (resolve_in_order fns rest s.offset).2 := by
  intro rest
  induction rest with
  | nil =>
    intro fuel i s hdrop hfuel _
    obtain ⟨f, rfl⟩ : ∃ f, fuel = f + 1 := ⟨fuel - 1, by simp at hfuel; omega⟩
    have hi : s.list.length ≤ i := List.drop_eq_nil_iff.mp hdrop
    have hget : s.list[i]? = none := List.getElem?_eq_none hi
    exact ⟨s, by simp [g_list_foreach, hget], by simp [resolve_in_order],
      by simp, by simp [resolve_in_order]⟩
  | cons dp rest ih =>
    intro fuel i s hdrop hfuel hno
    obtain ⟨f, rfl⟩ : ∃ f, fuel = f + 1 := ⟨fuel - 1, by simp at hfuel; omega⟩
    obtain ⟨hget, hrest, hi⟩ := drop_eq_cons s.list i dp rest hdrop
    have hl : (dr_iterator fns same_list dp s).list = s.list :=
      dr_iterator_list fns same_list dp s
        (fun h => hno h dp (List.mem_cons_self _ _) s.offset)
    have hno' : same_list = true → ∀ d ∈ rest, ∀ off, (fns d.fn off d.tree).deferred = [] :=
      fun h d hd => hno h d (List.mem_cons_of_mem _ hd)
    have hoff : (dr_iterator fns same_list dp s).offset = (fns dp.fn s.offset dp.tree).offset :=
      rfl
    have hcalls : (dr_iterator fns same_list dp s).calls
        = s.calls ++ [{ fn := dp.fn, tree := dp.tree, offset := s.offset, slot := s.slot }] :=
      rfl
    have hstep : ∃ s', g_list_foreach mode fns same_list (f + 1) i s = some s' ∧
        s'.calls.map Call.key
          = (dr_iterator fns same_list dp s).calls.map Call.key
            ++ (resolve_in_order fns rest (dr_iterator fns same_list dp s).offset).1 ∧
        s'.calls.map (fun c => ({ fn := c.fn, tree := c.tree } : deferred_ptr))
          = (dr_iterator fns same_list dp s).calls.map
              (fun c => ({ fn := c.fn, tree := c.tree } : deferred_ptr)) ++ rest ∧
        s'.offset = (resolve_in_order fns rest (dr_iterator fns same_list dp s).offset).2 := by
      have hrec := ih f (i + 1) (dr_iterator fns same_list dp s) (by rw [hl]; exact hrest)
        (by simp at hfuel; omega) hno'
      cases mode with
      | call_then_next =>
        simpa [g_list_foreach, hget] using hrec
      | next_then_call =>
        by_cases hlast : i + 1 < s.list.length
        · simpa [g_list_foreach, hget, hlast] using hrec
        · have hnil : rest = [] := by
            rw [← hrest]; exact List.drop_eq_nil_of_le (by omega)
          subst hnil
          exact ⟨dr_iterator fns same_list dp s, by simp [g_list_foreach, hget, hlast],
            by simp [resolve_in_order], by simp, by simp [resolve_in_order]⟩
    obtain ⟨s', h1, h2, h3, h4⟩ := hstep
    refine ⟨s', h1, ?_, ?_, ?_⟩
    · rw [h2, hcalls, hoff]
      simp [resolve_in_order, Call.key]
    · rw [h3, hcalls]
      simp
    · rw [h4, hoff]
      simp [resolve_in_order]

/-- C11: `defer_ptr` appends its entry at the tail of the list; and when the
resolvers of `*list` do not append to it (they are handed another list, or
they defer nothing), `prs_referents` ends, calls them once each in list
order, each with its own tree and the offset its predecessor returned (the
first with the offset argument), returns the offset the last one returned
(the offset argument for an empty list) and leaves `*list` empty. -/
theorem prs_referents_in_order (mode : Foreach) (fns : ParseFns) (fuel : Nat)
    (offset : Int) (same_list : Bool) (dp_list list : List deferred_ptr) (ptr_data : Bool)
    (hfuel : list.length < fuel)
    (hno : same_list = true → ∀ dp ∈ list, ∀ off, (fns dp.fn off dp.tree).deferred = []) :
    (∀ (l : List deferred_ptr) (fn tree : Nat),
      defer_ptr l fn tree = l ++ [{ fn := fn, tree := tree }]) ∧
    ∃ r, prs_referents mode fns fuel offset same_list dp_list list ptr_data = some r ∧
      r.calls.map Call.key = (resolve_in_order fns list offset).1 ∧
      r.calls.map (fun c => ({ fn := c.fn, tree := c.tree } : deferred_ptr)) = list ∧
      r.offset = (resolve_in_order fns list offset).2 ∧
      (list = [] → r.offset = offset) ∧
      r.list = [] := by
  refine ⟨fun l fn tree => rfl, ?_⟩
  obtain ⟨s', h1, h2, h3, h4⟩ := g_list_foreach_in_order mode fns same_list list fuel 0
    { list := list, dp_list := if same_list then [] else dp_list, offset := offset,
      slot := if ptr_data && decide ((if same_list then list else dp_list).length > 0)
        then some 0 else none,
      calls := [] } rfl hfuel hno
  refine ⟨{ offset := s'.offset, list := [],
            dp_list := if same_list then [] else s'.dp_list, calls := s'.calls }, ?_, ?_, ?_, ?_,
    ?_, rfl⟩
  · simp only [prs_referents, h1]
  · simpa using h2
  · simpa using h3
  · exact h4
  · intro hnil
    subst hnil
    simpa [resolve_in_order] using h4

theorem prs_referents_in_order_witness :
    ∃ r, prs_referents Foreach.next_then_call plain_fns 4 100 false []
        [⟨1, 10⟩, ⟨2, 20⟩, ⟨5, 30⟩] true = some r ∧
      r.calls.map Call.key = [(1, 10, 100), (2, 20, 108), (5, 30, 120)] ∧
      r.offset = 144 ∧ r.list = [] :=
  have h := (prs_referents_in_order Foreach.next_then_call plain_fns 4 100 false []
    [⟨1, 10⟩, ⟨2, 20⟩, ⟨5, 30⟩] true (by decide) (fun h => absurd h (by decide))).2
  h.elim fun r hr => ⟨r, hr.1, by rw [hr.2.1]; decide, by rw [hr.2.2.2.1]; decide, hr.2.2.2.2.2⟩


/-- The order of the resolver calls claimed by C12 is not the order of the
code: for a structure that defers P1 and P2 where the resolver of P1 defers
P1a, the calls are not P1, P1a, P2, under either `g_list_foreach`. -/
theorem depth_first_order_refuted :
    (prs_struct_and_referents Foreach.call_then_next nested_fns 10 0 0 0 false).map
        (fun r => r.calls.map (fun c => c.fn)) ≠ some [1, 3, 2] ∧
    (prs_struct_and_referents Foreach.next_then_call nested_fns 10 0 0 0 false).map
        (fun r => r.calls.map (fun c => c.fn)) ≠ some [1, 3, 2] := by
  decide

/-- C12, amended: for a structure parsed by `prs_struct_and_referents` whose
parse function defers P1 and then P2, and where the resolver of P1 defers P1a
through the `dp_list` it is handed, the resolvers run in the order P1, P2,
P1a: a pointer deferred by a resolver is appended behind the pointers that
are already waiting. -/
theorem struct_referents_order (mode : Foreach) (fns : ParseFns) (fuel : Nat)
    (offset : Int) (tree fn : Nat) (ptr_data : Bool) (P1 P2 P1a : deferred_ptr)
    (hfuel : 3 < fuel)
    (h0 : (fns fn offset tree).deferred = [P1, P2])
    (h1 : ∀ off, (fns P1.fn off P1.tree).deferred = [P1a])
    (h2 : ∀ off, (fns P2.fn off P2.tree).deferred = [])
    (h3 : ∀ off, (fns P1a.fn off P1a.tree).deferred = []) :
    ∃ r, prs_struct_and_referents mode fns fuel offset tree fn ptr_data = some r ∧
      r.calls.map (fun c => ({ fn := c.fn, tree := c.tree } : deferred_ptr))
        = [P1, P2, P1a] := by
  obtain ⟨f, rfl⟩ : ∃ f, fuel = f + 4 := ⟨fuel - 4, by omega⟩
  cases mode <;>
    simp [prs_struct_and_referents, prs_referents, g_list_foreach, dr_iterator, h0, h1, h2, h3]

theorem struct_referents_order_witness :
    ∃ r, prs_struct_and_referents Foreach.call_then_next nested_fns 10 0 0 0 false = some r ∧
      r.calls.map (fun c => ({ fn := c.fn, tree := c.tree } : deferred_ptr))
        = [⟨1, 1⟩, ⟨2, 1⟩, ⟨3, 2⟩] :=
  struct_referents_order Foreach.call_then_next nested_fns 10 0 0 0 false
    ⟨1, 1⟩ ⟨2, 1⟩ ⟨3, 2⟩ (by decide) (by decide)
    (fun _ => by simp [nested_fns]) (fun _ => by simp [nested_fns])
    (fun _ => by simp [nested_fns])

end Spoolss

namespace TokenRing


/-! ## Token ring: the reads of `capture_tr` -/

theorem snap_at_reads (pd : Nat → Nat) (base : Nat) :
    ∀ i ∈ (snap_at pd base).2, i ≤ base + 2 := by
  intro i hi
  unfold snap_at at hi
  split_ifs at hi <;> simp at hi <;> omega

theorem snap_or_ipx_reads (pd : Nat → Nat) (base : Nat) :
    ∀ i ∈ (snap_or_ipx pd base).2, i ≤ base + 2 := by
  intro i hi
  have h := snap_at_reads pd base i
  unfold snap_or_ipx at hi
  split_ifs at hi
  · exact h hi
  · simp only [List.mem_append] at hi
    rcases hi with hi | hi
    · exact h hi
    · simp at hi; omega
  · simp only [List.mem_append] at hi
    rcases hi with hi | hi
    · exact h hi
    · simp at hi; omega

/-- C15 as stated fails: a frame of fourteen captured bytes is read at index
14 and, being an LLC frame, at index 0x20: `capture_tr` reads past the
captured length. -/
theorem capture_tr_reads_past_end :
    ¬ (∀ i ∈ (capture_tr (frame_of short_llc_frame) 14).reads, i < 14) := by
  decide

theorem rif_le (x : Nat) : x &&& 31 ≤ 31 := Nat.and_le_right

theorem foldl_max_lt (l : List Nat) (n : Nat) :
    ∀ a, (l.foldl max a < n ↔ a < n ∧ ∀ i ∈ l, i < n) := by
  induction l with
  | nil => intro a; simp
  | cons x l ih =>
    intro a
    rw [List.foldl_cons, ih]
    simp only [List.mem_cons, forall_eq_or_imp, max_lt_iff]
    tauto

theorem foldl_max_ge (l : List Nat) : ∀ a, a ≤ l.foldl max a := by
  induction l with
  | nil => intro a; exact le_refl a
  | cons x l ih => intro a; exact le_trans (le_max_left a x) (ih (max a x))

theorem le_foldl_max (l : List Nat) : ∀ a, ∀ i ∈ l, i ≤ l.foldl max a := by
  induction l with
  | nil => intro a i hi; exact absurd hi (List.not_mem_nil i)
  | cons x l ih =>
    intro a i hi
    rcases List.mem_cons.mp hi with h | h
    · rw [h]; exact le_trans (le_max_right a x) (foldl_max_ge l _)
    · exact ih _ i h

theorem capture_tr_reads_cap_len (pd : Nat → Nat) (cap_len : Nat) :
    (capture_tr pd cap_len).reads = (capture_tr pd 0).reads := rfl

theorem capture_tr_reads_le (pd : Nat → Nat) (cap_len : Nat) :
    ∀ i ∈ (capture_tr pd cap_len).reads, i ≤ 47 := by
  intro i hi
  have hr := rif_le (byte pd 14)
  have h1 := snap_or_ipx_reads pd (0x0e + (byte pd 14 &&& 31))
  have h2 := snap_or_ipx_reads pd 0x20
  unfold capture_tr at hi
  simp only [List.mem_append] at hi
  rcases hi with (hi | hi) | hi
  · simp at hi; omega
  · split_ifs at hi
    all_goals first
      | (have hlt := h1 i hi; omega)
      | (exact absurd hi (List.not_mem_nil i))
  · split_ifs at hi
    all_goals first
      | (have hlt := h2 i hi; omega)
      | (exact absurd hi (List.not_mem_nil i))

theorem capture_tr_reads_header (pd : Nat → Nat) (cap_len : Nat) :
    ∀ i ∈ [1, 8, 9, 10, 11, 12, 13, 14], i ∈ (capture_tr pd cap_len).reads := by
  intro i hi
  unfold capture_tr
  simp only [List.mem_append]
  refine Or.inl (Or.inl ?_)
  simp only [List.mem_cons, List.mem_singleton, List.not_mem_nil, or_false] at hi ⊢
  omega

/-- C15, amended: the indices `capture_tr` reads do not depend on `cap_len`;
it reads `pd[1]`, `pd[8]` to `pd[13]` and `pd[14]` whatever `cap_len` is, and
no index above 47 (0x10 + 31). So it reads only indices below `cap_len`
exactly when `cap_len` is greater than the largest index it reads, which lies
between 14 and 47: for every frame when `cap_len` is at least 48, for no
frame when `cap_len` is at most 14; and when neither probe for a SNAP or IPX
field is made (the frame is not an LLC frame, and it has the source-routed bit
set or a RIF length of 0 or 2) exactly when `cap_len` is at least 15. -/
theorem capture_tr_reads_bounded (pd : Nat → Nat) (cap_len : Nat) :
    (capture_tr pd cap_len).reads = (capture_tr pd 0).reads ∧
    (∀ i ∈ [1, 8, 9, 10, 11, 12, 13, 14], i ∈ (capture_tr pd cap_len).reads) ∧
    (∀ i ∈ (capture_tr pd cap_len).reads, i ≤ 47) ∧
    (14 ≤ largest_read pd ∧ largest_read pd ≤ 47) ∧
    ((∀ i ∈ (capture_tr pd cap_len).reads, i < cap_len) ↔ largest_read pd < cap_len) ∧
    (48 ≤ cap_len → ∀ i ∈ (capture_tr pd cap_len).reads, i < cap_len) ∧
    (cap_len ≤ 14 → ¬ ∀ i ∈ (capture_tr pd cap_len).reads, i < cap_len) ∧
    ((byte pd 1 &&& 192) >>> 6 ≠ 1 →
      (byte pd 8 &&& 128 ≠ 0 ∨ byte pd 14 &&& 31 = 0 ∨ byte pd 14 &&& 31 = 2) →
      (capture_tr pd cap_len).reads = [1, 8, 9, 10, 11, 12, 13, 14] ∧
      ((∀ i ∈ (capture_tr pd cap_len).reads, i < cap_len) ↔ 15 ≤ cap_len)) := by
  have hhead := capture_tr_reads_header pd cap_len
  have hle := capture_tr_reads_le pd cap_len
  have hiff : (∀ i ∈ (capture_tr pd cap_len).reads, i < cap_len) ↔ largest_read pd < cap_len := by
    unfold largest_read
    rw [foldl_max_lt, capture_tr_reads_cap_len pd cap_len]
    constructor
    · intro h
      exact ⟨by have := h 14 (capture_tr_reads_header pd 0 14 (by simp)); omega, h⟩
    · intro h; exact h.2
  have h14 : 14 ≤ largest_read pd :=
    le_foldl_max _ 0 14 (capture_tr_reads_header pd 0 14 (by simp))
  have h47 : largest_read pd ≤ 47 := by
    have := (foldl_max_lt (capture_tr pd 0).reads 48 0).mpr
      ⟨by omega, fun i hi => by have := capture_tr_reads_le pd 0 i hi; omega⟩
    unfold largest_read
    omega
  refine ⟨rfl, hhead, hle, ⟨h14, h47⟩, hiff, ?_, ?_, ?_⟩
  · intro h i hi
    have := hle i hi
    omega
  · intro h hall
    have := hall 14 (hhead 14 (by simp))
    omega
  · intro hft hsr
    have hreads : (capture_tr pd cap_len).reads = [1, 8, 9, 10, 11, 12, 13, 14] := by
      unfold capture_tr
      simp only []
      have hp : ¬ (byte pd 8 &&& 128 = 0 ∧ byte pd 14 &&& 31 > 0) ∨ byte pd 14 &&& 31 = 2 := by
        rcases hsr with h | h | h
        · exact Or.inl (fun c => h c.1)
        · exact Or.inl (fun c => by omega)
        · exact Or.inr h
      rcases hp with hp | hp
      · rw [if_neg hp]
        simp [hft]
      · by_cases hc : byte pd 8 &&& 128 = 0 ∧ byte pd 14 &&& 31 > 0
        · rw [if_pos hc, if_pos hp]
          simp [hft]
        · rw [if_neg hc]
          simp [hft]
    refine ⟨hreads, ?_⟩
    rw [hreads]
    simp only [List.mem_cons, List.mem_singleton, List.not_mem_nil, or_false]
    constructor
    · intro h; have := h 14 (by simp); omega
    · intro h i hi; omega

theorem capture_tr_reads_bounded_witness :
    (∀ i ∈ (capture_tr (frame_of short_llc_frame) 60).reads, i < 60) ∧
    (capture_tr (frame_of short_mac_frame) 15).reads = [1, 8, 9, 10, 11, 12, 13, 14] ∧
    (∀ i ∈ (capture_tr (frame_of short_mac_frame) 15).reads, i < 15) ∧
    ¬ (∀ i ∈ (capture_tr (frame_of short_mac_frame) 14).reads, i < 14) :=
  have h := capture_tr_reads_bounded (frame_of short_mac_frame) 15
  ⟨(capture_tr_reads_bounded (frame_of short_llc_frame) 60).2.2.2.2.2.1 (by decide),
   (h.2.2.2.2.2.2.2 (by decide) (by decide)).1,
   (h.2.2.2.2.2.2.2 (by decide) (by decide)).2.mpr (by decide),
   (capture_tr_reads_bounded (frame_of short_mac_frame) 14).2.2.2.2.2.2.1 (by decide)⟩

end TokenRing

namespace Editcap

/-! ## editcap: the selection -/

theorem selected_loop_zero_or_one (sel : Selection) (recno : Int) :
    ∀ (n i : Nat), selected_loop sel recno n i = 1 ∨ selected_loop sel recno n i = 0 := by
  intro n
  induction n with
  | zero => intro i; exact Or.inr rfl
  | succ n ih =>
    intro i
    unfold selected_loop
    split_ifs
    · exact Or.inl rfl
    · exact ih (i + 1)
    · exact Or.inl rfl
    · exact ih (i + 1)

theorem selected_loop_eq_one (sel : Selection) (recno : Int) :
    ∀ (n i : Nat), selected_loop sel recno n i = 1
      ↔ ∃ j, i ≤ j ∧ j < i + n ∧ entry_selects sel j recno := by
  intro n
  induction n with
  | zero =>
    intro i
    simp only [selected_loop]
    constructor
    · intro h; exact absurd h (by decide)
    · rintro ⟨j, h1, h2, _⟩; omega
  | succ n ih =>
    intro i
    have hstep : selected_loop sel recno (n + 1) i = 1
        ↔ (entry_selects sel i recno ∨ selected_loop sel recno n (i + 1) = 1) := by
      unfold entry_selects
      rw [selected_loop]
      by_cases hinc : (entry sel i).inclusive = 0
      · by_cases hf : recno = (entry sel i).first
        · simp [hinc, hf]
        · have hf' : ¬ (entry sel i).first = recno := fun h => hf h.symm
          simp [hinc, hf, hf']
      · by_cases hr : (entry sel i).first ≤ recno ∧ (entry sel i).second ≥ recno
        · simp [hinc, hr, hr.1, hr.2]
        · have hr' : ¬ ((entry sel i).first ≤ recno ∧ recno ≤ (entry sel i).second) := hr
          simp only [ne_eq, hinc, not_false_eq_true, if_true, hr, if_false, hr', and_false,
            false_and, or_false, false_or]
    rw [hstep, ih (i + 1)]
    constructor
    · rintro (h | ⟨j, h1, h2, h3⟩)
      · exact ⟨i, le_refl i, by omega, h⟩
      · exact ⟨j, by omega, by omega, h3⟩
    · rintro ⟨j, h1, h2, h3⟩
      by_cases hj : j = i
      · subst hj; exact Or.inl h3
      · exact Or.inr ⟨j, by omega, by omega, h3⟩

/-- C16: `selected(recno)` returns 1 if and only if some entry `i` with
`0 <= i <= max_selected` is inclusive with `first <= recno <= second`, or is
not inclusive with `first = recno`; otherwise it returns 0; and with no
selection stored (`max_selected = -1`) it returns 0 for every `recno`. -/
theorem selected_iff (sel : Selection) (recno : Int) :
    (selected sel recno = 1
      ↔ ∃ i : Nat, (i : Int) ≤ sel.max_selected ∧ entry_selects sel i recno) ∧
    (selected sel recno = 1 ∨ selected sel recno = 0) ∧
    selected { sel with max_selected := -1 } recno = 0 ∧
    selected no_selection recno = 0 := by
  refine ⟨?_, selected_loop_zero_or_one sel recno _ 0, rfl, rfl⟩
  unfold selected
  rw [selected_loop_eq_one]
  constructor
  · rintro ⟨j, _, h2, h3⟩
    exact ⟨j, by omega, h3⟩
  · rintro ⟨j, h1, h2⟩
    exact ⟨j, Nat.zero_le j, by omega, h2⟩


theorem written_eq (s : MainState) :
    written s = s.closed.flatMap (fun f => f.records)
      ++ s.current.toList.flatMap (fun f => f.records) := by
  simp [written, files, List.flatMap_append]

theorem files_eq_of_toList (s : MainState) (cur : OutFile) (h : s.current = some cur) :
    files s = s.closed ++ [cur] := by simp [files, h]

theorem adjust_secs_shift (adj : time_adjustment) (p : wtap_pkthdr)
    (hsecs : p.ts_secs > 0) :
    (adjust_secs adj p).ts_secs
      = p.ts_secs + (if adj.is_negative then -1 else 1) * adj.tv_sec ∧
    (adjust_secs adj p).ts_nsecs = p.ts_nsecs := by
  unfold adjust_secs
  by_cases h0 : adj.tv_sec = 0
  · have hc : ¬ (p.ts_secs > 0 ∧ adj.tv_sec ≠ 0) := fun h => h.2 h0
    rw [if_neg hc, h0]
    simp
  · rw [if_pos ⟨hsecs, h0⟩]
    cases adj.is_negative
    · simp
    · simp only [if_true]
      exact ⟨by omega, trivial⟩

theorem adjust_usecs_shift (adj : time_adjustment) (q : wtap_pkthdr)
    (hsecs : q.ts_secs > 0) :
    (adjust_usecs adj q).ts_secs * 1000000000 + (adjust_usecs adj q).ts_nsecs
      = q.ts_secs * 1000000000 + q.ts_nsecs
        + (if adj.is_negative then -1 else 1) * (adj.tv_usec * 1000) := by
  unfold adjust_usecs ONE_MILLION
  by_cases h0 : adj.tv_usec = 0
  · have hc : ¬ (q.ts_secs > 0 ∧ adj.tv_usec ≠ 0) := fun h => h.2 h0
    rw [if_neg hc, h0]
    simp
  · rw [if_pos ⟨hsecs, h0⟩]
    cases adj.is_negative
    · simp only [Bool.false_eq_true, if_false]
      by_cases h1 : q.ts_nsecs + adj.tv_usec * 1000 > 1000000 * 1000
      · rw [if_pos h1]
        show (q.ts_secs + 1) * 1000000000 + (q.ts_nsecs + (adj.tv_usec - 1000000) * 1000) = _
        omega
      · rw [if_neg h1]
        show q.ts_secs * 1000000000 + (q.ts_nsecs + adj.tv_usec * 1000) = _
        omega
    · simp only [if_true]
      by_cases h1 : q.ts_nsecs.tdiv 1000 < adj.tv_usec
      · rw [if_pos h1]
        show (q.ts_secs - 1) * 1000000000
          + (q.ts_nsecs + 1000000 * 1000 - adj.tv_usec * 1000) = _
        omega
      · rw [if_neg h1]
        show q.ts_secs * 1000000000 + (q.ts_nsecs - adj.tv_usec * 1000) = _
        omega

/-- The written time stamp is the original one shifted by the signed
adjustment whenever the seconds are still above 0 after the whole seconds of
the adjustment are applied. -/
theorem edit_phdr_shift (opts : Options) (phdr : wtap_pkthdr)
    (hsecs : phdr.ts_secs > 0) (htv : 0 ≤ opts.time_adj.tv_sec)
    (hleft : opts.time_adj.is_negative = true → opts.time_adj.tv_sec < phdr.ts_secs) :
    (edit_phdr opts phdr).ts_secs * 1000000000 + (edit_phdr opts phdr).ts_nsecs
      = phdr.ts_secs * 1000000000 + phdr.ts_nsecs
        + (if opts.time_adj.is_negative then -1 else 1)
          * (opts.time_adj.tv_sec * 1000000000 + opts.time_adj.tv_usec * 1000) := by
  have hc : (chop opts.choplen phdr).ts_secs = phdr.ts_secs ∧
      (chop opts.choplen phdr).ts_nsecs = phdr.ts_nsecs := by
    unfold chop; split_ifs <;> exact ⟨rfl, rfl⟩
  have hs : (snap opts.snaplen (chop opts.choplen phdr)).ts_secs = phdr.ts_secs ∧
      (snap opts.snaplen (chop opts.choplen phdr)).ts_nsecs = phdr.ts_nsecs := by
    unfold snap; split_ifs <;> exact hc
  obtain ⟨hs1, hs2⟩ := hs
  unfold edit_phdr
  generalize snap opts.snaplen (chop opts.choplen phdr) = p at hs1 hs2
  obtain ⟨h1, h2⟩ := adjust_secs_shift opts.time_adj p (by omega)
  have hpos : (adjust_secs opts.time_adj p).ts_secs > 0 := by
    rw [h1]
    cases hneg : opts.time_adj.is_negative
    · simp only [Bool.false_eq_true, if_false]; omega
    · have := hleft hneg
      simp only [if_true]; omega
  rw [adjust_usecs_shift opts.time_adj _ hpos, h1, h2, hs1, hs2]
  cases opts.time_adj.is_negative
  · simp only [Bool.false_eq_true, if_false]; omega
  · simp only [if_true]; omega

/-- C18 fails at the record with the time stamp 5.7 s and the adjustment
`-t -5.5`: the seconds become 0, the block for the fraction is skipped since
it tests the seconds after they were shifted, and the record is written with
the time stamp 0.7 s, not 0.2 s. -/
theorem fraction_dropped_at_epoch :
    (edit_phdr back_five_and_a_half
      { ts_secs := 5, ts_nsecs := 700000000, caplen := 60, len := 60 }).ts_secs = 0 ∧
    (edit_phdr back_five_and_a_half
      { ts_secs := 5, ts_nsecs := 700000000, caplen := 60, len := 60 }).ts_nsecs = 700000000 ∧
    (edit_phdr back_five_and_a_half
        { ts_secs := 5, ts_nsecs := 700000000, caplen := 60, len := 60 }).ts_secs * 1000000000
      + (edit_phdr back_five_and_a_half
        { ts_secs := 5, ts_nsecs := 700000000, caplen := 60, len := 60 }).ts_nsecs
      ≠ 5 * 1000000000 + 700000000 + (-1) * (5 * 1000000000 + 500000 * 1000) := by
  decide

end Editcap

namespace Capinfos

/-! ## capinfos: errors in a batch of files -/

/-- C20 as stated fails for an error met while the records are read: with the
files 1 and 2, where file 1 opens and its read loop ends with
`WTAP_ERR_UNSUPPORTED_ENCAP`, capinfos without `-C` exits with status 1 and
never opens file 2, which alone would be processed and printed. -/
theorem read_failure_stops_batch :
    (unreadable_file 1 Wiretap.ErrCode.WTAP_ERR_UNSUPPORTED_ENCAP).open_err = none ∧
    (main true [unreadable_file 1 Wiretap.ErrCode.WTAP_ERR_UNSUPPORTED_ENCAP,
      good_file 2]).exit_status = 1 ∧
    (main true [unreadable_file 1 Wiretap.ErrCode.WTAP_ERR_UNSUPPORTED_ENCAP,
      good_file 2]).opened = [1] ∧
    (main true [unreadable_file 1 Wiretap.ErrCode.WTAP_ERR_UNSUPPORTED_ENCAP,
      good_file 2]).processed = [1] ∧
    (main true [unreadable_file 1 Wiretap.ErrCode.WTAP_ERR_UNSUPPORTED_ENCAP,
      good_file 2]).printed = [] ∧
    (main true [good_file 2]).printed = [2] := by
  decide

theorem main_skips_open_failure (f : CapFile) (rest : List CapFile)
    (hf : f.open_err.isSome = true) :
    main true (f :: rest)
      = { main true rest with opened := f.name :: (main true rest).opened } := by
  rw [main, if_pos hf]
  rfl

theorem main_append_open_failure (f : CapFile) (hf : f.open_err.isSome = true)
    (after : List CapFile) :
    ∀ before : List CapFile,
      (main true (before ++ f :: after)).exit_status
        = (main true (before ++ after)).exit_status ∧
      (main true (before ++ f :: after)).processed
        = (main true (before ++ after)).processed ∧
      (main true (before ++ f :: after)).printed
        = (main true (before ++ after)).printed := by
  intro before
  induction before with
  | nil =>
    rw [List.nil_append, List.nil_append, main_skips_open_failure f after hf]
    exact ⟨rfl, rfl, rfl⟩
  | cons g before ih =>
    obtain ⟨h1, h2, h3⟩ := ih
    rw [List.cons_append, List.cons_append, main, main]
    by_cases hg : g.open_err.isSome = true
    · simp only [if_pos hg, Bool.not_true, Bool.false_eq_true, if_false]
      exact ⟨h1, h2, h3⟩
    · simp only [if_neg hg]
      by_cases hp : (process_cap_file g).1 ≠ 0
      · simp only [if_pos hp, and_self]
      · simp only [if_neg hp]
        exact ⟨h1, by rw [h2], by rw [h3]⟩

/-- C20, amended: without `-C`, a file that `wtap_open_offline` refuses, with
an unknown format, an unsupported encapsulation or any other error, never
stops the files after it from being processed: the exit status, the files
handed to `process_cap_file` and the statistics printed are those of the run
without that file, and the files after it are opened as in the run on them
alone when the run reaches the refused file. A file that opens and whose
read loop ends with an error makes capinfos exit with status 1 and no file
after it is opened. -/
theorem open_failure_never_stops (before after : List CapFile) (f : CapFile)
    (e : Wiretap.ErrCode) (hf : f.open_err = some e) :
    (main true (before ++ f :: after)).exit_status
      = (main true (before ++ after)).exit_status ∧
    (main true (before ++ f :: after)).processed
      = (main true (before ++ after)).processed ∧
    (main true (before ++ f :: after)).printed
      = (main true (before ++ after)).printed ∧
    main true (f :: after)
      = { main true after with opened := f.name :: (main true after).opened } ∧
    (∀ (g : CapFile) (e2 : Wiretap.ErrCode), g.open_err = none → g.read_err = some e2 →
      main true (g :: after)
        = { exit_status := 1, opened := [g.name], processed := [g.name], printed := [] }) := by
  have hf2 : f.open_err.isSome = true := by rw [hf]; rfl
  obtain ⟨h1, h2, h3⟩ := main_append_open_failure f hf2 after before
  refine ⟨h1, h2, h3, main_skips_open_failure f after hf2, ?_⟩
  intro g e2 hg hr
  rw [main]
  simp [hg, process_cap_file, hr]

theorem open_failure_never_stops_witness :
    (unopenable_file 2 Wiretap.ErrCode.WTAP_ERR_FILE_UNKNOWN_FORMAT).open_err
      = some Wiretap.ErrCode.WTAP_ERR_FILE_UNKNOWN_FORMAT ∧
    (main true ([good_file 1]
        ++ unopenable_file 2 Wiretap.ErrCode.WTAP_ERR_FILE_UNKNOWN_FORMAT :: [good_file 3])).printed
      = (main true ([good_file 1] ++ [good_file 3])).printed :=
  ⟨rfl, (open_failure_never_stops [good_file 1] [good_file 3]
    (unopenable_file 2 Wiretap.ErrCode.WTAP_ERR_FILE_UNKNOWN_FORMAT)
    Wiretap.ErrCode.WTAP_ERR_FILE_UNKNOWN_FORMAT rfl).2.2.1⟩

end Capinfos

namespace Wiretap

/-! ## The order of the table -/

theorem fixed_magic_index (r t : OpenRoutine) (hr : fixed_magic r = true)
    (ht : fixed_magic t = false) :
    open_routines.indexOf r < open_routines.indexOf t ∧
    r ∈ open_routines.take (open_routines.indexOf t) := by
  cases r <;> cases t <;>
    first
    | exact absurd hr (by decide)
    | exact absurd ht (by decide)
    | decide

/-- A routine that the loop ends on with success is reached only when no
routine before it in the table returned 1. -/
theorem try_all_file_types_wth (probe : OpenRoutine → ProbeResult) (t : OpenRoutine) :
    ∀ (l : List OpenRoutine) (s : OpenState),
      (try_all_file_types probe l s).1 = OpenReturn.wth t →
      ∀ q ∈ l.take (l.indexOf t), (probe q).ret ≠ 1 := by
  intro l
  induction l with
  | nil => intro s h; exact absurd h (by simp [try_all_file_types])
  | cons a rest ih =>
    intro s h q hq
    by_cases hat : a = t
    · subst hat
      simp at hq
    · rw [List.indexOf_cons_ne _ hat, List.take_succ_cons] at hq
      have hstep : (probe a).ret ≠ 1 ∧ (probe a).ret ≠ -1 ∧
          (try_all_file_types probe rest (call_routine probe a s)).1 = OpenReturn.wth t := by
        unfold try_all_file_types at h
        by_cases h1 : (probe a).ret = -1
        · simp [h1] at h
        · by_cases h0 : (probe a).ret = 0
          · simp only [h0] at h
            refine ⟨by omega, h1, ?_⟩
            simpa using h
          · by_cases h2 : (probe a).ret = 1
            · simp only [h2] at h
              simp at h
              exact absurd h hat
            · simp only [h1, h0, h2, if_false] at h
              exact ⟨h2, h1, h⟩
      rcases List.mem_cons.mp hq with hq | hq
      · rw [hq]; exact hstep.1
      · exact ih _ hstep.2.2 q hq

/-- C23: in `open_routines` every routine of the fixed-magic group stands
before every routine of the text-signature group; so a file that
`libpcap_open` accepts is opened as a libpcap file whatever `toshiba_open`
would return, which is not even called, and a file that a fixed-magic
routine accepts is never opened by a text-signature routine. -/
theorem fixed_magic_before_text (env : OpenEnv) (probe : OpenRoutine → ProbeResult)
    (s : OpenState) (hloop : reaches_loop env) :
    (∀ r t, fixed_magic r = true → fixed_magic t = false →
      open_routines.indexOf r < open_routines.indexOf t) ∧
    ((probe OpenRoutine.libpcap_open).ret = 1 →
      (wtap_open_offline env probe s).1 = OpenReturn.wth OpenRoutine.libpcap_open ∧
      (wtap_open_offline env probe s).2.calls = s.calls ++ [OpenRoutine.libpcap_open]) ∧
    (∀ r t, fixed_magic r = true → fixed_magic t = false → (probe r).ret = 1 →
      (wtap_open_offline env probe s).1 ≠ OpenReturn.wth t) := by
  obtain ⟨e, he⟩ := wtap_open_offline_loop env probe s hloop
  refine ⟨fun r t hr ht => (fixed_magic_index r t hr ht).1, ?_, ?_⟩
  · intro h1
    rw [he]
    simp [open_routines, try_all_file_types, h1, call_routine]
  · intro r t hr ht h1 hres
    rw [he] at hres
    exact try_all_file_types_wth probe t open_routines _ hres r
      (fixed_magic_index r t hr ht).2 h1

theorem fixed_magic_before_text_witness :
    reaches_loop env_regular_file ∧
    (probe_libpcap_and_toshiba OpenRoutine.libpcap_open).ret = 1 ∧
    (probe_libpcap_and_toshiba OpenRoutine.toshiba_open).ret = 1 ∧
    (wtap_open_offline env_regular_file probe_libpcap_and_toshiba fresh_state).1
      = OpenReturn.wth OpenRoutine.libpcap_open ∧
    (wtap_open_offline env_regular_file probe_libpcap_and_toshiba fresh_state).2.calls
      = [OpenRoutine.libpcap_open] :=
  have h := (fixed_magic_before_text env_regular_file probe_libpcap_and_toshiba fresh_state
    (by decide)).2.1 (by decide)
  ⟨by decide, by decide, by decide, h.1, h.2⟩

end Wiretap

namespace Spoolss

/-! ## Deferred pointers: every pointer is resolved -/

theorem weight_append (rank : deferred_ptr → Nat) (w : Nat) (a b : List deferred_ptr) :
    weight rank w (a ++ b) = weight rank w a + weight rank w b := by
  simp [weight, List.map_append, List.sum_append]

theorem weight_cons (rank : deferred_ptr → Nat) (w : Nat) (d : deferred_ptr)
    (l : List deferred_ptr) :
    weight rank w (d :: l) = (w + 1) ^ rank d + weight rank w l := by
  simp [weight]

/-- Pointers of rank below `r`, at most `n` of them, weigh at most
`n * (w + 1) ^ (r - 1)`. -/
theorem weight_le (rank : deferred_ptr → Nat) (w r : Nat) :
    ∀ l : List deferred_ptr, (∀ d ∈ l, rank d < r) →
      weight rank w l ≤ l.length * (w + 1) ^ (r - 1) := by
  intro l
  induction l with
  | nil => intro _; simp [weight]
  | cons d l ih =>
    intro h
    rw [weight_cons, List.length_cons, Nat.add_mul, Nat.one_mul, Nat.add_comm]
    have hd : rank d ≤ r - 1 := by
      have := h d (List.mem_cons_self _ _); omega
    exact Nat.add_le_add (ih (fun x hx => h x (List.mem_cons_of_mem _ hx)))
      (Nat.pow_le_pow_right (by omega) hd)

/-- The pointers a resolver defers weigh less than the pointer it resolves. -/
theorem weight_deferred_lt (fns : ParseFns) (rank : deferred_ptr → Nat) (w : Nat)
    (hrank : ∀ (dp : deferred_ptr) (off : Int),
      ∀ d ∈ (fns dp.fn off dp.tree).deferred, rank d < rank dp)
    (hw : ∀ (dp : deferred_ptr) (off : Int), (fns dp.fn off dp.tree).deferred.length ≤ w)
    (dp : deferred_ptr) (off : Int) :
    weight rank w (fns dp.fn off dp.tree).deferred < (w + 1) ^ rank dp := by
  have h1 := weight_le rank w (rank dp) _ (hrank dp off)
  have h2 := hw dp off
  cases hl : (fns dp.fn off dp.tree).deferred with
  | nil => simp [weight]
  | cons d l =>
    have hd : rank d < rank dp := hrank dp off d (by rw [hl]; exact List.mem_cons_self _ _)
    rw [hl] at h1 h2
    have hr : rank dp = (rank dp - 1) + 1 := by omega
    calc weight rank w (d :: l) ≤ (d :: l).length * (w + 1) ^ (rank dp - 1) := h1
      _ ≤ w * (w + 1) ^ (rank dp - 1) := Nat.mul_le_mul_right _ h2
      _ < (w + 1) * (w + 1) ^ (rank dp - 1) :=
          Nat.mul_lt_mul_of_pos_right (Nat.lt_succ_self w) (Nat.pow_pos (Nat.succ_pos w))
      _ = (w + 1) ^ rank dp := by rw [hr, pow_succ, Nat.add_sub_cancel]; ring

/-- The walk of GLib 1.2 over a list that the resolvers append to: with fuel
above the weight of the pointers still to visit it ends, has called the
resolver of every pointer of the list once, in list order, and the list holds
the pointers it started with followed by those the calls have deferred. -/
theorem g_list_foreach_resolves_all (fns : ParseFns) (rank : deferred_ptr → Nat) (w : Nat)
    (hrank : ∀ (dp : deferred_ptr) (off : Int),
      ∀ d ∈ (fns dp.fn off dp.tree).deferred, rank d < rank dp)
    (hw : ∀ (dp : deferred_ptr) (off : Int), (fns dp.fn off dp.tree).deferred.length ≤ w)
    (start : List deferred_ptr) :
    ∀ (fuel i : Nat) (s : ForeachState),
      weight rank w (s.list.drop i) < fuel →
      s.calls.map Call.entry = s.list.take i →
      s.list = start ++ s.calls.flatMap (Call.deferred fns) →
      ∃ t, g_list_foreach Foreach.call_then_next fns true fuel i s = some t ∧
        t.calls.map Call.entry = t.list ∧
        t.list = start ++ t.calls.flatMap (Call.deferred fns) := by
  intro fuel
  induction fuel with
  | zero => intro i s h; exact absurd h (Nat.not_lt_zero _)
  | succ fuel ih =>
    intro i s hfuel hcalls hlist
    rw [g_list_foreach]
    cases hi : s.list[i]? with
    | none =>
      have hlen : s.list.length ≤ i := List.getElem?_eq_none_iff.mp hi
      rw [List.take_of_length_le hlen] at hcalls
      exact ⟨s, rfl, hcalls, hlist⟩
    | some dp =>
      obtain ⟨hlt, hdp⟩ := List.getElem?_eq_some.mp hi
      have hdrop : s.list.drop i = dp :: s.list.drop (i + 1) := by
        rw [← hdp]; exact List.drop_eq_getElem_cons hlt
      have hlist1 : (dr_iterator fns true dp s).list
          = s.list ++ (fns dp.fn s.offset dp.tree).deferred := by
        simp [dr_iterator]
      have hcalls1 : (dr_iterator fns true dp s).calls
          = s.calls ++ [{ fn := dp.fn, tree := dp.tree, offset := s.offset, slot := s.slot }] := by
        simp [dr_iterator]
      apply ih (i + 1) (dr_iterator fns true dp s)
      · rw [hlist1, List.drop_append_of_le_length (by omega), weight_append]
        have h1 := weight_deferred_lt fns rank w hrank hw dp s.offset
        rw [hdrop, weight_cons] at hfuel
        omega
      · rw [hcalls1, hlist1, List.map_append, hcalls, List.take_append_of_le_length (by omega),
          List.take_succ, hi]
        rfl
      · rw [hlist1, hcalls1, List.flatMap_append, ← List.append_assoc, ← hlist]
        simp [Call.deferred]

/-- When `g_list_foreach` follows the `next` link of an element after it
has called the function on it, as that of GLib 1.2 does, and every resolver
defers at most `w` pointers, all of a smaller rank than its own, then
`prs_struct_and_referents` returns, and it has called the resolver of every
pointer deferred on the way, by the parse function of the structure or by a
resolver, once each: the pointers resolved are, as a list, the pointers the
parse function has deferred followed by the pointers the resolvers called
have deferred. -/
theorem every_deferred_ptr_resolved (fns : ParseFns) (fuel : Nat) (offset : Int)
    (tree fn : Nat) (ptr_data : Bool) (rank : deferred_ptr → Nat) (w : Nat)
    (hrank : ∀ (dp : deferred_ptr) (off : Int),
      ∀ d ∈ (fns dp.fn off dp.tree).deferred, rank d < rank dp)
    (hw : ∀ (dp : deferred_ptr) (off : Int), (fns dp.fn off dp.tree).deferred.length ≤ w)
    (hfuel : weight rank w (fns fn offset tree).deferred < fuel) :
    ∃ r, prs_struct_and_referents Foreach.call_then_next fns fuel offset tree fn ptr_data
        = some r ∧
      r.calls.map Call.entry
        = (fns fn offset tree).deferred ++ r.calls.flatMap (Call.deferred fns) ∧
      r.list = [] := by
  obtain ⟨t, ht, h1, h2⟩ := g_list_foreach_resolves_all fns rank w hrank hw
    (fns fn offset tree).deferred fuel 0
    { list := (fns fn offset tree).deferred, dp_list := [],
      offset := (fns fn offset tree).offset,
      slot := if ptr_data && decide ((fns fn offset tree).deferred.length > 0) then some 0
        else none,
      calls := [] }
    (by simpa using hfuel) (by simp) (by simp)
  refine ⟨{ offset := t.offset, list := [], dp_list := [], calls := t.calls }, ?_, ?_, rfl⟩
  · simp only [prs_struct_and_referents, prs_referents, if_true]
    rw [ht]
  · show t.calls.map Call.entry = _ ++ t.calls.flatMap (Call.deferred fns)
    rw [h1]; exact h2

theorem user_level_rank_decreases (p : UserLevelPacket) (dp : deferred_ptr) (off : Int) :
    ∀ d ∈ (user_level_fns p dp.fn off dp.tree).deferred,
      user_level_rank d < user_level_rank dp := by
  intro d hd
  unfold user_level_fns at hd
  by_cases h1 : dp.fn = fn_USER_LEVEL
  · rw [if_pos h1] at hd
    have hfn : d.fn = fn_USER_LEVEL_1 := by
      by_cases hc : p.user_level_ptr ≠ 0 ∧ p.level = 1
      · rw [if_pos hc] at hd
        simp only [defer_ptr, List.nil_append, List.mem_singleton] at hd
        rw [hd]
      · rw [if_neg hc] at hd
        exact absurd hd (List.not_mem_nil d)
    simp [user_level_rank, h1, hfn, fn_USER_LEVEL, fn_USER_LEVEL_1]
  · rw [if_neg h1] at hd
    by_cases h2 : dp.fn = fn_USER_LEVEL_1
    · rw [if_pos h2] at hd
      have hfn : d.fn = fn_UNISTR2_dp := by
        simp only [List.mem_append] at hd
        rcases hd with hd | hd
        · by_cases hc : p.client_name_ptr ≠ 0
          · rw [if_pos hc] at hd
            simp only [defer_ptr, List.nil_append, List.mem_singleton] at hd
            rw [hd]
          · rw [if_neg hc] at hd
            exact absurd hd (List.not_mem_nil d)
        · by_cases hc : p.user_name_ptr ≠ 0
          · rw [if_pos hc] at hd
            simp only [defer_ptr, List.nil_append, List.mem_singleton] at hd
            rw [hd]
          · rw [if_neg hc] at hd
            exact absurd hd (List.not_mem_nil d)
      simp [user_level_rank, h1, h2, hfn, fn_USER_LEVEL, fn_USER_LEVEL_1, fn_UNISTR2_dp]
    · rw [if_neg h2] at hd
      split_ifs at hd <;> exact absurd hd (List.not_mem_nil d)

theorem user_level_width (p : UserLevelPacket) (dp : deferred_ptr) (off : Int) :
    (user_level_fns p dp.fn off dp.tree).deferred.length ≤ 2 := by
  unfold user_level_fns
  split_ifs <;> simp [defer_ptr]

theorem every_deferred_ptr_resolved_witness :
    weight user_level_rank 2
      (user_level_fns user_level_1_packet fn_USER_LEVEL 0 0).deferred < 10 ∧
    (prs_struct_and_referents Foreach.call_then_next (user_level_fns user_level_1_packet)
        10 0 0 fn_USER_LEVEL false).map (fun r => r.calls.map Call.entry)
      = some [{ fn := fn_USER_LEVEL_1, tree := 1 }, { fn := fn_UNISTR2_dp, tree := 2 },
              { fn := fn_UNISTR2_dp, tree := 2 }] ∧
    ∃ r, prs_struct_and_referents Foreach.call_then_next (user_level_fns user_level_1_packet)
        10 0 0 fn_USER_LEVEL false = some r ∧
      r.calls.map Call.entry
        = (user_level_fns user_level_1_packet fn_USER_LEVEL 0 0).deferred
          ++ r.calls.flatMap (Call.deferred (user_level_fns user_level_1_packet)) ∧
      r.list = [] :=
  ⟨by decide, by decide,
   every_deferred_ptr_resolved (user_level_fns user_level_1_packet) 10 0 0 fn_USER_LEVEL false
     user_level_rank 2 (user_level_rank_decreases user_level_1_packet)
     (user_level_width user_level_1_packet) (by decide)⟩

/-- C26 fails with a `g_list_foreach` that reads the `next` link of an
element before it calls the function on it, as that of GLib 2 does. For the
USER_LEVEL of level 1 whose client-name and user-name pointers are not null,
`prs_USER_LEVEL` defers `prs_USER_LEVEL_1`, which is the only and so the last
element of the list when `prs_referents` walks it; `prs_USER_LEVEL_1` defers
the two strings by appending them to that list, but the walk has already read
the `next` link as NULL and ends: `prs_UNISTR2_dp` is never called, and
`*list = NULL` drops the two entries. With the `g_list_foreach` of GLib 1.2
the same call parses both strings. -/
theorem user_level_next_then_call :
    (user_level_fns user_level_1_packet fn_USER_LEVEL 0 0).deferred
      = [{ fn := fn_USER_LEVEL_1, tree := 1 }] ∧
    (user_level_fns user_level_1_packet fn_USER_LEVEL_1 8 1).deferred
      = [{ fn := fn_UNISTR2_dp, tree := 2 }, { fn := fn_UNISTR2_dp, tree := 2 }] ∧
    (prs_struct_and_referents Foreach.next_then_call (user_level_fns user_level_1_packet)
        10 0 0 fn_USER_LEVEL false).map (fun r => r.calls)
      = some [{ fn := fn_USER_LEVEL_1, tree := 1, offset := 8, slot := none }] ∧
    (prs_struct_and_referents Foreach.next_then_call (user_level_fns user_level_1_packet)
        10 0 0 fn_USER_LEVEL false).map (fun r => r.list) = some [] ∧
    (prs_struct_and_referents Foreach.next_then_call (user_level_fns user_level_1_packet)
        1000 0 0 fn_USER_LEVEL false).map (fun r => r.calls.map Call.entry)
      = some [{ fn := fn_USER_LEVEL_1, tree := 1 }] ∧
    (prs_struct_and_referents Foreach.call_then_next (user_level_fns user_level_1_packet)
        10 0 0 fn_USER_LEVEL false).map (fun r => r.calls.map Call.entry)
      = some [{ fn := fn_USER_LEVEL_1, tree := 1 }, { fn := fn_UNISTR2_dp, tree := 2 },
              { fn := fn_UNISTR2_dp, tree := 2 }] := by
  decide

end Spoolss

namespace TokenRing

/-! ## Token ring: the ring and bridge text -/

theorem to_hex_length_one (n : Nat) (h : n < 16) : (to_hex n n).length = 1 := by
  cases n with
  | zero => rfl
  | succ m => rw [to_hex, if_pos h]; rfl

theorem to_hex_length_le_three (n : Nat) (h : n < 4096) : (to_hex n n).length ≤ 3 := by
  cases n with
  | zero => simp [to_hex]
  | succ m =>
    rw [to_hex]
    by_cases h1 : m + 1 < 16
    · rw [if_pos h1]; simp
    · rw [if_neg h1]
      have hm : ∃ k, m = k + 1 := ⟨m - 1, by omega⟩
      obtain ⟨k, rfl⟩ := hm
      rw [to_hex]
      by_cases h2 : (k + 1 + 1) / 16 < 16
      · rw [if_pos h2]; simp
      · rw [if_neg h2]
        have hk : ∃ l, k = l + 1 := ⟨k - 1, by omega⟩
        obtain ⟨l, rfl⟩ := hk
        have h3 : (l + 1 + 1 + 1) / 16 / 16 < 16 := by omega
        rw [to_hex, if_pos h3]; simp

theorem sprintf_X_one (n : Nat) (h : n < 16) : (sprintf_X 1 n).length = 1 := by
  simp [sprintf_X, to_hex_length_one n h]

theorem sprintf_X_three (n : Nat) (h : n < 4096) : (sprintf_X 3 n).length = 3 := by
  have := to_hex_length_le_three n h
  simp only [sprintf_X, List.length_append, List.length_replicate]
  omega

theorem byte_lt (pd : Nat → Nat) (i : Nat) : byte pd i < 256 := Nat.mod_lt _ (by decide)

theorem segment_lt (pd : Nat → Nat) (i : Nat) : pntohs pd i >>> 4 < 4096 := by
  have h1 := byte_lt pd i
  have h2 := byte_lt pd (i + 1)
  rw [Nat.shiftRight_eq_div_pow]
  unfold pntohs
  omega

theorem bridge_lt (pd : Nat → Nat) (i : Nat) : byte pd i &&& 0x0f < 16 :=
  lt_of_le_of_lt Nat.and_le_right (by decide)

theorem hop_length (pd : Nat → Nat) (j : Nat) :
    (['-'] ++ sprintf_X 1 (byte pd (16 + j) &&& 0x0f) ++ ['-']
      ++ sprintf_X 3 (pntohs pd (17 + j) >>> 4)).length = 6 := by
  simp [sprintf_X_one _ (bridge_lt pd (16 + j)), sprintf_X_three _ (segment_lt pd (17 + j))]

theorem ring_bridge_loop_offset (pd : Nat → Nat) (rcf_len : Int) :
    ∀ (fuel j : Nat) (t : RifText), 1 < j →
      (ring_bridge_loop pd rcf_len fuel j t).buff_offset
        = t.buff_offset + 6 * min fuel (((rcf_len - 1 - j + 1) / 2).toNat) := by
  intro fuel
  induction fuel with
  | zero => intro j t _; simp [ring_bridge_loop]
  | succ fuel ih =>
    intro j t hj
    rw [ring_bridge_loop]
    by_cases hc : (j : Int) < rcf_len - 1
    · rw [if_pos hc]
      have hj1 : j ≠ 1 := by omega
      simp only [hj1, if_false]
      rw [ih (j + 2) _ (by omega)]
      simp only [sprintf_at, hop_length]
      have e : ((rcf_len - 1 - (j : Int) + 1) / 2).toNat
          = ((rcf_len - 1 - ((j + 2 : Nat) : Int) + 1) / 2).toNat + 1 := by
        push_cast
        omega
      rw [e]
      omega
    · rw [if_neg hc]
      have e : ((rcf_len - 1 - (j : Int) + 1) / 2).toNat = 0 := by omega
      rw [e]; simp

/-- The offset `add_ring_bridge_pairs` reaches for a RIF of `rif` bytes: none
for 3 and 4 bytes, else three characters for the first ring and six for each
further hop. -/
theorem add_ring_bridge_pairs_offset (pd : Nat → Nat) (rif : Nat)
    (h3 : 3 ≤ rif) (h31 : rif ≤ 31) :
    (add_ring_bridge_pairs (rif : Int) pd).buff_offset
      = if rif ≤ 4 then 0 else 3 + 6 * ((rif - 3) / 2) := by
  unfold add_ring_bridge_pairs
  rw [ring_bridge_loop]
  by_cases hc : ((1 : Nat) : Int) < (rif : Int) - 2 - 1
  · rw [if_pos hc]
    have h5 : ¬ rif ≤ 4 := by omega
    rw [if_neg h5, ring_bridge_loop_offset pd _ 15 3 _ (by decide)]
    have e : (((rif : Int) - 2 - 1 - ((3 : Nat) : Int) + 1) / 2).toNat = (rif - 5) / 2 := by
      omega
    rw [e]
    simp only [if_true, sprintf_at, hop_length, sprintf_X_three _ (segment_lt pd 16)]
    omega
  · rw [if_neg hc]
    have h4 : rif ≤ 4 := by omega
    rw [if_pos h4]

/-- The text fits the buffer of 50 bytes with its NUL exactly for the RIF
lengths up to 18. -/
theorem buffer_bytes_written_le (pd : Nat → Nat) (rif : Nat)
    (h3 : 3 ≤ rif) (h31 : rif ≤ 31) :
    buffer_bytes_written (rif : Int) pd ≤ 50 ↔ rif ≤ 18 := by
  unfold buffer_bytes_written
  rw [add_ring_bridge_pairs_offset pd rif h3 h31]
  by_cases h4 : rif ≤ 4
  · simp [h4]; omega
  · simp only [h4, if_false]
    have hne : ¬ (3 + 6 * ((rif - 3) / 2) = 0) := by omega
    rw [if_neg hne]
    omega

/-- C27 fails for a RIF of twenty bytes: `dissect_tr` calls
`add_ring_bridge_pairs` with `rcf_len = 20`, the loop runs eight times, and
the text of 51 characters takes 52 bytes with its NUL, two more than the
buffer has. -/
theorem rif_text_overflows_buffer :
    (capture_tr (frame_of long_rif_frame) 37).trn_rif_bytes = 20 ∧
    (dissect_tr_rif (frame_of long_rif_frame)).map (fun t => t.buffer)
      = some "001-1-002-2-003-3-004-4-005-5-006-6-007-7-008-8-009".toList ∧
    (dissect_tr_rif (frame_of long_rif_frame)).map (fun t => t.buff_offset) = some 51 ∧
    buffer_bytes_written 20 (frame_of long_rif_frame) = 52 ∧
    ¬ buffer_bytes_written 20 (frame_of long_rif_frame) ≤ 50 := by
  decide

end TokenRing

namespace Mdshdr

/-! ## The MDS header: the SOF and EOF tables -/

/-- C28 fails for the SOF code 12 and for the EOF code 15: the header with
the byte 0x0c at offset 1 gives the index 12 into `sof_strings`, which has the
entries 0 to 11, and the trailer byte 0x0f gives the index 15 into
`eof_strings`, which has the entries 0 to 14. -/
theorem sof_eof_index_out_of_table :
    (dissect_mdshdr header_sof_12).map (fun h => h.sof) = some 12 ∧
    sof_strings.length = 12 ∧
    (dissect_mdshdr header_sof_12).map (fun h => h.sof_string) = some none ∧
    (dissect_mdshdr frame_eof_15).map (fun h => h.eof) = some 15 ∧
    eof_strings.length = 15 ∧
    (dissect_mdshdr frame_eof_15).map (fun h => h.eof_string) = some none := by
  decide

/-- The codes that `dissect_mdshdr` looks up are below 16 for the SOF and
below 256 for the EOF; the entry exists exactly for a SOF code below 12 and
an EOF code below 15. -/
theorem dissect_mdshdr_codes (tvb : Smtp.tvbuff_t) (h : MdsHeader)
    (hd : dissect_mdshdr tvb = some h) :
    h.sof < 16 ∧ h.eof < 256 ∧
    (h.sof_string.isSome ↔ h.sof < 12) ∧ (h.eof_string.isSome ↔ h.eof < 15) := by
  unfold dissect_mdshdr at hd
  simp only [Option.bind_eq_some] at hd
  obtain ⟨b1, _, w2, _, w13, _, eof, heof, _, _, _, _, hh⟩ := hd
  cases Option.some.inj hh
  refine ⟨lt_of_le_of_lt Nat.and_le_right (by decide), ?_, ?_, ?_⟩
  · unfold read_eof at heof
    split_ifs at heof
    · unfold tvb_get_guint8 at heof
      cases hx : tvb.data[MDSHDR_HEADER_SIZE + (w2 &&& 0x1FFF) - MDSHDR_TRAILER_SIZE]? with
      | none => rw [hx] at heof; exact absurd heof (by simp)
      | some v =>
        rw [hx] at heof
        cases Option.some.inj heof
        exact Nat.mod_lt _ (by decide)
    · cases Option.some.inj heof
      show MDSHDR_EOF_UNKNOWN < 256
      decide
  · show (sof_strings[b1 &&& 0x0F]?).isSome ↔ b1 &&& 0x0F < 12
    rw [Option.isSome_iff_exists]
    constructor
    · rintro ⟨a, ha⟩
      exact (List.getElem?_eq_some.mp ha).1
    · intro hlt
      have hl : b1 &&& 0x0F < sof_strings.length := hlt
      exact ⟨_, List.getElem?_eq_getElem hl⟩
  · show (eof_strings[eof]?).isSome ↔ eof < 15
    rw [Option.isSome_iff_exists]
    constructor
    · rintro ⟨a, ha⟩
      exact (List.getElem?_eq_some.mp ha).1
    · intro hlt
      have hl : eof < eof_strings.length := hlt
      exact ⟨_, List.getElem?_eq_getElem hl⟩

end Mdshdr

namespace Editcap

/-! ## editcap: the snapshot length -/

theorem snap_caplen (snaplen : Nat) (p : wtap_pkthdr) (h : snaplen > 0) :
    (snap snaplen p).caplen ≤ snaplen ∧
    (p.caplen ≤ snaplen → snap snaplen p = p) ∧
    (snap snaplen p).len = p.len ∧
    (snap snaplen p).ts_secs = p.ts_secs ∧
    (snap snaplen p).ts_nsecs = p.ts_nsecs := by
  unfold snap
  by_cases hc : snaplen ≠ 0 ∧ p.caplen > snaplen
  · rw [if_pos hc]
    exact ⟨le_refl _, fun h2 => absurd h2 (by omega), rfl, rfl, rfl⟩
  · rw [if_neg hc]
    refine ⟨?_, fun _ => rfl, rfl, rfl, rfl⟩
    by_contra hgt
    exact hc ⟨by omega, by omega⟩

theorem chop_keeps (choplen : Nat) (p : wtap_pkthdr) :
    (chop choplen p).len = p.len ∧ (chop choplen p).ts_secs = p.ts_secs ∧
    (chop choplen p).ts_nsecs = p.ts_nsecs := by
  unfold chop; split_ifs <;> exact ⟨rfl, rfl, rfl⟩

theorem adjust_secs_keeps (adj : time_adjustment) (p : wtap_pkthdr) :
    (adjust_secs adj p).caplen = p.caplen ∧ (adjust_secs adj p).len = p.len := by
  unfold adjust_secs; split_ifs <;> exact ⟨rfl, rfl⟩

theorem adjust_usecs_keeps (adj : time_adjustment) (p : wtap_pkthdr) :
    (adjust_usecs adj p).caplen = p.caplen ∧ (adjust_usecs adj p).len = p.len := by
  unfold adjust_usecs; split_ifs <;> exact ⟨rfl, rfl⟩

theorem edit_phdr_caplen (opts : Options) (p : wtap_pkthdr) :
    (edit_phdr opts p).caplen = (snap opts.snaplen (chop opts.choplen p)).caplen ∧
    (edit_phdr opts p).len = p.len := by
  unfold edit_phdr
  rw [(adjust_usecs_keeps _ _).1, (adjust_usecs_keeps _ _).2, (adjust_secs_keeps _ _).1,
    (adjust_secs_keeps _ _).2]
  refine ⟨rfl, ?_⟩
  have h1 : (snap opts.snaplen (chop opts.choplen p)).len = (chop opts.choplen p).len := by
    unfold snap; split_ifs <;> rfl
  rw [h1, (chop_keeps _ _).1]

theorem written_split_file (opts : Options) (env : DumpResults) (s : MainState) :
    written (split_file opts env s) = written s := by
  unfold split_file
  split_ifs <;> simp [written_eq, List.flatMap_append]

theorem written_write_record (opts : Options) (env : DumpResults) (sel : Selection)
    (phdr : wtap_pkthdr) (s : MainState) :
    ∀ x ∈ written (write_record opts env sel phdr s),
      x ∈ written s ∨ x.2 = edit_phdr opts phdr := by
  intro x hx
  unfold write_record at hx
  split_ifs at hx
  · exact Or.inl hx
  · cases hcur : s.current with
    | none => left; simpa [written_eq, hcur] using hx
    | some f =>
      simp only [written_eq, hcur, Option.map_some', Option.toList_some, List.flatMap_cons,
        List.flatMap_nil, List.append_nil, List.mem_append, List.mem_singleton] at hx ⊢
      rcases hx with hx | hx | hx
      · exact Or.inl (Or.inl hx)
      · exact Or.inl (Or.inr hx)
      · right; rw [hx]
  · exact Or.inl hx

theorem written_read_record (opts : Options) (env : DumpResults) (sel : Selection)
    (phdr : wtap_pkthdr) (s : MainState) :
    ∀ x ∈ written (read_record opts env sel phdr s),
      x ∈ written s ∨ x.2 = edit_phdr opts phdr := by
  intro x hx
  have key : ∀ t : MainState, written t = written (write_record opts env sel phdr
      (split_file opts env s)) → x ∈ written t → x ∈ written s ∨ x.2 = edit_phdr opts phdr := by
    intro t ht hxt
    rw [ht] at hxt
    have := written_write_record opts env sel phdr _ x hxt
    rwa [written_split_file] at this
  unfold read_record at hx
  split_ifs at hx
  · rw [written_split_file] at hx; exact Or.inl hx
  · exact key _ rfl hx
  · exact key _ rfl hx

theorem written_read_all (opts : Options) (env : DumpResults) (sel : Selection) :
    ∀ (records : List wtap_pkthdr) (s : MainState),
      ∀ x ∈ written (read_all opts env sel records s),
        x ∈ written s ∨ ∃ r ∈ records, x.2 = edit_phdr opts r := by
  intro records
  induction records with
  | nil => intro s x hx; exact Or.inl hx
  | cons phdr rest ih =>
    intro s x hx
    rw [read_all] at hx
    have hstep : x ∈ written (read_record opts env sel phdr s) ∨
        ∃ r ∈ rest, x.2 = edit_phdr opts r := by
      split_ifs at hx
      · exact Or.inl hx
      · exact ih _ x hx
    rcases hstep with h | ⟨r, hr, h⟩
    · rcases written_read_record opts env sel phdr s x h with h | h
      · exact Or.inl h
      · exact Or.inr ⟨phdr, List.mem_cons_self _ _, h⟩
    · exact Or.inr ⟨r, List.mem_cons_of_mem _ hr, h⟩

theorem written_main_write (opts : Options) (env : DumpResults)
    (selections : List (List Char)) (records : List wtap_pkthdr) :
    ∀ x ∈ written (main_write opts env selections records),
      ∃ r ∈ records, x.2 = edit_phdr opts r := by
  intro x hx
  unfold main_write at hx
  split_ifs at hx
  · simp [written_eq] at hx
  · have hl : ∀ s : MainState, written (last_close env s) = written s := by
      intro s
      unfold last_close
      split_ifs <;> simp [written_eq, List.flatMap_append]
    rw [hl] at hx
    rcases written_read_all opts env _ records _ x hx with h | h
    · simp [written_eq, first_file] at h
    · exact h

/-- C25: with `-s S`, `S > 0`, every record editcap writes has a captured
length of at most `S`; a record whose captured length after the chopping is
at most `S` already is written with that length; and the truncation changes
neither the original length `len` nor the time stamp, so that `len` is
written as it was read, and so is the time stamp when no `-t` is given. -/
theorem snaplen_bounds (opts : Options) (env : DumpResults)
    (selections : List (List Char)) (records : List wtap_pkthdr) (phdr : wtap_pkthdr)
    (hS : opts.snaplen > 0) :
    (∀ x ∈ written (main_write opts env selections records), x.2.caplen ≤ opts.snaplen) ∧
    (edit_phdr opts phdr).caplen ≤ opts.snaplen ∧
    ((chop opts.choplen phdr).caplen ≤ opts.snaplen →
      (edit_phdr opts phdr).caplen = (chop opts.choplen phdr).caplen) ∧
    (edit_phdr opts phdr).len = phdr.len ∧
    (snap opts.snaplen (chop opts.choplen phdr)).len = (chop opts.choplen phdr).len ∧
    (snap opts.snaplen (chop opts.choplen phdr)).ts_secs = (chop opts.choplen phdr).ts_secs ∧
    (snap opts.snaplen (chop opts.choplen phdr)).ts_nsecs
      = (chop opts.choplen phdr).ts_nsecs ∧
    (opts.time_adj.tv_sec = 0 → opts.time_adj.tv_usec = 0 →
      (edit_phdr opts phdr).ts_secs = phdr.ts_secs ∧
      (edit_phdr opts phdr).ts_nsecs = phdr.ts_nsecs) := by
  have hedit : ∀ p : wtap_pkthdr, (edit_phdr opts p).caplen ≤ opts.snaplen := by
    intro p
    rw [(edit_phdr_caplen opts p).1]
    exact (snap_caplen opts.snaplen _ hS).1
  obtain ⟨_, h2, h3, h4, h5⟩ := snap_caplen opts.snaplen (chop opts.choplen phdr) hS
  refine ⟨?_, hedit phdr, ?_, (edit_phdr_caplen opts phdr).2, h3, h4, h5, ?_⟩
  · intro x hx
    obtain ⟨r, _, hr⟩ := written_main_write opts env selections records x hx
    rw [hr]; exact hedit r
  · intro hle
    rw [(edit_phdr_caplen opts phdr).1, h2 hle]
  · intro t1 t2
    unfold edit_phdr adjust_usecs adjust_secs
    simp only [t1, t2, ne_eq, not_true_eq_false, and_false, if_false]
    rw [h4, h5, (chop_keeps _ _).2.1, (chop_keeps _ _).2.2]
    exact ⟨rfl, rfl⟩

theorem snaplen_bounds_witness :
    snap_to_forty.snaplen > 0 ∧
    (edit_phdr snap_to_forty (record_at 1)).caplen ≤ snap_to_forty.snaplen ∧
    (edit_phdr snap_to_forty (record_at 1)).len = (record_at 1).len :=
  have h := snaplen_bounds snap_to_forty no_failure [] [] (record_at 1) (by decide)
  ⟨by decide, h.2.1, h.2.2.2.1⟩


/-! ## editcap: the error injection -/

theorem substitute_at_i_writes (weight other caplen : Nat) (s : InjectState)
    (hi : s.i < caplen) (hw : ∀ w ∈ s.writes, w < caplen) :
    (substitute_at_i weight other s).i = s.i ∧
    ∀ w ∈ (substitute_at_i weight other s).writes, w < caplen := by
  unfold substitute_at_i
  split_ifs
  · refine ⟨rfl, fun w hmem => ?_⟩
    rcases List.mem_append.mp hmem with h | h
    · exact hw w h
    · rw [List.mem_singleton.mp h]; exact hi
  · exact ⟨rfl, hw⟩

theorem substitute_fmt_writes (caplen : Nat) (s : InjectState)
    (h2 : 2 ≤ caplen) (h31 : caplen < 2 ^ 31)
    (hi : s.i < caplen) (hw : ∀ w ∈ s.writes, w < caplen) :
    (substitute_fmt caplen s).i = s.i ∧
    ∀ w ∈ (substitute_fmt caplen s).writes, w < caplen := by
  unfold substitute_fmt
  split_ifs with _ hc
  · refine ⟨rfl, fun w hmem => ?_⟩
    have hmod : (caplen + 2 ^ 32 - 2) % 2 ^ 32 = caplen - 2 := by omega
    have hmodi : s.i % 2 ^ 32 = s.i := Nat.mod_eq_of_lt (by omega)
    rw [hmod, hmodi] at hc
    rcases List.mem_append.mp hmem with h | h
    · exact hw w h
    · simp only [List.mem_cons, List.mem_singleton, List.not_mem_nil, or_false] at h
      omega
  · exact ⟨rfl, hw⟩
  · exact ⟨rfl, hw⟩

theorem fill_AA_writes (caplen : Nat) (s : InjectState)
    (hi : s.i < caplen) (hw : ∀ w ∈ s.writes, w < caplen) :
    s.i ≤ (fill_AA caplen s).i ∧ (fill_AA caplen s).i ≤ caplen ∧
    ∀ w ∈ (fill_AA caplen s).writes, w < caplen := by
  unfold fill_AA
  split_ifs
  · refine ⟨le_of_lt hi, le_refl _, fun w hmem => ?_⟩
    rcases List.mem_append.mp hmem with h | h
    · exact hw w h
    · rw [List.mem_range'_1] at h; omega
  · exact ⟨le_refl _, le_of_lt hi, hw⟩

theorem inject_at_writes (env : RandEnv) (caplen : Nat) (s : InjectState)
    (h2 : 2 ≤ caplen) (h31 : caplen < 2 ^ 31)
    (hi : s.i < caplen) (hw : ∀ w ∈ s.writes, w < caplen) :
    s.i ≤ (inject_at env caplen s).i ∧ (inject_at env caplen s).i ≤ caplen ∧
    ∀ w ∈ (inject_at env caplen s).writes, w < caplen := by
  unfold inject_at
  split_ifs
  · obtain ⟨a1, a2⟩ := substitute_at_i_writes ERR_WT_BIT ERR_WT_BYTE caplen
      { s with err_type := env.rand (s.draws + 1) / (env.RAND_MAX / ERR_WT_TOTAL + 1),
               draws := s.draws + 2 } hi hw
    obtain ⟨b1, b2⟩ := substitute_at_i_writes ERR_WT_BYTE ERR_WT_BYTE caplen _
      (by rw [a1]; exact hi) a2
    obtain ⟨c1, c2⟩ := substitute_at_i_writes ERR_WT_ALNUM ERR_WT_ALNUM caplen _
      (by rw [b1, a1]; exact hi) b2
    obtain ⟨d1, d2⟩ := substitute_fmt_writes caplen _ h2 h31
      (by rw [c1, b1, a1]; exact hi) c2
    obtain ⟨e1, e2, e3⟩ := fill_AA_writes caplen _ (by rw [d1, c1, b1, a1]; exact hi) d2
    rw [d1, c1, b1, a1] at e1
    exact ⟨e1, e2, e3⟩
  · exact ⟨le_refl _, le_of_lt hi, hw⟩

theorem inject_loop_writes (env : RandEnv) (caplen : Nat)
    (h2 : 2 ≤ caplen) (h31 : caplen < 2 ^ 31) :
    ∀ (fuel : Nat) (s : InjectState), 0 < fuel → caplen + 1 ≤ s.i + fuel →
      (∀ w ∈ s.writes, w < caplen) →
      ∃ t, inject_loop env caplen fuel s = some t ∧ ∀ w ∈ t.writes, w < caplen := by
  intro fuel
  induction fuel with
  | zero => intro s h; exact absurd h (by decide)
  | succ fuel ih =>
    intro s _ hfuel hw
    have hcap : int_of_caplen caplen = (caplen : Int) := by
      unfold int_of_caplen; rw [if_pos h31]
    rw [inject_loop, hcap]
    by_cases hi : (s.i : Int) < (caplen : Int)
    · rw [if_pos hi]
      have hi2 : s.i < caplen := by exact_mod_cast hi
      obtain ⟨a, b, c⟩ := inject_at_writes env caplen s h2 h31 hi2 hw
      exact ih _ (by omega) (by show caplen + 1 ≤ (inject_at env caplen s).i + 1 + fuel; omega) c
    · rw [if_neg hi]
      exact ⟨s, rfl, hw⟩

/-- For a record of at least two captured bytes the loop ends and writes only
to indices below the captured length. -/
theorem inject_errors_in_bounds (env : RandEnv) (caplen : Nat)
    (h2 : 2 ≤ caplen) (h31 : caplen < 2 ^ 31) :
    ∃ writes, inject_errors env caplen = some writes ∧ ∀ w ∈ writes, w < caplen := by
  obtain ⟨t, ht, hw⟩ := inject_loop_writes env caplen h2 h31 (caplen + 1)
    { i := 0, err_type := 0, draws := 0, writes := [] } (by omega)
    (by show caplen + 1 ≤ 0 + (caplen + 1); omega) (fun w h => absurd h (List.not_mem_nil w))
  exact ⟨t.writes, by simp [inject_errors, ht], hw⟩

/-- C29 fails for a record with one captured byte: when the draws choose the
substitution of "%s" at `i = 0`, the test `(unsigned int)i < phdr->caplen - 2`
compares 0 with 2^32 - 1 and `strcpy` writes the indices 0, 1 and 2, of which
1 and 2 are not below the captured length 1. -/
theorem fmt_written_past_one_byte :
    inject_errors rand_fmt 1 = some [0, 1, 2] ∧
    ¬ (∀ w ∈ [0, 1, 2], w < 1) := by
  decide


/-! ## editcap: the argument of `-t` -/

/-- C30 fails for a fraction of more than six digits: "1.1000000" is accepted
(the fraction passes the test `val > ONE_MILLION`), the loop that scales the
fraction does not run for seven digits, and `tv_usec` is 1000000, which is
neither below 1000000 nor the 100000 that 0.1000000 s are; "-0.0000005" gives
5 microseconds. The example "1.5" of the claim gives 1 and 500000. -/
theorem seven_digit_fraction :
    set_time_adjustment 9223372036854775807 no_adjustment "1.1000000".toList
      = some { tv_sec := 1, tv_usec := 1000000, is_negative := false } ∧
    set_time_adjustment 2147483647 no_adjustment "1.1000000".toList
      = some { tv_sec := 1, tv_usec := 1000000, is_negative := false } ∧
    digits_value "1000000".toList * 10 ^ 6 / 10 ^ "1000000".toList.length = 100000 ∧
    set_time_adjustment 9223372036854775807 no_adjustment "-0.0000005".toList
      = some { tv_sec := 0, tv_usec := 5, is_negative := true } ∧
    set_time_adjustment 9223372036854775807 no_adjustment "1.5".toList
      = some { tv_sec := 1, tv_usec := 500000, is_negative := false } := by
  decide


theorem digit_not_special (c : Char) (h : c.isDigit = true) :
    isspace c = false ∧ c ≠ '-' ∧ c ≠ '+' ∧ c ≠ '.' ∧ c ≠ ' ' ∧ c ≠ '\t' := by
  refine ⟨?_, ?_, ?_, ?_, ?_, ?_⟩
  · unfold isspace
    simp only [Bool.or_eq_false_iff, decide_eq_false_iff_not]
    refine ⟨⟨⟨⟨⟨?_, ?_⟩, ?_⟩, ?_⟩, ?_⟩, ?_⟩ <;> (rintro rfl; exact absurd h (by decide))
  all_goals (rintro rfl; exact absurd h (by decide))

theorem digit_value_le (c : Char) (h : c.isDigit = true) : c.toNat - 48 ≤ 9 := by
  unfold Char.isDigit at h
  simp only [Bool.and_eq_true, decide_eq_true_eq] at h
  have := h.2
  have h2 : c.val.toNat ≤ 57 := by exact_mod_cast (UInt32.le_def.mp this)
  show c.val.toNat - 48 ≤ 9
  omega

theorem atoi_digits_append (D rest : List Char) (hD : ∀ c ∈ D, c.isDigit = true)
    (hrest : ∀ c, rest.head? = some c → c.isDigit = false) :
    ∀ acc, atoi_digits (D ++ rest) acc = atoi_digits D acc := by
  induction D with
  | nil =>
    intro acc
    cases rest with
    | nil => rfl
    | cons c r => simp [atoi_digits, hrest c rfl]
  | cons d D ih =>
    intro acc
    have hd := hD d (List.mem_cons_self _ _)
    simp only [List.cons_append, atoi_digits, hd, if_true]
    exact ih (fun c hc => hD c (List.mem_cons_of_mem _ hc)) _

theorem count_digits_append (D rest : List Char) (hD : ∀ c ∈ D, c.isDigit = true)
    (hrest : ∀ c, rest.head? = some c → c.isDigit = false) :
    count_digits (D ++ rest) = D.length := by
  induction D with
  | nil =>
    cases rest with
    | nil => rfl
    | cons c r => simp [count_digits, hrest c rfl]
  | cons d D ih =>
    have hd := hD d (List.mem_cons_self _ _)
    have hi := ih (fun c hc => hD c (List.mem_cons_of_mem _ hc))
    rw [List.cons_append, count_digits, if_pos hd, hi, List.length_cons]

theorem atoi_digits_bound (D : List Char) (hD : ∀ c ∈ D, c.isDigit = true) :
    ∀ acc, atoi_digits D acc < (acc + 1) * 10 ^ D.length := by
  induction D with
  | nil => intro acc; simp [atoi_digits]
  | cons d D ih =>
    intro acc
    have hd := hD d (List.mem_cons_self _ _)
    have hv := digit_value_le d hd
    simp only [atoi_digits, hd, if_true, List.length_cons]
    have := ih (fun c hc => hD c (List.mem_cons_of_mem _ hc)) (acc * 10 + (d.toNat - 48))
    calc atoi_digits D (acc * 10 + (d.toNat - 48))
        < (acc * 10 + (d.toNat - 48) + 1) * 10 ^ D.length := this
      _ ≤ ((acc + 1) * 10) * 10 ^ D.length := Nat.mul_le_mul_right _ (by omega)
      _ = (acc + 1) * 10 ^ (D.length + 1) := by rw [pow_succ]; ring

theorem digits_value_lt (D : List Char) (hD : ∀ c ∈ D, c.isDigit = true) :
    digits_value D < 10 ^ D.length := by
  have := atoi_digits_bound D hD 0
  simpa [digits_value] using this

theorem scale_fraction_eq (val : Int) (d : Nat) (h : d ≤ 6) :
    scale_fraction 6 val d = val * 10 ^ (6 - d) := by
  interval_cases d <;> simp [scale_fraction] <;> ring

theorem strtol_digits (LONG_MAX : Int) (D rest : List Char) (hD : ∀ c ∈ D, c.isDigit = true)
    (hne : D ≠ []) (hrest : ∀ c, rest.head? = some c → c.isDigit = false)
    (hv : (digits_value D : Int) < LONG_MAX) :
    strtol LONG_MAX (D ++ rest) = ((digits_value D : Int), D.length) := by
  obtain ⟨d, D2, rfl⟩ := List.exists_cons_of_ne_nil hne
  obtain ⟨h1, h2, h3, _⟩ := digit_not_special d (hD d (List.mem_cons_self _ _))
  have hcount := count_digits_append (d :: D2) rest hD hrest
  have hval := atoi_digits_append (d :: D2) rest hD hrest 0
  have hn : (d :: D2).length ≠ 0 := by simp
  unfold strtol
  simp only [List.cons_append, List.takeWhile_cons, h1, Bool.false_eq_true, if_false,
    List.dropWhile_cons, List.head?_cons, Option.some.injEq, h2, h3, Option.isSome_none,
    List.length_nil, Nat.zero_add]
  rw [← List.cons_append, hcount, hval, if_neg hn]
  have hnn : (0 : Int) ≤ (digits_value (d :: D2) : Int) := Int.natCast_nonneg _
  simp only [digits_value] at hv hnn ⊢
  simp only [reduceCtorEq, if_false]
  rw [min_eq_right (le_of_lt hv), max_eq_right (by omega)]

theorem whole_seconds_digits (LONG_MAX : Int) (S F : List Char)
    (hS : ∀ c ∈ S, c.isDigit = true) (hmax : 1000000 < LONG_MAX)
    (hval : (digits_value S : Int) < LONG_MAX) :
    whole_seconds LONG_MAX (S ++ '.' :: F) = some ((digits_value S : Int), '.' :: F) := by
  unfold whole_seconds
  cases S with
  | nil => simp [digits_value, atoi_digits]
  | cons d S2 =>
    obtain ⟨_, _, _, h4, _⟩ := digit_not_special d (hS d (List.mem_cons_self _ _))
    have hrest : ∀ c, ('.' :: F).head? = some c → c.isDigit = false := by
      intro c hc
      simp only [List.head?_cons, Option.some.injEq] at hc
      rw [← hc]; decide
    have hst := strtol_digits LONG_MAX (d :: S2) ('.' :: F) hS (by simp) hrest hval
    have hnn : (0 : Int) ≤ (digits_value (d :: S2) : Int) := Int.natCast_nonneg _
    have hhead : ¬ ((d :: S2 ++ '.' :: F).head? = some '.') := by
      simp only [List.cons_append, List.head?_cons, Option.some.injEq]; exact h4
    rw [if_neg hhead, hst]
    have h1 : ¬ ((d :: S2).length = 0 ∨ (digits_value (d :: S2) : Int) = - LONG_MAX - 1
        ∨ (digits_value (d :: S2) : Int) = LONG_MAX) := by
      simp only [List.length_cons]
      omega
    have h2 : ¬ ((digits_value (d :: S2) : Int) < 0) := by omega
    simp only [h1, h2, if_false]
    rw [List.drop_left]

theorem fractional_seconds_digits (LONG_MAX : Int) (adj : time_adjustment) (F : List Char)
    (hF : ∀ c ∈ F, c.isDigit = true) (hF0 : F ≠ []) (hF6 : F.length ≤ 6)
    (hmax : 1000000 < LONG_MAX) :
    fractional_seconds LONG_MAX adj ('.' :: F)
      = some { adj with tv_usec := (digits_value F : Int) * 10 ^ (6 - F.length) } := by
  have hlt := digits_value_lt F hF
  have hpow : 10 ^ F.length ≤ 10 ^ 6 := Nat.pow_le_pow_right (by decide) hF6
  have hv6 : digits_value F < 1000000 := lt_of_lt_of_le hlt (by simpa using hpow)
  have hv : (digits_value F : Int) < LONG_MAX := by omega
  have hst := strtol_digits LONG_MAX F [] hF hF0 (fun c hc => absurd hc (by simp)) hv
  rw [List.append_nil] at hst
  rw [fractional_seconds, hst]
  have hc : ¬ ('.' ≠ '.' ∨ (digits_value F : Int) < 0 ∨ (digits_value F : Int) > ONE_MILLION
      ∨ (digits_value F : Int) = - LONG_MAX - 1 ∨ (digits_value F : Int) = LONG_MAX) := by
    unfold ONE_MILLION
    simp only [ne_eq, not_true_eq_false, false_or]
    omega
  rw [if_neg hc, scale_fraction_eq _ _ hF6]

/-- For an argument `[-]S.F` with `S` a possibly empty string of digits whose
value is below `LONG_MAX` and `F` a string of one to six digits,
`set_time_adjustment` sets `is_negative` when the `-` is there, `tv_sec` to the
value of `S` and `tv_usec` to the value of `F` times `10^(6 - length of F)`,
which is below 1000000. -/
theorem set_time_adjustment_six_digits (LONG_MAX : Int) (adj : time_adjustment)
    (negative : Bool) (S F : List Char)
    (hS : ∀ c ∈ S, c.isDigit = true) (hF : ∀ c ∈ F, c.isDigit = true)
    (hF0 : F ≠ []) (hF6 : F.length ≤ 6) (hmax : 1000000 < LONG_MAX)
    (hval : (digits_value S : Int) < LONG_MAX) :
    set_time_adjustment LONG_MAX adj ((if negative then ['-'] else []) ++ (S ++ '.' :: F))
      = some { tv_sec := (digits_value S : Int)
               tv_usec := (digits_value F : Int) * 10 ^ (6 - F.length)
               is_negative := negative || adj.is_negative } ∧
    (digits_value F : Int) * 10 ^ (6 - F.length) < 1000000 := by
  have hw := whole_seconds_digits LONG_MAX S F hS hmax hval
  constructor
  · unfold set_time_adjustment
    cases negative with
    | true =>
      have hsk : skip_blanks (['-'] ++ (S ++ '.' :: F)) = '-' :: (S ++ '.' :: F) := by
        simp [skip_blanks, List.dropWhile]
      simp only [if_true, hsk, List.head?_cons, List.drop_succ_cons, List.drop_zero, hw,
        Option.some_bind, Bool.true_or]
      rw [fractional_seconds_digits LONG_MAX _ F hF hF0 hF6 hmax]
    | false =>
      have hhead : ∃ c rest, S ++ '.' :: F = c :: rest ∧ c ≠ '-' ∧ c ≠ ' ' ∧ c ≠ '\t' := by
        cases S with
        | nil => exact ⟨'.', F, rfl, by decide, by decide, by decide⟩
        | cons d S2 =>
          obtain ⟨_, h2, _, _, h5, h6⟩ := digit_not_special d (hS d (List.mem_cons_self _ _))
          exact ⟨d, S2 ++ '.' :: F, rfl, h2, h5, h6⟩
      obtain ⟨c, rest, hcr, hc1, hc2, hc3⟩ := hhead
      have hsk : skip_blanks ([] ++ (S ++ '.' :: F)) = S ++ '.' :: F := by
        rw [List.nil_append, hcr]
        simp [skip_blanks, List.dropWhile, hc2, hc3]
      have hneg : ¬ ((S ++ '.' :: F).head? = some '-') := by
        rw [hcr]; simp only [List.head?_cons, Option.some.injEq]; exact hc1
      simp only [Bool.false_eq_true, if_false, hsk, hneg, hw, Option.some_bind, Bool.false_or]
      rw [fractional_seconds_digits LONG_MAX _ F hF hF0 hF6 hmax]
  · have hlt := digits_value_lt F hF
    have e : (10 : Int) ^ 6 = 10 ^ F.length * 10 ^ (6 - F.length) := by
      rw [← pow_add]; congr 1; omega
    have hpos : (0 : Int) < 10 ^ (6 - F.length) := by positivity
    have hlt2 : (digits_value F : Int) < 10 ^ F.length := by exact_mod_cast hlt
    calc (digits_value F : Int) * 10 ^ (6 - F.length)
        < 10 ^ F.length * 10 ^ (6 - F.length) := by
          exact mul_lt_mul_of_pos_right hlt2 hpos
      _ = 1000000 := by rw [← e]; norm_num

end Editcap

namespace Capinfos

/-! ## capinfos: the statistics of a file -/

theorem round_half_even_intCast (m : Int) : round_half_even (m : ℚ) = m := by
  unfold round_half_even
  rw [Int.floor_intCast, sub_self, if_pos (by norm_num)]

/-- An integer of magnitude below 2^53 is a `double`: rounding leaves it as it
is. -/
theorem round_double_intCast (n : Int) (h : |n| < 2 ^ 53) : round_double (n : ℚ) = n := by
  unfold round_double
  by_cases h0 : (n : ℚ) = 0
  · rw [if_pos h0, h0]
  · rw [if_neg h0]
    have hpos : (0 : ℚ) < |(n : ℚ)| := abs_pos.mpr h0
    have hlt : |(n : ℚ)| < (2 : ℚ) ^ (53 : ℤ) := by
      have : (|n| : ℤ) < 2 ^ 53 := h
      have h2 : ((|n| : ℤ) : ℚ) < ((2 ^ 53 : ℤ) : ℚ) := by exact_mod_cast this
      rw [Int.cast_abs] at h2
      calc |(n : ℚ)| < ((2 ^ 53 : ℤ) : ℚ) := h2
        _ = (2 : ℚ) ^ (53 : ℤ) := by norm_num
    have hlog : Int.log 2 |(n : ℚ)| < 53 := by
      have := (Int.lt_zpow_iff_log_lt (b := 2) (by norm_num) hpos (x := 53)).mp
        (by exact_mod_cast hlt)
      exact this
    obtain ⟨k, hk⟩ : ∃ k : ℕ, Int.log 2 |(n : ℚ)| - 52 = - (k : ℤ) :=
      ⟨(52 - Int.log 2 |(n : ℚ)|).toNat, by
        rw [Int.toNat_of_nonneg (by omega)]; ring⟩
    rw [hk, zpow_neg, zpow_natCast]
    have h2k : ((2 : ℚ) ^ k) ≠ 0 := pow_ne_zero _ (by norm_num)
    have e : (n : ℚ) / ((2 : ℚ) ^ k)⁻¹ = ((n * 2 ^ k : ℤ) : ℚ) := by
      rw [div_inv_eq_mul]; push_cast; ring
    rw [e, round_half_even_intCast]
    push_cast
    field_simp

theorem round_double_zero : round_double 0 = 0 := by
  simp [round_double]

theorem round_double_ofNat (n : Nat) (h : n < 2 ^ 53) : round_double (n : ℚ) = n := by
  have := round_double_intCast (n : Int) (by
    rw [abs_of_nonneg (Int.natCast_nonneg n)]; exact_mod_cast h)
  simpa using this

/-- The time of a record stamped with whole seconds below 2^53 is converted
without rounding. -/
theorem secs_nsecs_record_at (secs : Nat) (h : secs < 2 ^ 53) :
    secs_nsecs round_double (record_at secs) = secs := by
  unfold secs_nsecs record_at
  simp only [Int.cast_zero, round_double_zero, zero_div, zero_add, Int.cast_natCast]
  rw [round_double_ofNat secs h, round_double_ofNat secs h]

theorem int_log_eq (q : ℚ) (k : Int) (hq : 0 < q) (h1 : (2 : ℚ) ^ k ≤ q)
    (h2 : q < (2 : ℚ) ^ (k + 1)) : Int.log 2 q = k := by
  have a := (Int.zpow_le_iff_le_log (b := 2) (by norm_num) hq (x := k)).mp (by exact_mod_cast h1)
  have b := (Int.lt_zpow_iff_log_lt (b := 2) (by norm_num) hq (x := k + 1)).mp
    (by exact_mod_cast h2)
  omega

theorem round_half_even_up (x : ℚ) (f : Int) (h1 : (f : ℚ) + 1 / 2 < x) (h2 : x < (f : ℚ) + 1) :
    round_half_even x = f + 1 := by
  have hf : ⌊x⌋ = f := Int.floor_eq_iff.mpr ⟨by linarith, h2⟩
  unfold round_half_even
  rw [hf, if_neg (by linarith), if_pos (by linarith)]

/-- The conversion rounds: a record stamped 1700000000.999999999 s is given
the time 1700000001.0, the `double` nearest to the sum. -/
theorem secs_nsecs_rounds_up :
    secs_nsecs round_double
      { ts_secs := 1700000000, ts_nsecs := 999999999, caplen := 60, len := 60 }
      = 1700000001 := by
  have i1 : round_double ((999999999 : Int) : ℚ) = 999999999 := by
    unfold round_double
    have hl : Int.log 2 |((999999999 : Int) : ℚ)| = 29 := by
      apply int_log_eq <;> norm_num
    rw [if_neg (by norm_num), hl]
    have : ((999999999 : Int) : ℚ) / (2 : ℚ) ^ ((29 : Int) - 52)
        = ((999999999 * 2 ^ 23 : Int) : ℚ) := by norm_num
    rw [this]
    have hr : round_half_even ((999999999 * 2 ^ 23 : Int) : ℚ) = 999999999 * 2 ^ 23 := by
      unfold round_half_even
      rw [Int.floor_intCast, sub_self, if_pos (by norm_num)]
    rw [hr]
    norm_num
  have i2 : round_double ((1700000000 : Int) : ℚ) = 1700000000 := by
    unfold round_double
    have hl : Int.log 2 |((1700000000 : Int) : ℚ)| = 30 := by
      apply int_log_eq <;> norm_num
    rw [if_neg (by norm_num), hl]
    have : ((1700000000 : Int) : ℚ) / (2 : ℚ) ^ ((30 : Int) - 52)
        = ((1700000000 * 2 ^ 22 : Int) : ℚ) := by norm_num
    rw [this]
    have hr : round_half_even ((1700000000 * 2 ^ 22 : Int) : ℚ) = 1700000000 * 2 ^ 22 := by
      unfold round_half_even
      rw [Int.floor_intCast, sub_self, if_pos (by norm_num)]
    rw [hr]
    norm_num
  have i3 : round_double ((999999999 : ℚ) / 1000000000) = 9007199245733793 / 2 ^ 53 := by
    unfold round_double
    have hl : Int.log 2 |(999999999 : ℚ) / 1000000000| = -1 := by
      rw [abs_of_pos (by norm_num)]
      apply int_log_eq <;> norm_num
    rw [if_neg (by norm_num), hl]
    have hr : round_half_even ((999999999 : ℚ) / 1000000000 / (2 : ℚ) ^ ((-1 : Int) - 52))
        = 9007199245733792 + 1 := by
      apply round_half_even_up <;> norm_num
    rw [hr]
    norm_num
  have i4 : round_double ((9007199245733793 : ℚ) / 2 ^ 53 + 1700000000) = 1700000001 := by
    unfold round_double
    have hl : Int.log 2 |(9007199245733793 : ℚ) / 2 ^ 53 + 1700000000| = 30 := by
      rw [abs_of_pos (by norm_num)]
      apply int_log_eq <;> norm_num
    rw [if_neg (by norm_num), hl]
    have hr : round_half_even (((9007199245733793 : ℚ) / 2 ^ 53 + 1700000000)
        / (2 : ℚ) ^ ((30 : Int) - 52)) = 7130316804194303 + 1 := by
      apply round_half_even_up <;> norm_num
    rw [hr]
    norm_num
  unfold secs_nsecs
  simp only [i1, i2]
  rw [i3, i4]

theorem tally_snoc (fl : ℚ → ℚ) (l : List Editcap.wtap_pkthdr) (r : Editcap.wtap_pkthdr) :
    tally fl (l ++ [r]) = tally_record fl (tally fl l) r := by
  simp [tally, List.foldl_append]

/-- The variable `packet` counts the records read modulo 2^32. -/
theorem tally_packet (fl : ℚ → ℚ) (records : List Editcap.wtap_pkthdr) :
    (tally fl records).packet = records.length % 2 ^ 32 := by
  induction records using List.reverseRecOn with
  | nil => rfl
  | append_singleton l r ih =>
    rw [tally_snoc, List.length_append, List.length_singleton]
    simp only [tally_record, ih]
    exact Nat.mod_add_mod _ _ _

theorem cf_info_packet_count (fl : ℚ → ℚ) (records : List Editcap.wtap_pkthdr) :
    (cf_info_of fl records).packet_count = records.length % 2 ^ 32 := by
  rw [← tally_packet fl]; rfl

/-- C21 as stated fails for records that are not in time order: for a record
captured at 5 s followed by a record captured at 3 s, `process_cap_file`
reports the start time 3 s, not the 5 s of the first record, and the end time
5 s, not the 3 s of the last record. It also fails for the count of a file
of 2^32 records, which the 32-bit `packet` reports as 0. -/
theorem start_time_not_first :
    (cf_info_of round_double [record_at 5, record_at 3]).packet_count = 2 ∧
    (cf_info_of round_double [record_at 5, record_at 3]).start_time = 3 ∧
    secs_nsecs round_double (record_at 5) = 5 ∧
    (cf_info_of round_double [record_at 5, record_at 3]).stop_time = 5 ∧
    secs_nsecs round_double (record_at 3) = 3 ∧
    (cf_info_of round_double [record_at 5, record_at 3]).start_time
      ≠ secs_nsecs round_double (record_at 5) ∧
    (cf_info_of round_double [record_at 5, record_at 3]).stop_time
      ≠ secs_nsecs round_double (record_at 3) ∧
    (cf_info_of round_double (List.replicate (2 ^ 32) (record_at 1))).packet_count = 0 := by
  have h5 : secs_nsecs round_double (record_at 5) = 5 := by
    simpa using secs_nsecs_record_at 5 (by norm_num)
  have h3 : secs_nsecs round_double (record_at 3) = 3 := by
    simpa using secs_nsecs_record_at 3 (by norm_num)
  have hmany :
      (cf_info_of round_double (List.replicate (2 ^ 32) (record_at 1))).packet_count = 0 := by
    rw [cf_info_packet_count, List.length_replicate, Nat.mod_self]
  refine ⟨?_, ?_, h5, ?_, h3, ?_, ?_, hmany⟩ <;>
    simp only [cf_info_of, fill_cf_info, tally, List.foldl, tally_record, Tally.init, h5, h3] <;>
    norm_num

theorem tally_invariant (fl : ℚ → ℚ) (records : List Editcap.wtap_pkthdr) :
    records.length < 2 ^ 32 →
    (tally fl records).packet = records.length ∧
    (records ≠ [] →
      (∃ r ∈ records, (tally fl records).start_time = secs_nsecs fl r) ∧
      (∀ r ∈ records, (tally fl records).start_time ≤ secs_nsecs fl r) ∧
      (∃ r ∈ records, (tally fl records).stop_time = secs_nsecs fl r) ∧
      (∀ r ∈ records, secs_nsecs fl r ≤ (tally fl records).stop_time)) := by
  induction records using List.reverseRecOn with
  | nil => intro _; exact ⟨rfl, fun h => absurd rfl h⟩
  | append_singleton l r ih =>
    intro hlen
    rw [List.length_append, List.length_singleton] at hlen
    obtain ⟨hp, hrest⟩ := ih (by omega)
    rw [tally_snoc]
    have hpacket : (tally_record fl (tally fl l) r).packet = (l ++ [r]).length := by
      simp only [tally_record, hp, List.length_append, List.length_singleton]
      exact Nat.mod_eq_of_lt hlen
    refine ⟨hpacket, fun _ => ?_⟩
    by_cases hl : l = []
    · subst hl
      have h0 : (tally fl []).packet = 0 := rfl
      simp only [tally_record, h0, if_true, lt_self_iff_false, if_false, gt_iff_lt,
        List.nil_append, List.mem_singleton, exists_eq_left, forall_eq, le_refl, and_self]
    · obtain ⟨⟨a, ha, hsa⟩, hmin, ⟨b, hb, hsb⟩, hmax⟩ := hrest hl
      have hne : (tally fl l).packet ≠ 0 := by
        rw [hp]; exact fun h => hl (List.length_eq_zero.mp h)
      simp only [tally_record, hne, if_false, gt_iff_lt]
      refine ⟨?_, ?_, ?_, ?_⟩
      · by_cases hc : secs_nsecs fl r < (tally fl l).start_time
        · rw [if_pos hc]; exact ⟨r, by simp, rfl⟩
        · rw [if_neg hc]; exact ⟨a, List.mem_append_left _ ha, hsa⟩
      · intro x hx
        rcases List.mem_append.mp hx with hx | hx
        · have := hmin x hx
          by_cases hc : secs_nsecs fl r < (tally fl l).start_time
          · rw [if_pos hc]; exact le_trans (le_of_lt hc) this
          · rw [if_neg hc]; exact this
        · rw [List.mem_singleton.mp hx]
          by_cases hc : secs_nsecs fl r < (tally fl l).start_time
          · rw [if_pos hc]
          · rw [if_neg hc]; exact not_lt.mp hc
      · by_cases hc : (tally fl l).stop_time < secs_nsecs fl r
        · rw [if_pos hc]; exact ⟨r, by simp, rfl⟩
        · rw [if_neg hc]; exact ⟨b, List.mem_append_left _ hb, hsb⟩
      · intro x hx
        rcases List.mem_append.mp hx with hx | hx
        · have := hmax x hx
          by_cases hc : (tally fl l).stop_time < secs_nsecs fl r
          · rw [if_pos hc]; exact le_trans this (le_of_lt hc)
          · rw [if_neg hc]; exact this
        · rw [List.mem_singleton.mp hx]
          by_cases hc : (tally fl l).stop_time < secs_nsecs fl r
          · rw [if_pos hc]
          · rw [if_neg hc]; exact not_lt.mp hc

/-- The conversion `secs_nsecs` keeps the order of the time stamps when the
rounding `fl` is monotone and leaves the integers up to 2^53 as they are, as
the rounding to `double` does, for time stamps with seconds of magnitude up
to 2^53 and a fraction below one second. -/
theorem secs_nsecs_mono (fl : ℚ → ℚ) (hmono : ∀ a b : ℚ, a ≤ b → fl a ≤ fl b)
    (hint : ∀ k : Int, |k| ≤ 2 ^ 53 → fl (k : ℚ) = k)
    (a b : Editcap.wtap_pkthdr)
    (ha : |a.ts_secs| ≤ 2 ^ 53) (hb : |b.ts_secs| ≤ 2 ^ 53)
    (han : a.ts_nsecs < 1000000000) (hbn : 0 ≤ b.ts_nsecs)
    (h : a.ts_secs < b.ts_secs ∨ (a.ts_secs = b.ts_secs ∧ a.ts_nsecs ≤ b.ts_nsecs)) :
    secs_nsecs fl a ≤ secs_nsecs fl b := by
  unfold secs_nsecs
  apply hmono
  rcases h with h | ⟨hs, hn⟩
  · rw [hint _ ha, hint _ hb]
    have h0 : fl ((0 : Int) : ℚ) = ((0 : Int) : ℚ) := hint 0 (by norm_num)
    have h1 : fl ((1 : Int) : ℚ) = ((1 : Int) : ℚ) := hint 1 (by norm_num)
    have hG : fl ((1000000000 : Int) : ℚ) = ((1000000000 : Int) : ℚ) :=
      hint 1000000000 (by norm_num)
    have u1 : fl (a.ts_nsecs : ℚ) ≤ 1000000000 := by
      have := hmono (a.ts_nsecs : ℚ) ((1000000000 : Int) : ℚ) (by exact_mod_cast le_of_lt han)
      rw [hG] at this
      exact_mod_cast this
    have u2 : fl (fl (a.ts_nsecs : ℚ) / 1000000000) ≤ 1 := by
      have := hmono (fl (a.ts_nsecs : ℚ) / 1000000000) ((1 : Int) : ℚ) (by
        rw [div_le_iff₀ (by norm_num)]; push_cast; linarith)
      rw [h1] at this
      exact_mod_cast this
    have l1 : 0 ≤ fl (b.ts_nsecs : ℚ) := by
      have := hmono ((0 : Int) : ℚ) (b.ts_nsecs : ℚ) (by exact_mod_cast hbn)
      rw [h0] at this
      exact_mod_cast this
    have l2 : 0 ≤ fl (fl (b.ts_nsecs : ℚ) / 1000000000) := by
      have := hmono ((0 : Int) : ℚ) (fl (b.ts_nsecs : ℚ) / 1000000000) (by
        push_cast; exact div_nonneg l1 (by norm_num))
      rw [h0] at this
      exact_mod_cast this
    have hs : (a.ts_secs : ℚ) + 1 ≤ (b.ts_secs : ℚ) := by exact_mod_cast h
    linarith
  · rw [hs]
    have := hmono _ _ (hmono (a.ts_nsecs : ℚ) (b.ts_nsecs : ℚ) (by exact_mod_cast hn))
    have := hmono (fl (a.ts_nsecs : ℚ) / 1000000000) (fl (b.ts_nsecs : ℚ) / 1000000000)
      (div_le_div_of_nonneg_right
        (hmono (a.ts_nsecs : ℚ) (b.ts_nsecs : ℚ) (by exact_mod_cast hn)) (by norm_num))
    linarith

/-- C21, amended: for every non-empty sequence of fewer than 2^32 records,
`process_cap_file` reports as packet count the number of records read, as
start time the earliest and as end time the latest of the time stamps of the
records read, as `secs_nsecs` converts them to `double`, whatever the rounding
of the `double` arithmetic is; when the converted time stamps are in
non-decreasing order these are the converted time stamps of the first and of
the last record read. -/
theorem process_cap_file_times (fl : ℚ → ℚ) (records : List Editcap.wtap_pkthdr)
    (hne : records ≠ []) (hlen : records.length < 2 ^ 32) :
    (cf_info_of fl records).packet_count = records.length ∧
    (∃ r ∈ records, (cf_info_of fl records).start_time = secs_nsecs fl r) ∧
    (∀ r ∈ records, (cf_info_of fl records).start_time ≤ secs_nsecs fl r) ∧
    (∃ r ∈ records, (cf_info_of fl records).stop_time = secs_nsecs fl r) ∧
    (∀ r ∈ records, secs_nsecs fl r ≤ (cf_info_of fl records).stop_time) ∧
    ((records.map (secs_nsecs fl)).Pairwise (fun a b => a ≤ b) →
      (cf_info_of fl records).start_time = secs_nsecs fl (records.head hne) ∧
      (cf_info_of fl records).stop_time = secs_nsecs fl (records.getLast hne)) := by
  obtain ⟨hp, hrest⟩ := tally_invariant fl records hlen
  obtain ⟨⟨a, ha, hsa⟩, hmin, ⟨b, hb, hsb⟩, hmax⟩ := hrest hne
  refine ⟨hp, ⟨a, ha, hsa⟩, hmin, ⟨b, hb, hsb⟩, hmax, fun hsorted => ⟨?_, ?_⟩⟩
  · apply le_antisymm (hmin _ (List.head_mem hne))
    show secs_nsecs fl (records.head hne) ≤ (tally fl records).start_time
    rw [hsa]
    obtain ⟨x, rest, rfl⟩ := List.exists_cons_of_ne_nil hne
    rcases List.mem_cons.mp ha with h | h
    · rw [h]; exact le_refl _
    · rw [List.map_cons, List.pairwise_cons] at hsorted
      exact hsorted.1 _ (List.mem_map_of_mem _ h)
  · apply le_antisymm _ (hmax _ (List.getLast_mem hne))
    show (tally fl records).stop_time ≤ secs_nsecs fl (records.getLast hne)
    rw [hsb]
    have hsplit := List.dropLast_append_getLast hne
    rw [← hsplit] at hb hsorted
    rcases List.mem_append.mp hb with h | h
    · rw [List.map_append, List.pairwise_append] at hsorted
      exact hsorted.2.2 _ (List.mem_map_of_mem _ h) _ (by simp)
    · rw [List.mem_singleton.mp h]

theorem process_cap_file_times_witness :
    [record_at 3, record_at 5] ≠ [] ∧
    (cf_info_of round_double [record_at 3, record_at 5]).packet_count = 2 ∧
    (∀ r ∈ [record_at 3, record_at 5],
      (cf_info_of round_double [record_at 3, record_at 5]).start_time
        ≤ secs_nsecs round_double r) ∧
    (cf_info_of round_double [record_at 3, record_at 5]).start_time = 3 ∧
    (cf_info_of round_double [record_at 3, record_at 5]).stop_time = 5 :=
  have h := process_cap_file_times round_double [record_at 3, record_at 5]
    (by decide) (by decide)
  have h5 : secs_nsecs round_double (record_at 5) = 5 := by
    simpa using secs_nsecs_record_at 5 (by norm_num)
  have h3 : secs_nsecs round_double (record_at 3) = 3 := by
    simpa using secs_nsecs_record_at 3 (by norm_num)
  have hs : ([record_at 3, record_at 5].map (secs_nsecs round_double)).Pairwise
      (fun a b => a ≤ b) := by
    simp only [List.map_cons, List.map_nil, h3, h5]
    norm_num
  ⟨by decide, h.1, h.2.2.1,
   by rw [(h.2.2.2.2.2 hs).1]; exact h3,
   by rw [(h.2.2.2.2.2 hs).2]; exact h5⟩


/-! ## capinfos: the options -/

theorem after_last_A_snoc (opts : List Opt) (opt : Opt) :
    after_last_A (opts ++ [opt]) = if opt = Opt.A then [] else after_last_A opts ++ [opt] := by
  unfold after_last_A
  by_cases h : opt = Opt.A
  · simp [h, List.takeWhile]
  · simp [h, List.takeWhile]

theorem is_info_option_letter (k : Info) : is_info_option k.letter = true := by
  cases k <;> rfl

theorem letter_of_is_info_option (opt : Opt) (h : is_info_option opt = true) :
    ∃ k : Info, opt = k.letter := by
  cases opt <;> first
    | exact absurd h (by decide)
    | exact ⟨Info.cap_file_type, rfl⟩
    | exact ⟨Info.cap_file_encap, rfl⟩
    | exact ⟨Info.cap_packet_count, rfl⟩
    | exact ⟨Info.cap_file_size, rfl⟩
    | exact ⟨Info.cap_data_size, rfl⟩
    | exact ⟨Info.cap_duration, rfl⟩
    | exact ⟨Info.cap_start_time, rfl⟩
    | exact ⟨Info.cap_end_time, rfl⟩
    | exact ⟨Info.cap_data_rate_byte, rfl⟩
    | exact ⟨Info.cap_data_rate_bit, rfl⟩
    | exact ⟨Info.cap_packet_size, rfl⟩
    | exact ⟨Info.cap_packet_rate, rfl⟩

theorem letter_injective (i k : Info) : i.letter = k.letter ↔ i = k := by
  cases i <;> cases k <;> decide

theorem process_option_info (f : Flags) (k : Info) :
    (process_option f k.letter).report_all_infos = false ∧
    ∀ i, (process_option f k.letter).get i
      = if f.report_all_infos then decide (i = k) else (f.get i || decide (i = k)) := by
  cases hf : f.report_all_infos <;> cases k <;>
    refine ⟨by simp [process_option, Info.letter, start_info_option, hf, disable_all_infos],
      fun i => ?_⟩ <;>
    cases i <;> simp [process_option, Info.letter, start_info_option, hf, disable_all_infos,
      Flags.get]

theorem process_option_other (f : Flags) (opt : Opt) (h1 : is_info_option opt = false)
    (h2 : opt ≠ Opt.A) : process_option f opt = f := by
  cases opt <;> first | rfl | exact absurd h1 (by decide) | exact absurd rfl h2

theorem process_options_snoc (opts : List Opt) (opt : Opt) :
    process_options (opts ++ [opt]) = process_option (process_options opts) opt := by
  simp [process_options, List.foldl_append]

theorem process_options_spec (opts : List Opt) :
    (process_options opts).report_all_infos
      = (after_last_A opts).all (fun opt => !is_info_option opt) ∧
    ∀ i, (process_options opts).get i = infos_named opts i := by
  induction opts using List.reverseRecOn with
  | nil => exact ⟨rfl, fun i => by cases i <;> rfl⟩
  | append_singleton opts opt ih =>
    obtain ⟨ih1, ih2⟩ := ih
    rw [process_options_snoc]
    unfold infos_named at ih2 ⊢
    rw [after_last_A_snoc]
    by_cases hA : opt = Opt.A
    · subst hA
      exact ⟨rfl, fun i => by cases i <;> rfl⟩
    · rw [if_neg hA]
      cases hinfo : is_info_option opt
      · rw [process_option_other _ _ hinfo hA]
        have hall : (after_last_A opts ++ [opt]).all (fun opt => !is_info_option opt)
            = (after_last_A opts).all (fun opt => !is_info_option opt) := by
          simp [List.all_append, hinfo]
        rw [hall]
        refine ⟨ih1, fun i => ?_⟩
        rw [ih2 i]
        have hne : i.letter ≠ opt := by
          intro e; rw [← e, is_info_option_letter] at hinfo; exact absurd hinfo (by decide)
        simp [List.mem_append, hne]
      · obtain ⟨k, rfl⟩ := letter_of_is_info_option opt hinfo
        obtain ⟨h1, h2⟩ := process_option_info (process_options opts) k
        have hall : (after_last_A opts ++ [k.letter]).all (fun opt => !is_info_option opt)
            = false := by
          simp [List.all_append, hinfo]
        rw [hall]
        refine ⟨h1, fun i => ?_⟩
        rw [h2 i, ih1]
        cases hprev : (after_last_A opts).all (fun opt => !is_info_option opt)
        · have := ih2 i
          rw [hprev] at this
          simp only [Bool.false_eq_true, if_false] at this ⊢
          rw [this]
          simp [List.mem_append, letter_injective]
        · simp only [if_true, Bool.false_eq_true, if_false]
          have hnot : i.letter ∉ after_last_A opts := by
            intro hmem
            have := List.all_eq_true.mp hprev _ hmem
            rw [is_info_option_letter] at this
            exact absurd this (by decide)
          simp [List.mem_append, hnot, letter_injective]

/-- C22: after the options are processed from left to right, every one of the
twelve infos is reported when no info option follows the last `-A` (or no info
option is given at all); otherwise the infos reported are exactly those named
by the info options after the last `-A` (all info options when there is no
`-A`). -/
theorem infos_reported (opts : List Opt) (i : Info) :
    (process_options opts).get i
      = (if (after_last_A opts).all (fun opt => !is_info_option opt) then true
         else decide (i.letter ∈ after_last_A opts)) ∧
    (Opt.A ∉ opts → after_last_A opts = opts) ∧
    (∀ before after, opts = before ++ Opt.A :: after → Opt.A ∉ after →
      after_last_A opts = after) := by
  refine ⟨(process_options_spec opts).2 i, ?_, ?_⟩
  · intro h
    unfold after_last_A
    rw [List.takeWhile_eq_self_iff.mpr, List.reverse_reverse]
    intro o ho
    have ho2 : o ∈ opts := List.mem_reverse.mp ho
    simp only [bne_iff_ne, ne_eq]
    intro e; rw [e] at ho2; exact h ho2
  · intro before after h hA
    subst h
    unfold after_last_A
    rw [List.reverse_append, List.reverse_cons, List.append_assoc, List.takeWhile_append_of_pos]
    · simp [List.takeWhile]
    · intro o ho
      have ho2 : o ∈ after := List.mem_reverse.mp ho
      simp only [bne_iff_ne, ne_eq]
      intro e; rw [e] at ho2; exact hA ho2

theorem infos_reported_witness :
    Opt.A ∉ [Opt.c, Opt.T] ∧
    after_last_A ([Opt.t] ++ Opt.A :: [Opt.c, Opt.T]) = [Opt.c, Opt.T] ∧
    (process_options [Opt.t, Opt.A, Opt.c, Opt.T]).get Info.cap_packet_count = true ∧
    (process_options [Opt.t, Opt.A, Opt.c, Opt.T]).get Info.cap_file_type = false :=
  ⟨by decide,
   (infos_reported ([Opt.t] ++ Opt.A :: [Opt.c, Opt.T]) Info.cap_packet_count).2.2
     [Opt.t] [Opt.c, Opt.T] rfl (by decide),
   by decide, by decide⟩

end Capinfos

namespace Smtp

/-! ### An empty message, vendor commands, responses -/

theorem line_found_DATA (d : Bool) :
    tvb_find_line_end (tvb_of "DATA\r\n") 0 d = some (4, 6) := by
  cases d <;> decide

/-- After the client segment "DATA" CR LF, seen for the first time while
`reading_data` is FALSE, the conversation is reading message data, with
`crlf_seen` as it was. -/
theorem after_DATA (env : Env) (p : packet_info) (st : SmtpState)
    (hreq : is_request p = true)
    (hfirst : p_get_proto_data st.frame_data p.fd_num = none)
    (hrd : reading_data_of st p = false) :
    current_request_val (dissect_smtp env (tvb_of "DATA\r\n") p st).st p
      = { reading_data := true, crlf_seen := crlf_seen_of st p, data_seen := 1 } ∧
    ∀ m, m ≠ p.fd_num →
      p_get_proto_data (dissect_smtp env (tvb_of "DATA\r\n") p st).st.frame_data m
        = p_get_proto_data st.frame_data m := by
  obtain ⟨d, _, _, _, hrv⟩ := dissect_request_first env (tvb_of "DATA\r\n") p st 4 6
    (line_found_DATA _) hfirst hreq
  rw [check_eom_not_reading _ _ hrd] at hrv
  have hcl := (classify_not_reading 4 (tvb_get_ptr (tvb_of "DATA\r\n") 0 4)
    (current_request_val st p) hrd).1 ⟨le_refl 4, by decide, Or.inl rfl⟩
  refine ⟨?_, ?_⟩
  · rw [hrv, hcl]; rfl
  · intro m hm
    exact dissect_smtp_other_frame env _ p st m hm

/-- From a state in which `crlf_seen` is set, the client
segment "DATA" CR LF followed by a client segment beginning "." CR LF ends
with `reading_data` FALSE and the second segment classified `SMTP_PDU_EOM`. -/
theorem data_then_dot_is_eom (env : Env) (p1 p2 : packet_info) (tvb2 : tvbuff_t)
    (st : SmtpState)
    (hreq1 : is_request p1 = true) (hreq2 : is_request p2 = true)
    (hconv : same_conv p1 p2 = true) (hnum : p2.fd_num ≠ p1.fd_num)
    (hf1 : p_get_proto_data st.frame_data p1.fd_num = none)
    (hf2 : p_get_proto_data st.frame_data p2.fd_num = none)
    (hrd : reading_data_of st p1 = false) (hcrlf : crlf_seen_of st p1 ≠ 0)
    (hdot : bytes ".\r\n" <+: tvb2.data) :
    frame_pdu_type
      (dissect_smtp env tvb2 p2 (dissect_smtp env (tvb_of "DATA\r\n") p1 st).st).st p2
        = some SMTP_PDU_EOM ∧
    reading_data_of
      (dissect_smtp env tvb2 p2 (dissect_smtp env (tvb_of "DATA\r\n") p1 st).st).st p2
        = false := by
  obtain ⟨hrv, hfd⟩ := after_DATA env p1 st hreq1 hf1 hrd
  have hc : same_conv p2 p1 = true := by rw [same_conv_symm]; exact hconv
  have hrv2 := current_request_val_congr (dissect_smtp env (tvb_of "DATA\r\n") p1 st).st p2 p1 hc
  have hf2' : p_get_proto_data (dissect_smtp env (tvb_of "DATA\r\n") p1 st).st.frame_data
      p2.fd_num = none := by rw [hfd _ hnum]; exact hf2
  have hrd2 : reading_data_of (dissect_smtp env (tvb_of "DATA\r\n") p1 st).st p2 = true := by
    unfold reading_data_of; rw [hrv2, hrv]
  have hcr2 : crlf_seen_of (dissect_smtp env (tvb_of "DATA\r\n") p1 st).st p2
      = crlf_seen_of st p1 := by
    unfold crlf_seen_of; rw [hrv2, hrv]; rfl
  apply (eom_iff env tvb2 p2 _ hreq2 hf2' hrd2).mpr
  rw [hcr2]
  exact Or.inr ⟨hdot, hcrlf⟩

/-- C32 fails in a conversation whose `crlf_seen` is 0, as in every new
conversation: after the client segment "DATA" CR LF the conversation is
reading message data with `crlf_seen` still 0, and the client segment "."
CR LF that follows is classified `SMTP_PDU_MESSAGE` and leaves `reading_data`
TRUE. From a state in which `crlf_seen` is set the same two segments end
with `SMTP_PDU_EOM` and `reading_data` FALSE. -/
theorem data_then_dot_not_eom :
    reading_data_of empty_state (client_frame 1) = false ∧
    crlf_seen_of empty_state (client_frame 1) = 0 ∧
    crlf_seen_of
      (dissect_smtp env_default (tvb_of "DATA\r\n") (client_frame 1) empty_state).st
      (client_frame 1) = 0 ∧
    frame_pdu_type
      (dissect_all env_default
        [⟨tvb_of "DATA\r\n", client_frame 1⟩, ⟨tvb_of ".\r\n", client_frame 2⟩] empty_state)
      (client_frame 2) = some SMTP_PDU_MESSAGE ∧
    reading_data_of
      (dissect_all env_default
        [⟨tvb_of "DATA\r\n", client_frame 1⟩, ⟨tvb_of ".\r\n", client_frame 2⟩] empty_state)
      (client_frame 2) = true ∧
    reading_data_of
      (dissect_all env_no_desegment
        [⟨tvb_of "DATA\r\n", client_frame 1⟩, ⟨tvb_of ".\r\n", client_frame 2⟩] empty_state)
      (client_frame 2) = true ∧
    reading_data_of message_sent_state (client_frame 4) = false ∧
    crlf_seen_of message_sent_state (client_frame 4) = 1 ∧
    frame_pdu_type
      (dissect_all env_default
        [⟨tvb_of "DATA\r\n", client_frame 4⟩, ⟨tvb_of ".\r\n", client_frame 5⟩]
        message_sent_state)
      (client_frame 5) = some SMTP_PDU_EOM := by
  decide


/-! ### Revisited frames -/

/-- C34: when the frame already carries per-frame SMTP data, `dissect_smtp`
leaves the dissector state as it is, so that `reading_data`, `crlf_seen` and
`data_seen` of every conversation are unchanged, whatever the state is
(whatever was dissected in between); the per-frame data stay attached, and,
when a first line is found, the data used for the display are the stored
ones, with the stored `pdu_type`. Hence dissecting a client frame a second
time leaves the state as the first dissection left it. -/
theorem revisit_keeps_state (env : Env) (tvb : tvbuff_t) (pinfo : packet_info)
    (st : SmtpState) :
    (∀ fd, p_get_proto_data st.frame_data pinfo.fd_num = some fd →
      (dissect_smtp env tvb pinfo st).st = st ∧
      (∀ q : packet_info,
        reading_data_of (dissect_smtp env tvb pinfo st).st q = reading_data_of st q ∧
        crlf_seen_of (dissect_smtp env tvb pinfo st).st q = crlf_seen_of st q ∧
        data_seen_of (dissect_smtp env tvb pinfo st).st q = data_seen_of st q) ∧
      frame_pdu_type (dissect_smtp env tvb pinfo st).st pinfo = some fd.pdu_type ∧
      (∀ linelen next_offset,
        tvb_find_line_end tvb 0 (env.smtp_desegment && pinfo.can_desegment != 0)
          = some (linelen, next_offset) →
        (dissect_smtp env tvb pinfo st).frame_data = some fd ∧
        (dissect_smtp env tvb pinfo st).display
          = (add_items env tvb pinfo (is_request pinfo) (some fd) linelen next_offset
              (tvb_get_ptr tvb 0 linelen)).1)) ∧
    (is_request pinfo = true →
      (dissect_smtp env tvb pinfo (dissect_smtp env tvb pinfo st).st).st
        = (dissect_smtp env tvb pinfo st).st ∧
      ∀ q : packet_info,
        current_request_val (dissect_smtp env tvb pinfo (dissect_smtp env tvb pinfo st).st).st q
          = current_request_val (dissect_smtp env tvb pinfo st).st q) := by
  constructor
  · intro fd hf
    have hst := dissect_smtp_revisit env tvb pinfo st fd hf
    refine ⟨hst, ?_, ?_, ?_⟩
    · intro q; rw [hst]; exact ⟨rfl, rfl, rfl⟩
    · rw [hst]; simp [frame_pdu_type, hf]
    · intro linelen next_offset hline
      simp [dissect_smtp, hline, hf]
  · intro hreq
    have key : (dissect_smtp env tvb pinfo (dissect_smtp env tvb pinfo st).st).st
        = (dissect_smtp env tvb pinfo st).st := by
      cases hline : tvb_find_line_end tvb 0 (env.smtp_desegment && pinfo.can_desegment != 0) with
      | none =>
        rw [(dissect_smtp_no_line env tvb pinfo st hline).1,
          (dissect_smtp_no_line env tvb pinfo st hline).1]
      | some r =>
        obtain ⟨linelen, next_offset⟩ := r
        cases hf : p_get_proto_data st.frame_data pinfo.fd_num with
        | some fd =>
          rw [dissect_smtp_revisit env tvb pinfo st fd hf,
            dissect_smtp_revisit env tvb pinfo st fd hf]
        | none =>
          obtain ⟨d, _, hfd, _, _⟩ :=
            dissect_request_first env tvb pinfo st linelen next_offset hline hf hreq
          have hf2 : p_get_proto_data (dissect_smtp env tvb pinfo st).st.frame_data pinfo.fd_num
              = some d := by
            rw [hfd, p_get_proto_data_add, if_pos rfl]
          exact dissect_smtp_revisit env tvb pinfo _ d hf2
    exact ⟨key, fun q => by rw [key]⟩

theorem revisit_keeps_state_witness :
    frame_pdu_type message_sent_state (client_frame 2) = some SMTP_PDU_MESSAGE ∧
    reading_data_of message_sent_state (client_frame 2) = false ∧
    (dissect_smtp env_default (tvb_of "Hello\r\n") (client_frame 2) message_sent_state).st
      = message_sent_state ∧
    frame_pdu_type
      (dissect_smtp env_default (tvb_of "Hello\r\n") (client_frame 2) message_sent_state).st
      (client_frame 2) = some SMTP_PDU_MESSAGE ∧
    (dissect_smtp env_default (tvb_of "DATA\r\n") (client_frame 1)
      (dissect_smtp env_default (tvb_of "DATA\r\n") (client_frame 1) empty_state).st).st
      = (dissect_smtp env_default (tvb_of "DATA\r\n") (client_frame 1) empty_state).st :=
  have h := revisit_keeps_state env_default (tvb_of "Hello\r\n") (client_frame 2)
    message_sent_state
  have k := revisit_keeps_state env_default (tvb_of "DATA\r\n") (client_frame 1) empty_state
  ⟨by decide, by decide,
   (h.1 { pdu_type := SMTP_PDU_MESSAGE, conversation_id := 0 } (by decide)).1,
   (h.1 { pdu_type := SMTP_PDU_MESSAGE, conversation_id := 0 } (by decide)).2.2.1,
   (k.2 (by decide)).1⟩


/-! ### `crlf_seen` after a body segment -/

/-- C35 as stated fails for a segment without a complete line while line
desegmentation is on: after "DATA" CR LF and "Hello" CR LF the conversation
is reading message data with `crlf_seen` 1; the client segment "abc",
captured in full and not ending in CR LF, has no line end, `dissect_smtp`
asks for more data and `crlf_seen` stays 1. With line desegmentation off the
same segment sets `crlf_seen` to 0. -/
theorem no_line_keeps_crlf_seen :
    is_request (client_frame 3) = true ∧
    p_get_proto_data body_line_sent_state.frame_data (client_frame 3).fd_num = none ∧
    reading_data_of body_line_sent_state (client_frame 3) = true ∧
    crlf_seen_of body_line_sent_state (client_frame 3) = 1 ∧
    ¬ ((tvb_of "abc").reported_length = (tvb_of "abc").data.length ∧
        bytes "\r\n" <:+ (tvb_of "abc").data) ∧
    tvb_find_line_end (tvb_of "abc") 0
      (env_default.smtp_desegment && (client_frame 3).can_desegment != 0) = none ∧
    crlf_seen_of
      (dissect_smtp env_default (tvb_of "abc") (client_frame 3) body_line_sent_state).st
      (client_frame 3) = 1 ∧
    (dissect_smtp env_default (tvb_of "abc") (client_frame 3)
      body_line_sent_state).pinfo.desegment_len = 1 ∧
    crlf_seen_of
      (dissect_smtp env_no_desegment (tvb_of "abc") (client_frame 3) body_line_sent_state).st
      (client_frame 3) = 0 := by
  decide

/-- C35, amended: a client segment delivered to `dissect_smtp` for the first
time while `reading_data` is TRUE, in which a first line is found, sets
`crlf_seen` to 1 exactly when the segment is fully captured and its last two
bytes are CR LF, and to 0 otherwise. A first line is found in every segment
when line desegmentation is not in effect; when it is in effect and the
segment has no line end, `dissect_smtp` asks for more data and leaves
`crlf_seen` as it was. -/
theorem crlf_seen_after_body_segment (env : Env) (tvb : tvbuff_t) (pinfo : packet_info)
    (st : SmtpState)
    (hreq : is_request pinfo = true)
    (hfirst : p_get_proto_data st.frame_data pinfo.fd_num = none)
    (hrd : reading_data_of st pinfo = true) :
    (tvb_find_line_end tvb 0 (env.smtp_desegment && pinfo.can_desegment != 0) ≠ none →
      crlf_seen_of (dissect_smtp env tvb pinfo st).st pinfo
        = if tvb.reported_length = tvb.data.length ∧ bytes "\r\n" <:+ tvb.data then 1 else 0) ∧
    ((env.smtp_desegment && pinfo.can_desegment != 0) = false →
      tvb_find_line_end tvb 0 (env.smtp_desegment && pinfo.can_desegment != 0) ≠ none) ∧
    (tvb_find_line_end tvb 0 (env.smtp_desegment && pinfo.can_desegment != 0) = none →
      crlf_seen_of (dissect_smtp env tvb pinfo st).st pinfo = crlf_seen_of st pinfo ∧
      (dissect_smtp env tvb pinfo st).pinfo.desegment_len = 1) := by
  refine ⟨?_, ?_, ?_⟩
  · intro hline
    cases hl : tvb_find_line_end tvb 0 (env.smtp_desegment && pinfo.can_desegment != 0) with
    | none => exact absurd hl hline
    | some r =>
      obtain ⟨linelen, next_offset⟩ := r
      obtain ⟨d, _, _, _, hrv⟩ :=
        dissect_request_first env tvb pinfo st linelen next_offset hl hfirst hreq
      have hcl := classify_reading tvb linelen (tvb_get_ptr tvb 0 linelen)
        (current_request_val st pinfo) hrd
      unfold crlf_seen_of
      rw [hrv, hcl]
      by_cases he : ends_with_crlf tvb = true
      · have hc := (ends_with_crlf_iff tvb).mp he
        rw [if_pos hc]
        by_cases hm : eom_condition tvb (current_request_val st pinfo).crlf_seen = true
        · rw [if_pos hm]; simp [he]
        · rw [if_neg hm]; simp [he]
      · have hc : ¬ (tvb.reported_length = tvb.data.length ∧ bytes "\r\n" <:+ tvb.data) :=
          fun h => he ((ends_with_crlf_iff tvb).mpr h)
        rw [if_neg hc]
        by_cases hm : eom_condition tvb (current_request_val st pinfo).crlf_seen = true
        · rw [if_pos hm]; simp [he]
        · rw [if_neg hm]; simp [he]
  · intro hd
    rw [hd]
    exact tvb_find_line_end_no_desegment tvb 0
  · intro hl
    rw [(dissect_smtp_no_line env tvb pinfo st hl).1]
    refine ⟨rfl, ?_⟩
    simp [dissect_smtp, hl]

theorem crlf_seen_after_body_segment_witness :
    crlf_seen_of reading_body_state (client_frame 2) = 0 ∧
    crlf_seen_of
      (dissect_smtp env_default (tvb_of "Hello\r\n") (client_frame 2) reading_body_state).st
      (client_frame 2) = 1 ∧
    crlf_seen_of
      (dissect_smtp env_default (tvb_of "Hello\r\nwor") (client_frame 3)
        body_line_sent_state).st
      (client_frame 3) = 0 :=
  have h := crlf_seen_after_body_segment env_default (tvb_of "Hello\r\n") (client_frame 2)
    reading_body_state (by decide) (by decide) (by decide)
  have k := crlf_seen_after_body_segment env_default (tvb_of "Hello\r\nwor") (client_frame 3)
    body_line_sent_state (by decide) (by decide) (by decide)
  ⟨by decide,
   by rw [h.1 (by decide)]; decide,
   by rw [k.1 (by decide)]; decide⟩


/-! ### Vendor commands -/

theorem strncasecmp_eq_zero_iff (tok : List Nat) (htok : ∀ c ∈ tok, tolower c ≠ 0) :
    ∀ line : List Nat, strncasecmp line tok tok.length = 0
      ↔ (tok.length ≤ line.length ∧ (line.take tok.length).map tolower = tok.map tolower) := by
  induction tok with
  | nil => intro line; simp [strncasecmp]
  | cons y b ih =>
    intro line
    have hy : tolower y ≠ 0 := htok y (List.mem_cons_self y b)
    have hb : ∀ c ∈ b, tolower c ≠ 0 := fun c hc => htok c (List.mem_cons_of_mem y hc)
    cases line with
    | nil =>
      have := strncasecmp_nil b b.length y hy
      simp [this]
    | cons x a =>
      rw [List.length_cons, strncasecmp_step x y a b b.length hy, ih hb a]
      simp only [List.length_cons, List.take_succ_cons, List.map_cons, List.cons.injEq]
      constructor
      · rintro ⟨h1, h2, h3⟩; exact ⟨by omega, h1, h3⟩
      · rintro ⟨h1, h2, h3⟩; exact ⟨h2, by omega, h3⟩

theorem strncasecmp_token (line : List Nat) (token : String)
    (htok : ∀ c ∈ bytes token, tolower c ≠ 0) :
    strncasecmp line (bytes token) (bytes token).length = 0
      ↔ begins_with_ignoring_case line token = true := by
  rw [strncasecmp_eq_zero_iff _ htok]
  unfold begins_with_ignoring_case
  simp only [Bool.and_eq_true, decide_eq_true_eq, beq_iff_eq]

/-- The vendor test of `dissect_smtp` holds for a line of at least `linelen`
characters that begins with an upper-case "X" and with one of the three
tokens in any case. -/
theorem is_vendor_line_of_token (linelen : Nat) (line : List Nat)
    (hlen : line.length ≤ linelen) (hX : line.getD 0 0 = 88)
    (hv : begins_with_vendor_token line = true) :
    is_vendor_line linelen line = true := by
  have l1 : (bytes "X-EXPS ").length = 7 := by decide
  have l2 : (bytes "X-LINK2STATE ").length = 13 := by decide
  have l3 : (bytes "XEXCH50 ").length = 8 := by decide
  have t1 := strncasecmp_token line "X-EXPS " (by decide)
  have t2 := strncasecmp_token line "X-LINK2STATE " (by decide)
  have t3 := strncasecmp_token line "XEXCH50 " (by decide)
  rw [l1] at t1
  rw [l2] at t2
  rw [l3] at t3
  have len_of : ∀ token : String, begins_with_ignoring_case line token = true →
      (bytes token).length ≤ linelen := by
    intro token h
    unfold begins_with_ignoring_case at h
    simp only [Bool.and_eq_true, decide_eq_true_eq] at h
    omega
  unfold begins_with_vendor_token at hv
  simp only [Bool.or_eq_true] at hv
  unfold is_vendor_line
  simp only [Bool.and_eq_true, Bool.or_eq_true, decide_eq_true_eq, beq_iff_eq, t1, t2, t3]
  rcases hv with (h | h) | h
  · have := len_of _ h
    exact ⟨⟨by omega, hX⟩, Or.inl (Or.inl h)⟩
  · have := len_of _ h
    exact ⟨⟨by omega, hX⟩, Or.inl (Or.inr ⟨by omega, h⟩)⟩
  · have := len_of _ h
    exact ⟨⟨by omega, hX⟩, Or.inr ⟨by omega, h⟩⟩

/-- A line that passes the vendor test while `reading_data` is FALSE is
classified `SMTP_PDU_CMD` and the conversation state stays as it is,
whatever `data_seen` is. -/
theorem classify_vendor_line (linelen : Nat) (line : List Nat) (rv : smtp_request_val)
    (hrd : rv.reading_data = false) (hv : is_vendor_line linelen line = true) :
    classify_request linelen line false rv = (SMTP_PDU_CMD, rv) := by
  have hX : line.getD 0 0 = 88 := by
    unfold is_vendor_line at hv
    simp only [Bool.and_eq_true, beq_iff_eq] at hv
    exact hv.1.2
  have hD : ¬ strncasecmp line (bytes "DATA") 4 = 0 := by
    intro h
    have := ((strncasecmp_DATA line).mp h).1
    omega
  unfold classify_request
  rw [hrd]
  simp only [Bool.false_eq_true, if_false]
  by_cases hc : is_command_line linelen line = true
  · simp [hc, hD]
  · simp [hc, hv]

/-- A client line seen for the first time while `reading_data` is FALSE that
begins with an upper-case "X" and with one of the vendor tokens in any case
is classified `SMTP_PDU_CMD` and leaves the conversation state as it is,
also when `data_seen` is set. -/
theorem upper_case_vendor_line_is_command (env : Env) (tvb : tvbuff_t) (pinfo : packet_info)
    (st : SmtpState) (linelen next_offset : Nat)
    (hline : tvb_find_line_end tvb 0 (env.smtp_desegment && pinfo.can_desegment != 0)
      = some (linelen, next_offset))
    (hfirst : p_get_proto_data st.frame_data pinfo.fd_num = none)
    (hreq : is_request pinfo = true)
    (hrd : reading_data_of st pinfo = false)
    (hX : (tvb_get_ptr tvb 0 linelen).getD 0 0 = 88)
    (hv : begins_with_vendor_token (tvb_get_ptr tvb 0 linelen) = true) :
    frame_pdu_type (dissect_smtp env tvb pinfo st).st pinfo = some SMTP_PDU_CMD ∧
    current_request_val (dissect_smtp env tvb pinfo st).st pinfo
      = current_request_val st pinfo := by
  obtain ⟨d, hd, _, hpdu, hrv⟩ :=
    dissect_request_first env tvb pinfo st linelen next_offset hline hfirst hreq
  rw [check_eom_not_reading tvb _ hrd] at hd hrv
  have hlen : (tvb_get_ptr tvb 0 linelen).length ≤ linelen := by
    unfold tvb_get_ptr
    rw [List.length_take]
    exact Nat.min_le_left _ _
  have hcl := classify_vendor_line linelen (tvb_get_ptr tvb 0 linelen)
    (current_request_val st pinfo) hrd (is_vendor_line_of_token linelen _ hlen hX hv)
  rw [hcl] at hd hrv
  exact ⟨by rw [hpdu, hd], hrv⟩

/-- C36 fails for a vendor token that starts with a lower-case "x" once a
DATA command has been seen: after a whole message (`reading_data` FALSE,
`data_seen` set) the client line "x-exps AUTH", which begins with the token
"X-EXPS " compared ignoring case, is classified `SMTP_PDU_MESSAGE`, because
the test `line[0] == 'X'` in front of the `strncasecmp` calls is case
sensitive; the line "X-EXPS AUTH" is classified `SMTP_PDU_CMD`, and so is
"x-exps AUTH" in a conversation without a DATA command. In all three cases
`reading_data` stays FALSE. -/
theorem lower_case_vendor_line_is_message :
    reading_data_of message_sent_state (client_frame 4) = false ∧
    data_seen_of message_sent_state (client_frame 4) = 1 ∧
    begins_with_vendor_token (bytes "x-exps AUTH") = true ∧
    frame_pdu_type
      (dissect_smtp env_default (tvb_of "x-exps AUTH\r\n") (client_frame 4)
        message_sent_state).st (client_frame 4) = some SMTP_PDU_MESSAGE ∧
    reading_data_of
      (dissect_smtp env_default (tvb_of "x-exps AUTH\r\n") (client_frame 4)
        message_sent_state).st (client_frame 4) = false ∧
    frame_pdu_type
      (dissect_smtp env_default (tvb_of "xexch50 2 2\r\n") (client_frame 4)
        message_sent_state).st (client_frame 4) = some SMTP_PDU_MESSAGE ∧
    frame_pdu_type
      (dissect_smtp env_default (tvb_of "X-EXPS AUTH\r\n") (client_frame 4)
        message_sent_state).st (client_frame 4) = some SMTP_PDU_CMD ∧
    frame_pdu_type
      (dissect_smtp env_default (tvb_of "x-exps AUTH\r\n") (client_frame 1)
        empty_state).st (client_frame 1) = some SMTP_PDU_CMD := by
  decide


/-! ### Responses -/

theorem check_eom_keeps (tvb : tvbuff_t) (rv : smtp_request_val) :
    (check_eom tvb rv).1.reading_data = rv.reading_data ∧
    (check_eom tvb rv).1.data_seen = rv.data_seen ∧
    (check_eom tvb rv).1.crlf_seen
      = if rv.reading_data = true then (if ends_with_crlf tvb = true then 1 else 0)
        else rv.crlf_seen := by
  unfold check_eom
  by_cases h : rv.reading_data = true
  · by_cases e : ends_with_crlf tvb = true
    · simp [h, e]
    · simp [h, e]
  · simp [h]

/-- The `request_val` a response leaves for its conversation when a first
line is found: the one before, with `crlf_seen` set anew while `reading_data`
is TRUE. -/
theorem response_request_val (env : Env) (tvb : tvbuff_t) (p : packet_info) (st : SmtpState)
    (linelen next_offset : Nat)
    (hline : tvb_find_line_end tvb 0 (env.smtp_desegment && p.can_desegment != 0)
      = some (linelen, next_offset))
    (hfirst : p_get_proto_data st.frame_data p.fd_num = none)
    (hreq : is_request p = false) :
    current_request_val (dissect_smtp env tvb p st).st p
      = (check_eom tvb (current_request_val st p)).1 := by
  have hst := (dissect_smtp_first env tvb p st linelen next_offset hline hfirst).1
  rw [hreq] at hst
  unfold current_request_val
  rw [hst, first_pass_same]
  simp [next_request_val]

/-- A response changes neither `reading_data` nor
`data_seen` of any conversation, attaches per-frame data to no frame, and
leaves `crlf_seen` as it is in every other conversation and in its own
conversation while `reading_data` is FALSE. -/
theorem response_keeps_reading_data (env : Env) (tvb : tvbuff_t) (p : packet_info)
    (st : SmtpState) (hreq : is_request p = false) :
    (∀ q : packet_info,
      reading_data_of (dissect_smtp env tvb p st).st q = reading_data_of st q ∧
      data_seen_of (dissect_smtp env tvb p st).st q = data_seen_of st q ∧
      ((same_conv p q = false ∨ reading_data_of st p = false) →
        crlf_seen_of (dissect_smtp env tvb p st).st q = crlf_seen_of st q)) ∧
    (dissect_smtp env tvb p st).st.frame_data = st.frame_data := by
  cases hline : tvb_find_line_end tvb 0 (env.smtp_desegment && p.can_desegment != 0) with
  | none =>
    rw [(dissect_smtp_no_line env tvb p st hline).1]
    exact ⟨fun q => ⟨rfl, rfl, fun _ => rfl⟩, rfl⟩
  | some r =>
    obtain ⟨linelen, next_offset⟩ := r
    cases hf : p_get_proto_data st.frame_data p.fd_num with
    | some fd =>
      rw [dissect_smtp_revisit env tvb p st fd hf]
      exact ⟨fun q => ⟨rfl, rfl, fun _ => rfl⟩, rfl⟩
    | none =>
      have hrv := response_request_val env tvb p st linelen next_offset hline hf hreq
      have hk := check_eom_keeps tvb (current_request_val st p)
      constructor
      · intro q
        by_cases hc : same_conv p q = true
        · have hq : same_conv q p = true := by rw [same_conv_symm]; exact hc
          have e1 := current_request_val_congr (dissect_smtp env tvb p st).st q p hq
          have e2 := current_request_val_congr st q p hq
          unfold reading_data_of data_seen_of crlf_seen_of
          rw [e1, e2, hrv]
          refine ⟨hk.1, hk.2.1, ?_⟩
          intro h
          rcases h with h | h
          · rw [hc] at h; exact absurd h (by decide)
          · have h' : ¬ (current_request_val st p).reading_data = true := by
              rw [h]; decide
            rw [hk.2.2, if_neg h']
        · simp only [Bool.not_eq_true] at hc
          have e := dissect_smtp_other env tvb p q st hc
          unfold reading_data_of data_seen_of crlf_seen_of current_request_val
          rw [e]
          exact ⟨rfl, rfl, fun _ => rfl⟩
      · rw [(dissect_smtp_first env tvb p st linelen next_offset hline hf).1, hreq]
        exact (first_pass_response tvb p linelen (tvb_get_ptr tvb 0 linelen) st).2

/-- C38 fails for `crlf_seen`: the block that sets it runs for responses too.
After the client segment "DATA" CR LF (`reading_data` TRUE, `crlf_seen` 0)
the response "354 go ahead" CR LF sets `crlf_seen` to 1; after the body line
"Hello" CR LF (`crlf_seen` 1) a response that does not end in CR LF sets it
to 0, and the client segment "." CR LF that follows is then classified
`SMTP_PDU_MESSAGE` instead of `SMTP_PDU_EOM`. No per-frame data are attached
to the response, so a second dissection of it runs the block again. -/
theorem response_changes_crlf_seen :
    is_request (server_frame 2) = false ∧
    crlf_seen_of
      (dissect_smtp env_default (tvb_of "DATA\r\n") (client_frame 1) empty_state).st
      (client_frame 1) = 0 ∧
    crlf_seen_of
      (dissect_all env_default
        [⟨tvb_of "DATA\r\n", client_frame 1⟩, ⟨tvb_of "354 go ahead\r\n", server_frame 2⟩]
        empty_state) (client_frame 1) = 1 ∧
    crlf_seen_of body_line_sent_state (client_frame 1) = 1 ∧
    crlf_seen_of
      (dissect_smtp env_default (tvb_of "250-a\r\n250 b") (server_frame 3)
        body_line_sent_state).st (client_frame 1) = 0 ∧
    frame_pdu_type
      (dissect_all env_default
        [⟨tvb_of "250-a\r\n250 b", server_frame 3⟩, ⟨tvb_of ".\r\n", client_frame 4⟩]
        body_line_sent_state) (client_frame 4) = some SMTP_PDU_MESSAGE ∧
    frame_pdu_type
      (dissect_all env_default [⟨tvb_of ".\r\n", client_frame 4⟩] body_line_sent_state)
      (client_frame 4) = some SMTP_PDU_EOM ∧
    frame_pdu_type
      (dissect_smtp env_default (tvb_of "250-a\r\n250 b") (server_frame 3)
        body_line_sent_state).st (server_frame 3) = none := by
  decide

end Smtp

namespace Wiretap

/-! ## wiretap/file.c: the result of `wtap_dump_close` -/

/-- C33: `wtap_dump_close` returns 1 if and only if both the per-format close
routine and `fclose` succeed, and 0 otherwise. When the per-format close
routine fails, the caller's `*err` is as that routine left it (the error it
stored, when `err` is not NULL), whether `fclose` fails or not. When only
`fclose` fails and `err` is not NULL, `*err` receives `errno` as `fclose`
left it: the error `fclose` set, or `WTAP_ERR_CANT_CLOSE`, the value `errno`
was given before the call; when `err` is NULL nothing is stored. -/
theorem wtap_dump_close_result (env : DumpEnv) (s : DumpState) :
    ((wtap_dump_close env s).1 = 1
      ↔ (env.subtype_close_ok = true ∧ env.fclose_fails = false)) ∧
    ((wtap_dump_close env s).1 = 1 ∨ (wtap_dump_close env s).1 = 0) ∧
    (env.subtype_close_ok = false →
      (wtap_dump_close env s).2.err
        = (wtap_dump_close { env with fclose_fails := false } s).2.err ∧
      (env.err_is_null = false → ∀ e, env.subtype_close_err = some e →
        (wtap_dump_close env s).2.err = some e)) ∧
    (env.subtype_close_ok = true → env.fclose_fails = true →
      (wtap_dump_close env s).2.errno = (env.fclose_errno).getD ErrCode.WTAP_ERR_CANT_CLOSE ∧
      (env.err_is_null = false →
        (wtap_dump_close env s).2.err = some (wtap_dump_close env s).2.errno) ∧
      (env.err_is_null = true → (wtap_dump_close env s).2.err = s.err)) := by
  unfold wtap_dump_close
  refine ⟨?_, ?_, ?_, ?_⟩
  · cases env.fclose_fails <;> cases env.subtype_close_ok <;> simp
  · cases env.fclose_fails <;> cases env.subtype_close_ok <;> simp
  · intro hc
    rw [hc]
    refine ⟨?_, ?_⟩
    · cases env.fclose_fails <;> simp
    · intro hn e he
      rw [hn, he]
      cases env.fclose_fails <;> simp
  · intro hc hf
    rw [hc, hf]
    refine ⟨by simp, ?_, ?_⟩
    · intro hn
      rw [hn]
      simp
    · intro hn
      rw [hn]
      simp

theorem wtap_dump_close_result_witness :
    (wtap_dump_close dump_env_ok fresh_dump_state).1 = 1 ∧
    (wtap_dump_close dump_env_both_fail fresh_dump_state).1 = 0 ∧
    (wtap_dump_close dump_env_both_fail fresh_dump_state).2.err = some (ErrCode.os 28) ∧
    (wtap_dump_close dump_env_fclose_fails fresh_dump_state).1 = 0 ∧
    (wtap_dump_close dump_env_fclose_fails fresh_dump_state).2.err = some (ErrCode.os 5) :=
  have hb := wtap_dump_close_result dump_env_both_fail fresh_dump_state
  have hf := wtap_dump_close_result dump_env_fclose_fails fresh_dump_state
  ⟨(wtap_dump_close_result dump_env_ok fresh_dump_state).1.mpr ⟨by decide, by decide⟩,
   by decide,
   (hb.2.2.1 (by decide)).2 (by decide) (ErrCode.os 28) (by decide),
   by decide,
   by rw [(hf.2.2.2 (by decide) (by decide)).2.1 (by decide),
     (hf.2.2.2 (by decide) (by decide)).1]; decide⟩

end Wiretap

namespace Spoolss

/-! ## packet-dcerpc-spoolss.c: relative strings -/

theorem to_gint_of_small (x : Int) (h0 : 0 ≤ x) (h1 : x < 2147483648) :
    to_gint (to_guint32 x) = x := by
  unfold to_gint to_guint32
  have e : x % 4294967296 = x := Int.emod_eq_of_lt h0 (by omega)
  rw [Int.emod_emod_of_dvd _ (dvd_refl _), e, if_pos h1]

theorem relstr_offset_range (p : RelstrPacket) (offset : Int) :
    0 ≤ relstr_offset p offset ∧ relstr_offset p offset < 4294967296 := by
  unfold relstr_offset to_guint32
  constructor
  · exact Int.emod_nonneg _ (by decide)
  · exact Int.emod_lt_of_pos _ (by decide)

/-- C37: `prs_relstr` returns the offset that `prs_uint32` returned for the
relative-offset field, the end of the four bytes it shows as "Relative
offset", whatever the string functions do on the packet. When the relative
offset is not zero, `prs_uint16uni` is called once, at
`relstr_offset + struct_start` computed as a `guint32`, which is the sum
itself when the sum is an offset below 2^31, and the text is the string it
decodes. When the relative offset is zero, `prs_uint16uni` is not called, no
string bytes are read, and the text is "NULL". -/
theorem prs_relstr_offsets (p : RelstrPacket) (offset struct_start : Int)
    (name : Option (List Char)) :
    (prs_relstr p offset struct_start name).offset = (p.prs_uint32 offset).1 ∧
    (∀ q : RelstrPacket, q.prs_uint32 = p.prs_uint32 →
      (prs_relstr q offset struct_start name).offset
        = (prs_relstr p offset struct_start name).offset) ∧
    (prs_relstr p offset struct_start name).items[1]?
      = some { start := (prs_relstr p offset struct_start name).offset - 4
               length := 4
               label := Label.relative_offset (to_gint (relstr_offset p offset)) } ∧
    (relstr_offset p offset ≠ 0 →
      (prs_relstr p offset struct_start name).uint16uni_call
        = some (to_gint (to_guint32 (relstr_offset p offset + struct_start))) ∧
      (0 ≤ relstr_offset p offset + struct_start →
        relstr_offset p offset + struct_start < 2147483648 →
        (prs_relstr p offset struct_start name).uint16uni_call
          = some (struct_start + relstr_offset p offset)) ∧
      (prs_relstr p offset struct_start name).text
        = (prs_uint16uni p (to_gint (to_guint32 (relstr_offset p offset + struct_start)))
            none).text ∧
      (prs_relstr p offset struct_start name).fake_unicode_calls.length = 1) ∧
    (relstr_offset p offset = 0 →
      (prs_relstr p offset struct_start name).uint16uni_call = none ∧
      (prs_relstr p offset struct_start name).fake_unicode_calls = [] ∧
      (prs_relstr p offset struct_start name).text = "NULL".toList) := by
  refine ⟨rfl, ?_, rfl, ?_, ?_⟩
  · intro q hq
    show (q.prs_uint32 offset).1 = (p.prs_uint32 offset).1
    rw [hq]
  · intro hne
    refine ⟨?_, ?_, ?_, ?_⟩
    · show (if relstr_offset p offset ≠ 0 then
          some (to_gint (relstr_start p offset struct_start)) else none) = _
      rw [if_pos hne]
      rfl
    · intro h0 h1
      show (if relstr_offset p offset ≠ 0 then
          some (to_gint (relstr_start p offset struct_start)) else none) = _
      rw [if_pos hne]
      unfold relstr_start
      rw [to_gint_of_small _ h0 h1, add_comm]
    · show relstr_text p offset struct_start = _
      unfold relstr_text
      rw [if_pos hne]
      rfl
    · show (if relstr_offset p offset ≠ 0 then
          [(prs_uint16uni p (to_gint (relstr_start p offset struct_start)) none).fake_unicode_call]
          else []).length = 1
      rw [if_pos hne]
      rfl
  · intro h0
    have hn : ¬ relstr_offset p offset ≠ 0 := fun h => h h0
    refine ⟨?_, ?_, ?_⟩
    · show (if relstr_offset p offset ≠ 0 then
          some (to_gint (relstr_start p offset struct_start)) else none) = _
      rw [if_neg hn]
    · show (if relstr_offset p offset ≠ 0 then
          [(prs_uint16uni p (to_gint (relstr_start p offset struct_start)) none).fake_unicode_call]
          else []) = _
      rw [if_neg hn]
    · show relstr_text p offset struct_start = _
      unfold relstr_text
      rw [if_neg hn]

theorem prs_relstr_offsets_witness :
    relstr_offset (packet_of relstr_bytes) 8 = 8 ∧
    (prs_relstr (packet_of relstr_bytes) 8 8 none).offset = 12 ∧
    (prs_relstr (packet_of relstr_bytes) 8 8 none).uint16uni_call = some 16 ∧
    (prs_relstr (packet_of relstr_bytes) 8 8 none).text = "ab".toList ∧
    relstr_offset (packet_of relstr_bytes) 12 = 0 ∧
    (prs_relstr (packet_of relstr_bytes) 12 8 none).offset = 16 ∧
    (prs_relstr (packet_of relstr_bytes) 12 8 none).fake_unicode_calls = [] ∧
    (prs_relstr (packet_of relstr_bytes) 12 8 none).text = "NULL".toList :=
  have h := prs_relstr_offsets (packet_of relstr_bytes) 8 8 none
  have k := prs_relstr_offsets (packet_of relstr_bytes) 12 8 none
  ⟨by decide, by decide,
   (h.2.2.2.1 (by decide)).2.1 (by decide) (by decide),
   by rw [(h.2.2.2.1 (by decide)).2.2.1]; decide,
   by decide, by decide,
   (k.2.2.2.2 (by decide)).2.1,
   (k.2.2.2.2 (by decide)).2.2⟩

end Spoolss

namespace TokenRing

/-! ## packet-tr.c: `capture_tr` and `dissect_tr` -/

/-- C39: for every packet, `capture_tr` and `dissect_tr` make the same
source-routed decision and compute the same frame type, the same
`trn_rif_bytes` and `actual_rif_bytes` and the same payload offset
`14 + actual_rif_bytes`; `actual_rif_bytes` is 0, the 5-bit RIF length
`pd[14] & 31`, or 18, and is never smaller than `trn_rif_bytes`; and both
hand the payload on at that offset, to the LLC routine exactly when the frame
type is 1. -/
theorem capture_tr_dissect_tr_agree (pd : Nat → Nat) (cap_len : Nat) (tree : Bool) :
    (dissect_tr pd tree).source_routed = (capture_tr pd cap_len).source_routed ∧
    (dissect_tr pd tree).frame_type = (capture_tr pd cap_len).frame_type ∧
    (dissect_tr pd tree).trn_rif_bytes = (capture_tr pd cap_len).trn_rif_bytes ∧
    (dissect_tr pd tree).actual_rif_bytes = (capture_tr pd cap_len).actual_rif_bytes ∧
    (dissect_tr pd tree).offset = (capture_tr pd cap_len).offset ∧
    (capture_tr pd cap_len).offset = 14 + (capture_tr pd cap_len).actual_rif_bytes ∧
    ((capture_tr pd cap_len).actual_rif_bytes = 0 ∨
      (capture_tr pd cap_len).actual_rif_bytes = rif_length pd ∨
      (capture_tr pd cap_len).actual_rif_bytes = 18) ∧
    (capture_tr pd cap_len).trn_rif_bytes ≤ (capture_tr pd cap_len).actual_rif_bytes ∧
    ((capture_tr pd cap_len).frame_type = 1 →
      (capture_tr pd cap_len).next = Next.capture_llc (capture_tr pd cap_len).offset cap_len ∧
      (dissect_tr pd tree).next = DissectNext.dissect_llc (capture_tr pd cap_len).offset) ∧
    ((capture_tr pd cap_len).frame_type ≠ 1 →
      (capture_tr pd cap_len).next = Next.other ∧
      ((dissect_tr pd tree).next = DissectNext.dissect_trmac (capture_tr pd cap_len).offset ∨
       (dissect_tr pd tree).next = DissectNext.dissect_data (capture_tr pd cap_len).offset)) := by
  refine ⟨rfl, rfl, rfl, rfl, rfl, rfl, ?_, ?_, ?_, ?_⟩
  · unfold capture_tr rif_length
    simp only []
    split_ifs <;> simp
  · unfold capture_tr
    simp only []
    split_ifs <;> simp_all
  · intro h
    unfold capture_tr dissect_tr at *
    simp only [] at h ⊢
    simp [h]
  · intro h
    unfold capture_tr dissect_tr at *
    simp only [] at h ⊢
    simp only [h, if_false]
    refine ⟨trivial, ?_⟩
    split_ifs <;> simp

theorem capture_tr_dissect_tr_agree_witness :
    (capture_tr (frame_of long_rif_frame) 37).frame_type = 1 ∧
    (capture_tr (frame_of long_rif_frame) 37).next = Next.capture_llc 34 37 ∧
    (dissect_tr (frame_of long_rif_frame) false).next = DissectNext.dissect_llc 34 :=
  have h := capture_tr_dissect_tr_agree (frame_of long_rif_frame) 37 false
  have e : (capture_tr (frame_of long_rif_frame) 37).offset = 34 := by decide
  ⟨by decide, by rw [(h.2.2.2.2.2.2.2.2.1 (by decide)).1, e],
   by rw [(h.2.2.2.2.2.2.2.2.1 (by decide)).2, e]⟩

end TokenRing

namespace Mdshdr

/-! ## packet-mdshdr.c: the indices and the VSAN -/

theorem trailing_zeros_masks :
    trailing_zeros 16 hf_mdshdr_dstidx_mask = 2 ∧
    trailing_zeros 16 hf_mdshdr_srcidx_mask = 0 ∧
    trailing_zeros 16 hf_mdshdr_vsan_mask = 0 := by
  decide

/-- For every header that `dissect_mdshdr` reads in full, `pinfo->src_idx` is
the Src Index field and `pinfo->vsan` is the VSAN field as displayed, while
`pinfo->dst_idx` is the Dst Index field as displayed shifted right by four
more bits. -/
theorem dissect_mdshdr_pinfo_fields (tvb : Smtp.tvbuff_t) (p : MdsPinfo)
    (h : dissect_mdshdr_pinfo tvb = some p) :
    ∃ f, header_fields tvb = some f ∧
      p.src_idx = f.srcidx ∧ p.vsan = f.vsan ∧ p.dst_idx = f.dstidx >>> 4 := by
  unfold dissect_mdshdr_pinfo at h
  simp only [Option.bind_eq_some] at h
  obtain ⟨b1, _, w2, _, w13, h13, e, _, ws, hs, wd, hd, hp⟩ := h
  simp only [Option.some.injEq] at hp
  have h13' : tvb_get_ntohs tvb MDSHDR_VSAN_OFFSET = some w13 := by
    simpa using h13
  have hf : header_fields tvb = some
      { dstidx := field_value hf_mdshdr_dstidx_mask wd
        srcidx := field_value hf_mdshdr_srcidx_mask ws
        vsan := field_value hf_mdshdr_vsan_mask w13 } := by
    unfold header_fields
    rw [hd, hs, h13']
    rfl
  refine ⟨_, hf, ?_, ?_, ?_⟩
  · rw [← hp]
    show ws &&& 0x3FF = field_value hf_mdshdr_srcidx_mask ws
    unfold field_value
    rw [trailing_zeros_masks.2.1]
    rfl
  · rw [← hp]
    show w13 &&& 0x0FFF = field_value hf_mdshdr_vsan_mask w13
    unfold field_value
    rw [trailing_zeros_masks.2.2]
    rfl
  · rw [← hp]
    show (wd &&& 0xFFC) >>> 6 = (field_value hf_mdshdr_dstidx_mask wd) >>> 4
    unfold field_value
    rw [trailing_zeros_masks.1, Nat.shiftRight_add _ 2 4]
    rfl

/-- C40 fails for the destination index: for a header whose word at offset 5
is 0x0004 the field Dst Index (mask 0xFFC, right-aligned) is 1, while
`pinfo->dst_idx`, computed as `(word & 0xFFC) >> 6`, is 0; for the word
0x0ffc the field is 0x3ff and `pinfo->dst_idx` is 0x3f. In the same header
`pinfo->src_idx` and `pinfo->vsan` are the fields Src Index and VSAN. -/
theorem dst_idx_differs_from_field :
    tvb_get_ntohs header_dst_index_1 MDSHDR_DIDX_OFFSET = some 0x0004 ∧
    (header_fields header_dst_index_1).map (fun f => f.dstidx) = some 1 ∧
    (dissect_mdshdr_pinfo header_dst_index_1).map (fun p => p.dst_idx) = some 0 ∧
    (dissect_mdshdr_pinfo header_dst_index_1).map (fun p => p.src_idx)
      = (header_fields header_dst_index_1).map (fun f => f.srcidx) ∧
    (dissect_mdshdr_pinfo header_dst_index_1).map (fun p => p.vsan)
      = (header_fields header_dst_index_1).map (fun f => f.vsan) ∧
    field_value hf_mdshdr_dstidx_mask 0x0ffc = 0x3ff ∧
    (0x0ffc &&& 0xFFC) >>> 6 = 0x3f := by
  decide

end Mdshdr

namespace Editcap

/-! ## editcap: the fraction of the time stamp -/

/-- The block that adds or subtracts the microseconds leaves a normalised
fraction normalised, except when the sum of the fraction and the adjustment is
exactly one second: the carry test is `>`. -/
theorem adjust_usecs_normalised (adj : time_adjustment) (phdr : wtap_pkthdr)
    (hn : normalised phdr) (h0 : 0 ≤ adj.tv_usec) (h1 : adj.tv_usec < 1000000)
    (hne : adj.is_negative = true ∨ phdr.ts_secs ≤ 0
      ∨ phdr.ts_nsecs + adj.tv_usec * 1000 ≠ 1000000000) :
    normalised (adjust_usecs adj phdr) := by
  obtain ⟨hn0, hn1⟩ := hn
  unfold adjust_usecs
  by_cases hg : phdr.ts_secs > 0 ∧ adj.tv_usec ≠ 0
  · rw [if_pos hg]
    by_cases hneg : adj.is_negative = true
    · rw [if_pos hneg]
      by_cases hb : phdr.ts_nsecs.tdiv 1000 < adj.tv_usec
      · rw [if_pos hb]
        have hlt : phdr.ts_nsecs < adj.tv_usec * 1000 := by
          rw [Int.tdiv_eq_ediv hn0 (by decide)] at hb
          omega
        show 0 ≤ phdr.ts_nsecs + ONE_MILLION * 1000 - adj.tv_usec * 1000 ∧
          phdr.ts_nsecs + ONE_MILLION * 1000 - adj.tv_usec * 1000 < 1000000000
        unfold ONE_MILLION
        omega
      · rw [if_neg hb]
        have hge : adj.tv_usec * 1000 ≤ phdr.ts_nsecs := by
          rw [Int.tdiv_eq_ediv hn0 (by decide)] at hb
          omega
        show 0 ≤ phdr.ts_nsecs - adj.tv_usec * 1000 ∧
          phdr.ts_nsecs - adj.tv_usec * 1000 < 1000000000
        omega
    · rw [if_neg hneg]
      by_cases hc : phdr.ts_nsecs + adj.tv_usec * 1000 > ONE_MILLION * 1000
      · rw [if_pos hc]
        show 0 ≤ phdr.ts_nsecs + (adj.tv_usec - ONE_MILLION) * 1000 ∧
          phdr.ts_nsecs + (adj.tv_usec - ONE_MILLION) * 1000 < 1000000000
        unfold ONE_MILLION at hc ⊢
        omega
      · rw [if_neg hc]
        show 0 ≤ phdr.ts_nsecs + adj.tv_usec * 1000 ∧
          phdr.ts_nsecs + adj.tv_usec * 1000 < 1000000000
        unfold ONE_MILLION at hc
        have hs : phdr.ts_nsecs + adj.tv_usec * 1000 ≠ 1000000000 := by
          rcases hne with h | h | h
          · exact absurd h hneg
          · exact absurd hg.1 (by omega)
          · exact h
        omega
  · rw [if_neg hg]
    exact ⟨hn0, hn1⟩

theorem ts_nsecs_before_usecs (opts : Options) (phdr : wtap_pkthdr) :
    (adjust_secs opts.time_adj (snap opts.snaplen (chop opts.choplen phdr))).ts_nsecs
      = phdr.ts_nsecs := by
  unfold adjust_secs snap chop
  split_ifs <;> rfl

/-- The header `editcap` writes has a normalised time stamp when the record
has one and the adjustment is a subtraction, or an addition whose fraction
does not bring the fraction of the record to exactly one second. -/
theorem edit_phdr_normalised (opts : Options) (phdr : wtap_pkthdr)
    (hn : normalised phdr) (h0 : 0 ≤ opts.time_adj.tv_usec)
    (h1 : opts.time_adj.tv_usec < 1000000)
    (hne : opts.time_adj.is_negative = true
      ∨ phdr.ts_nsecs + opts.time_adj.tv_usec * 1000 ≠ 1000000000) :
    normalised (edit_phdr opts phdr) := by
  unfold edit_phdr
  apply adjust_usecs_normalised _ _ _ h0 h1
  · rw [ts_nsecs_before_usecs]
    rcases hne with h | h
    · exact Or.inl h
    · exact Or.inr (Or.inr h)
  · unfold normalised
    rw [ts_nsecs_before_usecs]
    exact hn

/-- C31 fails when the fraction of the record and the fraction of the
adjustment add up to exactly one second: with `-t 0.5` (parsed as 0 seconds
and 500000 microseconds) a record stamped 1.500000000 is written with
`ts.secs = 1` and `ts.nsecs = 1000000000`, because the carry is made only
when the sum is greater than `ONE_MILLION * 1000`. A record stamped
1.500000001 is carried to 2.000000001. -/
theorem nsecs_reaches_one_billion :
    set_time_adjustment 2147483647 no_adjustment "0.5".toList = some forward_half.time_adj ∧
    normalised (record_at_half 1) ∧
    (edit_phdr forward_half (record_at_half 1)).ts_secs = 1 ∧
    (edit_phdr forward_half (record_at_half 1)).ts_nsecs = 1000000000 ∧
    ¬ normalised (edit_phdr forward_half (record_at_half 1)) ∧
    edit_phdr forward_half { record_at_half 1 with ts_nsecs := 500000001 }
      = { record_at_half 1 with ts_secs := 2, ts_nsecs := 1 } := by
  decide

end Editcap
